import Mathlib

/-!
# A shallow embedding of the `hashmap` package (Go runtime map, vendored)

This file models the hash-table engine found in the repository's `hashmap`
package (`part_004` = the generic map implementation, `part_005` = the
fast-path specializations, `part_006` and the named files = thin wrappers).

Modelling conventions:

* Machine integers become `Nat` with explicit truncation where overflow can
  matter (`% 2^64` for `uintptr` hash values, `% 2^16` for the `noverflow`
  counter).  Bit operations use `&&&`, `|||`, `>>>`, `<<<` on `Nat`;
  Go's `&^` (AND NOT) is `andNot` below.
* Memory layout disappears: a bucket (`bmap`) is a list of eight slots,
  each slot holding its `tophash` byte, key and value.  An overflow chain
  is the list of buckets hanging off one bucket-array cell (the main bucket
  first).  `Indirectkey`/`Indirectvalue` storage is a layout decision with
  no observable effect in this model and is dropped.
* The type descriptor `runtimer.MapType` becomes `MapType`: the hash and
  equality algorithms plus the `Reflexivekey`/`Needkeyupdate` bits.
  `Fastrand` becomes an oracle stream `MapType.rand` consumed at a cursor
  `Hmap.rc` carried in the map header.
* `runtimer.Throw` and `panic` become the `Fatal` error monad (`Except`).
  A `*hmap` argument that may be `nil` becomes `Option (Hmap α β)`.
* `mapassign` in the source returns a pointer into which the caller
  (`Map.Put` and friends) immediately stores the value; the model's
  `mapassign` takes the value and performs that store, i.e. it models
  `mapassign` followed by the caller's `Typedmemmove`.
* The GC bookkeeping (`hmap.overflow`, `h.createOverflow`, the
  `KindNoPointers` tests, `Msanread`) keeps overflow buckets alive and has
  no observable effect on map contents; it is not modelled.  The only
  semantic effect of `setoverflow` — `incrnoverflow` and linking the new
  bucket into the chain — is kept.
-/

set_option autoImplicit false

namespace GoMap

/-- Go's `a &^ b` (AND NOT): clear in `a` every bit set in `b`.
`a &&& b` is a sub-mask of `a`, so the subtraction clears exactly those
bits (`andNot_eq_ldiff` below identifies this with bitwise set
difference). -/
def andNot (a b : Nat) : Nat := a - (a &&& b)

/-! ## Constants (source `part_004`, lines 62–103) -/

/-- Maximum number of key/value pairs a bucket can hold (`bucketCnt = 1 << 3`). -/
def bucketCnt : Nat := 8

/-- `empty`: cell is empty. -/
def emptyCell : Nat := 0

/-- `evacuatedEmpty`: cell is empty, bucket is evacuated. -/
def evacuatedEmpty : Nat := 1

/-- `evacuatedX`: entry has been evacuated to the first half of the larger table. -/
def evacuatedX : Nat := 2

/-- `evacuatedY`: entry has been evacuated to the second half of the larger table. -/
def evacuatedY : Nat := 3

/-- `minTopHash`: minimum tophash for a normal filled cell. -/
def minTopHash : Nat := 4

/-- flag `iterator`: there may be an iterator using buckets. -/
def iterFlag : Nat := 1

/-- flag `oldIterator`: there may be an iterator using oldbuckets. -/
def oldIterFlag : Nat := 2

/-- flag `hashWriting`: a goroutine is writing to the map. -/
def hashWriting : Nat := 4

/-- flag `sameSizeGrow`: the current map growth is to a new map of the same size. -/
def sameSizeGrowFlag : Nat := 8

/-- `noCheck`: sentinel bucket ID for iterator checks, `1<<(8*PtrSize) - 1`. -/
def noCheck : Nat := 2 ^ 64 - 1

/-- Word width: `runtimer.PtrSize * 8 = 64` on the modelled platform. -/
def wordBits : Nat := 64

/-- Truncation to `uintptr` width. -/
def mask64 (n : Nat) : Nat := n % 2 ^ 64

/-! ## Data model -/

/-- One cell of a bucket: its `tophash` byte together with the key and value
stored at the same index (`bmap` keeps these in three parallel arrays; the
slot view is layout-neutral). -/
structure Slot (α β : Type) where
  top : Nat
  key : α
  val : β
  deriving DecidableEq, Repr

/-- A bucket (`bmap`): eight slots.  The length-8 constraint is part of the
well-formedness predicate rather than the type. -/
abbrev Bucket (α β : Type) := List (Slot α β)

/-- A bucket-array cell together with its overflow chain: the main bucket is
element 0, `b.overflow(t)` is the next list element, `nil` is the end. -/
abbrev Chain (α β : Type) := List (Bucket α β)

/-- The type descriptor (`runtimer.MapType`) plus the runtime services the
engine uses: `Key.Alg.Hash`, `Key.Alg.Equal`, `Reflexivekey`,
`Needkeyupdate`, and the `Fastrand` oracle (a fixed stream read at the
cursor `Hmap.rc`).  `ptrEq` models Go pointer equality of string data
pointers (`k.Str == key.Str` in the fast string paths); soundness of that
shortcut is the hypothesis `ptrEq a b = true → a = b` where needed. -/
structure MapType (α β : Type) where
  hash : α → Nat → Nat
  equal : α → α → Bool
  reflexivekey : Bool
  needkeyupdate : Bool
  ptrEq : α → α → Bool
  rand : Nat → Nat

/-- The map header (`hmap`).  `buckets = []` models a `nil` bucket pointer
(lazily allocated); `oldbuckets = none` models a `nil` old-bucket pointer.
`rc` is the model's cursor into the `Fastrand` oracle stream. -/
structure Hmap (α β : Type) where
  count : Nat
  flags : Nat
  B : Nat
  noverflow : Nat
  hash0 : Nat
  buckets : List (Chain α β)
  oldbuckets : Option (List (Chain α β))
  nevacuate : Nat
  rc : Nat
  deriving DecidableEq, Repr

/-- Fatal outcomes: `runtimer.Throw` and `panic` sites in the engine. -/
inductive Fatal where
  | concurrentReadWrite
  | concurrentWrite
  | concurrentIterWrite
  | nilMapAssign
  | badMapState
  | hintOutOfRange
  deriving DecidableEq, Repr

/-- The result of `mapaccess1`/`mapaccess2`: an `unsafe.Pointer` that is
either nil, the shared zero object `&zeroVal[0]`, or a reference to a stored
value (modelled by the value itself). -/
inductive Ref (β : Type) where
  | nullRef
  | zeroRef
  | valRef (v : β)
  deriving DecidableEq, Repr

variable {α β : Type} [Inhabited α] [Inhabited β]

/-- A fresh all-zero slot (`Typedmemclr` result / `Newobject` content). -/
def emptySlot : Slot α β := ⟨emptyCell, default, default⟩

/-- A freshly allocated bucket: eight empty slots. -/
def newBucket : Bucket α β := List.replicate bucketCnt emptySlot

/-- Truncated hash of a key: `alg.Hash(key, uintptr(h.hash0))` as a 64-bit
value. -/
def hashOf (t : MapType α β) (k : α) (hash0 : Nat) : Nat := mask64 (t.hash k hash0)

/-- `top := uint8(hash >> (PtrSize*8 - 8)); if top < minTopHash { top += minTopHash }`. -/
def tophashOf (hash : Nat) : Nat :=
  let top := hash >>> (wordBits - 8)
  if top < minTopHash then top + minTopHash else top

/-- `evacuated(b)`: the bucket's first tophash byte is an evacuation marker. -/
def evacuatedB (b : Bucket α β) : Bool :=
  let h := (b.headD emptySlot).top
  decide (emptyCell < h ∧ h < minTopHash)

/-- `evacuated` applied to the main bucket of a chain (how all callers use it). -/
def evacuatedChain (c : Chain α β) : Bool := evacuatedB (c.headD [])

namespace Hmap

/-- `h.growing()`: the map is growing (to the same or a bigger size). -/
def growing (h : Hmap α β) : Bool := h.oldbuckets.isSome

/-- `h.sameSizeGrow()`: the current growth is to a map of the same size. -/
def isSameSizeGrow (h : Hmap α β) : Bool := decide (h.flags &&& sameSizeGrowFlag ≠ 0)

/-- `h.noldbuckets()`: number of buckets prior to the current growth. -/
def noldbuckets (h : Hmap α β) : Nat :=
  2 ^ (if h.isSameSizeGrow then h.B else h.B - 1)

/-- `h.oldbucketmask()`. -/
def oldbucketmask (h : Hmap α β) : Nat := h.noldbuckets - 1

end Hmap

/-- `h.incrnoverflow()`: exact count below `B = 16`, probabilistic above
(the `Fastrand()` draw comes from the oracle stream at cursor `rc`).
`noverflow` is a `uint16`. -/
def incrnoverflow (t : MapType α β) (h : Hmap α β) : Hmap α β :=
  if h.B < 16 then
    { h with noverflow := (h.noverflow + 1) % 2 ^ 16 }
  else
    let mask := (1 <<< (h.B - 15)) - 1
    if t.rand h.rc &&& mask = 0 then
      { h with noverflow := (h.noverflow + 1) % 2 ^ 16, rc := h.rc + 1 }
    else
      { h with rc := h.rc + 1 }

/-- `overLoadFactor(count, B)`: `count >= bucketCnt && float32(count) >=
loadFactor*float32(uintptr(1)<<B)` with `loadFactor = 6.5`.  The model uses
the exact rational comparison `2*count >= 13 * (2^B mod 2^64)`; both sides
of the source's `float32` comparison are exactly representable whenever
`count < 2^24`, where the two definitions agree (the shift `uintptr(1)<<B`
wraps at 64 bits, which the model keeps). -/
def overLoadFactor (count : Nat) (B : Nat) : Bool :=
  decide (bucketCnt ≤ count ∧ 13 * mask64 (2 ^ B) ≤ 2 * count)

/-- `tooManyOverflowBuckets(noverflow, B)`. -/
def tooManyOverflowBuckets (noverflow : Nat) (B : Nat) : Bool :=
  if B < 16 then decide ((1 <<< B) ≤ noverflow) else decide (2 ^ 15 ≤ noverflow)

/-! ## Lookup (`mapaccess1`, `mapaccess2`, `mapaccessK`) -/

/-- The inner slot loop shared by the generic lookups: skip slots whose
tophash differs, compare keys on a tophash match, return the value on the
first hit. -/
def bucketAccess (t : MapType α β) (top : Nat) (k : α) : Bucket α β → Option β
  | [] => none
  | s :: rest =>
    if s.top = top ∧ t.equal k s.key = true then some s.val
    else bucketAccess t top k rest

/-- The outer loop of the generic lookups: walk the overflow chain. -/
def chainAccess (t : MapType α β) (top : Nat) (k : α) : Chain α β → Option β
  | [] => none
  | b :: rest =>
    match bucketAccess t top k b with
    | some v => some v
    | none => chainAccess t top k rest

/-- The bucket a generic read consults: `hash & m` in the current array,
redirected to the old-generation bucket (masked down a power of two when the
growth is to a bigger size) while that bucket is not yet evacuated. -/
def readChain (h : Hmap α β) (hash : Nat) : Chain α β :=
  let m := 2 ^ h.B - 1
  let c0 := h.buckets.getD (hash &&& m) []
  match h.oldbuckets with
  | some old =>
    let m' := if ¬ h.isSameSizeGrow then m >>> 1 else m
    let oldb := old.getD (hash &&& m') []
    if ¬ evacuatedChain oldb then oldb else c0
  | none => c0

/-- `mapaccess1(t, h, key)`: one-result lookup.  Returns a reference to the
shared zero object (never nil) on a miss, including for a nil map or a map
with `count == 0`; throws on a concurrent write. -/
def mapaccess1 (t : MapType α β) (h? : Option (Hmap α β)) (k : α) :
    Except Fatal (Ref β) :=
  match h? with
  | none => .ok .zeroRef
  | some h =>
    if h.count = 0 then .ok .zeroRef
    else if h.flags &&& hashWriting ≠ 0 then .error .concurrentReadWrite
    else
      let hash := hashOf t k h.hash0
      match chainAccess t (tophashOf hash) k (readChain h hash) with
      | some v => .ok (.valRef v)
      | none => .ok .zeroRef

/-- `mapaccess2(t, h, key)`: two-result lookup; the boolean reports presence. -/
def mapaccess2 (t : MapType α β) (h? : Option (Hmap α β)) (k : α) :
    Except Fatal (Ref β × Bool) :=
  match h? with
  | none => .ok (.zeroRef, false)
  | some h =>
    if h.count = 0 then .ok (.zeroRef, false)
    else if h.flags &&& hashWriting ≠ 0 then .error .concurrentReadWrite
    else
      let hash := hashOf t k h.hash0
      match chainAccess t (tophashOf hash) k (readChain h hash) with
      | some v => .ok (.valRef v, true)
      | none => .ok (.zeroRef, false)

/-- The inner loop of `mapaccessK`: like `bucketAccess` but returning the
stored key as well. -/
def bucketAccessK (t : MapType α β) (top : Nat) (k : α) : Bucket α β → Option (α × β)
  | [] => none
  | s :: rest =>
    if s.top = top ∧ t.equal k s.key = true then some (s.key, s.val)
    else bucketAccessK t top k rest

/-- Chain walk for `mapaccessK`. -/
def chainAccessK (t : MapType α β) (top : Nat) (k : α) : Chain α β → Option (α × β)
  | [] => none
  | b :: rest =>
    match bucketAccessK t top k b with
    | some kv => some kv
    | none => chainAccessK t top k rest

/-- `mapaccessK(t, h, key)`: returns both stored key and value (used by the
iterator); `nil, nil` — here `none` — on a miss.  No write-flag check in the
source. -/
def mapaccessK (t : MapType α β) (h? : Option (Hmap α β)) (k : α) :
    Option (α × β) :=
  match h? with
  | none => none
  | some h =>
    if h.count = 0 then none
    else
      let hash := hashOf t k h.hash0
      chainAccessK t (tophashOf hash) k (readChain h hash)

/-! ## Writing into a chain (scan helpers shared by `mapassign`/`mapdelete`)

The source performs a single scan that simultaneously looks for the key and
records the first empty cell (`inserti`).  The model splits this into a
find-and-update pass (`chainUpdate`) and, on a miss, an insert-at-first-empty
pass (`chainInsertEmpty`): the insert position — the first cell with
`tophash == empty` in chain order — is exactly the cell `inserti` records,
so the two-pass form computes the same result. -/

/-- Apply `f` to the first slot of the bucket whose tophash matches `top` and
whose key compares equal to `k`; `none` if the bucket has no such slot. -/
def bucketUpdate (t : MapType α β) (top : Nat) (k : α) (f : Slot α β → Slot α β) :
    Bucket α β → Option (Bucket α β)
  | [] => none
  | s :: rest =>
    if s.top = top ∧ t.equal k s.key = true then some (f s :: rest)
    else (bucketUpdate t top k f rest).map (s :: ·)

/-- `bucketUpdate` lifted over the overflow chain. -/
def chainUpdate (t : MapType α β) (top : Nat) (k : α) (f : Slot α β → Slot α β) :
    Chain α β → Option (Chain α β)
  | [] => none
  | b :: rest =>
    match bucketUpdate t top k f b with
    | some b' => some (b' :: rest)
    | none => (chainUpdate t top k f rest).map (b :: ·)

/-- Store `s'` in the first slot of the bucket whose tophash is `empty`;
`none` if the bucket is full. -/
def bucketInsertEmpty (s' : Slot α β) : Bucket α β → Option (Bucket α β)
  | [] => none
  | s :: rest =>
    if s.top = emptyCell then some (s' :: rest)
    else (bucketInsertEmpty s' rest).map (s :: ·)

/-- `bucketInsertEmpty` lifted over the overflow chain (the cell `inserti`
points at). -/
def chainInsertEmpty (s' : Slot α β) : Chain α β → Option (Chain α β)
  | [] => none
  | b :: rest =>
    match bucketInsertEmpty s' b with
    | some b' => some (b' :: rest)
    | none => (chainInsertEmpty s' rest).map (b :: ·)

/-! ## Growth (`hashGrow`, `evacuate`, `growWork`) -/

/-- `hashGrow(t, h)`: decide between doubling and same-size growth, move the
current array to `oldbuckets`, allocate `2^(B+bigger)` fresh buckets, reset
the evacuation cursor and the overflow counter, and demote the `iterator`
flag to `oldIterator`. -/
def hashGrow (_t : MapType α β) (h : Hmap α β) : Hmap α β :=
  let overLoad := overLoadFactor h.count h.B
  let bigger := if overLoad then 1 else 0
  let flags0 := if overLoad then h.flags else h.flags ||| sameSizeGrowFlag
  let flags1 := andNot flags0 (iterFlag ||| oldIterFlag)
  let flags := if flags0 &&& iterFlag ≠ 0 then flags1 ||| oldIterFlag else flags1
  { h with
    B := h.B + bigger
    flags := flags
    oldbuckets := some h.buckets
    buckets := List.replicate (2 ^ (h.B + bigger)) ([newBucket] : Chain α β)
    nevacuate := 0
    noverflow := 0 }

/-- The write cursor into a destination chain during `evacuate`: already
filled buckets (`done`, newly allocated), the bucket currently being filled
(`cur`, position `xi`). -/
structure EvacDest (α β : Type) where
  done : List (Bucket α β)
  cur : Bucket α β
  xi : Nat

/-- Write one evacuated slot at the destination cursor: on a full bucket,
allocate a fresh overflow bucket (`h.setoverflow`, which bumps `noverflow`)
and continue there. -/
def pushSlot (t : MapType α β) (s : Slot α β) (d : EvacDest α β) (h : Hmap α β) :
    EvacDest α β × Hmap α β :=
  if d.xi = bucketCnt then
    ({ done := d.done ++ [d.cur]
       cur := s :: List.replicate (bucketCnt - 1) emptySlot
       xi := 1 },
     incrnoverflow t h)
  else
    ({ d with cur := d.cur.set d.xi s, xi := d.xi + 1 }, h)

/-- Reassemble a destination chain from the cursor.  If no overflow bucket
was allocated the original tail is still linked behind the main bucket;
otherwise `setoverflow` redirected the main bucket's overflow pointer into
the freshly allocated buckets. -/
def destChain (origTail : List (Bucket α β)) (d : EvacDest α β) : Chain α β :=
  match d.done with
  | [] => d.cur :: origTail
  | _ => d.done ++ [d.cur]

/-- The evacuation decision for one non-empty slot (source lines 985–1015):
`useX` (low half) together with the tophash to store at the destination.
For a grow to a bigger size the key is rehashed; if an iterator may be
running and the key is not reflexive and does not compare equal to itself,
the relevant hash bit is overridden by the low bit of the stored tophash and
the tophash is recomputed from the adjusted hash. -/
def evacDecision (t : MapType α β) (h : Hmap α β) (newbit : Nat) (s : Slot α β) :
    Bool × Nat :=
  if ¬ h.isSameSizeGrow then
    let hash := hashOf t s.key h.hash0
    let hashTop :=
      if h.flags &&& iterFlag ≠ 0 ∧ t.reflexivekey = false ∧ t.equal s.key s.key = false then
        let hash' := if s.top &&& 1 ≠ 0 then hash ||| newbit else andNot hash newbit
        (hash', tophashOf hash')
      else (hash, s.top)
    (decide (hashTop.1 &&& newbit = 0), hashTop.2)
  else
    (true, s.top)

/-- State threaded through the evacuation of one old bucket's slots. -/
structure EvacState (α β : Type) where
  x : EvacDest α β
  y : EvacDest α β
  h : Hmap α β

/-- Evacuate one slot: empty cells are marked `evacuatedEmpty`; a tophash
below `minTopHash` on a non-empty cell is a fatal `bad map state`; otherwise
the slot is copied to the X or Y destination and the source cell is marked
`evacuatedX`/`evacuatedY`.  Returns the marker for the source cell. -/
def evacuateSlot (t : MapType α β) (newbit : Nat) (st : EvacState α β) (s : Slot α β) :
    Except Fatal (Nat × EvacState α β) :=
  if s.top = emptyCell then .ok (evacuatedEmpty, st)
  else if s.top < minTopHash then .error .badMapState
  else
    if (evacDecision t st.h newbit s).1 then
      let xh := pushSlot t { s with top := (evacDecision t st.h newbit s).2 } st.x st.h
      .ok (evacuatedX, { st with x := xh.1, h := xh.2 })
    else
      let yh := pushSlot t { s with top := (evacDecision t st.h newbit s).2 } st.y st.h
      .ok (evacuatedY, { st with y := yh.1, h := yh.2 })

/-- Evacuate the slots of one source bucket, producing the marked bucket
(tophash bytes replaced by evacuation markers, keys/values left in place). -/
def evacuateBucket (t : MapType α β) (newbit : Nat) (st : EvacState α β) :
    Bucket α β → Except Fatal (Bucket α β × EvacState α β)
  | [] => .ok ([], st)
  | s :: rest =>
    match evacuateSlot t newbit st s with
    | .error e => .error e
    | .ok (mark, st1) =>
      match evacuateBucket t newbit st1 rest with
      | .error e => .error e
      | .ok (rest2, st2) => .ok ({ s with top := mark } :: rest2, st2)

/-- Evacuate a whole source chain (`for ; b != nil; b = b.overflow(t)`). -/
def evacuateChain (t : MapType α β) (newbit : Nat) (st : EvacState α β) :
    Chain α β → Except Fatal (Chain α β × EvacState α β)
  | [] => .ok ([], st)
  | b :: rest =>
    match evacuateBucket t newbit st b with
    | .error e => .error e
    | .ok (b2, st1) =>
      match evacuateChain t newbit st1 rest with
      | .error e => .error e
      | .ok (rest2, st2) => .ok (b2 :: rest2, st2)

/-- The `for h.nevacuate != stop && bucketEvacuated(...)` advance loop.
`fuel` bounds the walk (`stop - nev ≤ 1024` for all callers; the fuel is
never exhausted for in-range states because the walk stops at `stop` or at
the first unevacuated bucket). -/
def advanceLoop (old : List (Chain α β)) (stop : Nat) : Nat → Nat → Nat
  | 0, nev => nev
  | fuel + 1, nev =>
    if nev = stop then nev
    else if evacuatedChain (old.getD nev []) then advanceLoop old stop fuel (nev + 1)
    else nev

/-- The evacuation-mark advance at the end of `evacuate` (source lines
1081–1104): bump the cursor past the bucket just evacuated and any further
already-evacuated buckets (at most 1024), and on reaching the old bucket
count finish the growth: drop `oldbuckets` and clear the `sameSizeGrow`
flag. -/
def evacAdvance (h : Hmap α β) (old : List (Chain α β)) (oldbucket newbit : Nat) :
    Hmap α β :=
  if oldbucket = h.nevacuate then
    let nev0 := oldbucket + 1
    let stop := min (nev0 + 1024) newbit
    let nev := advanceLoop old stop (1025 + old.length) nev0
    if nev = newbit then
      { h with nevacuate := nev, oldbuckets := none,
               flags := andNot h.flags sameSizeGrowFlag }
    else
      { h with nevacuate := nev }
  else h

/-- `evacuate(t, h, oldbucket)`.  If the old bucket is not yet evacuated,
split its entries between the X destination (same index) and — for a grow to
a bigger size — the Y destination (index + old bucket count), marking each
source cell; if no iterator can be using the old generation, the old
bucket's key/value storage and overflow link are cleared (markers kept).
Finally advance the evacuation cursor. -/
def evacuate (t : MapType α β) (h : Hmap α β) (oldbucket : Nat) :
    Except Fatal (Hmap α β) :=
  match h.oldbuckets with
  | none => .ok h
  | some old =>
    let b := old.getD oldbucket []
    let newbit := h.noldbuckets
    if ¬ evacuatedChain b then
      let xchain := h.buckets.getD oldbucket []
      let ychain := h.buckets.getD (oldbucket + newbit) []
      match evacuateChain t newbit
          ⟨⟨[], xchain.headD newBucket, 0⟩, ⟨[], ychain.headD newBucket, 0⟩, h⟩ b with
      | .error e => .error e
      | .ok (marked, st) =>
        let bks1 := st.h.buckets.set oldbucket (destChain (xchain.drop 1) st.x)
        let bks2 :=
          if ¬ h.isSameSizeGrow then
            bks1.set (oldbucket + newbit) (destChain (ychain.drop 1) st.y)
          else bks1
        let markedFinal :=
          if h.flags &&& oldIterFlag = 0 then
            [(marked.headD []).map (fun s => { s with key := default, val := default })]
          else marked
        let h2 := { st.h with buckets := bks2,
                              oldbuckets := some (old.set oldbucket markedFinal) }
        .ok (evacAdvance h2 (old.set oldbucket markedFinal) oldbucket newbit)
    else
      .ok (evacAdvance h old oldbucket newbit)

/-- `growWork(t, h, bucket)`: evacuate the old bucket corresponding to the
bucket about to be used, then — if still growing — one more old bucket at
the evacuation cursor. -/
def growWork (t : MapType α β) (h : Hmap α β) (bucket : Nat) :
    Except Fatal (Hmap α β) := do
  let h1 ← evacuate t h (bucket &&& h.oldbucketmask)
  if h1.growing then evacuate t h1 h1.nevacuate else .ok h1

/-- `bucketEvacuated(t, h, bucket)`. -/
def bucketEvacuated (h : Hmap α β) (bucket : Nat) : Bool :=
  evacuatedChain ((h.oldbuckets.getD []).getD bucket [])

/-! ## Insert / update (`mapassign`) and delete (`mapdelete`) -/

/-- The scan-and-insert part of one `again:` pass of `mapassign` (the code
after `growWork`), including the caller's value store (see the module
comment): look for the key in the addressed chain and update it in place on
a hit (refreshing the key when the descriptor demands it); otherwise check
the growth trigger — not already growing, and over the load factor or too
many overflow buckets — and on a trigger start the grow and signal a
restart of the whole operation (`.inr`, the source's `goto again`);
otherwise store the entry at the first empty cell, allocating a new
overflow bucket when the chain is full, and bump `count`.  `allowGrow` is
`true` except when the restart budget of `mapassignLoop` is exhausted,
which cannot happen from well-formed states. -/
def mapassignScan (t : MapType α β) (k : α) (v : β) (hash : Nat)
    (allowGrow : Bool) (bucket : Nat) (h : Hmap α β) :
    Except Fatal (Hmap α β) ⊕ Hmap α β :=
  let top := tophashOf hash
  let c := h.buckets.getD bucket []
  match chainUpdate t top k
      (fun s => { s with key := if t.needkeyupdate then k else s.key, val := v }) c with
  | some c' =>
    -- already have a mapping for key: update it (and the key if required)
    .inl (.ok { h with buckets := h.buckets.set bucket c' })
  | none =>
    -- did not find a mapping; maybe grow first, restarting from scratch
    if allowGrow && (¬ h.growing && (overLoadFactor h.count h.B ||
        tooManyOverflowBuckets h.noverflow h.B)) then
      .inr (hashGrow t h)
    else
      match chainInsertEmpty ⟨top, k, v⟩ c with
      | some c' =>
        .inl (.ok { h with buckets := h.buckets.set bucket c', count := h.count + 1 })
      | none =>
        -- all cells full: allocate a new overflow bucket for the entry
        let c' := c ++ [(⟨top, k, v⟩ : Slot α β) :: List.replicate (bucketCnt - 1) emptySlot]
        let h1 := incrnoverflow t h
        .inl (.ok { h1 with buckets := h1.buckets.set bucket c', count := h1.count + 1 })

/-- One pass of the `again:` loop of `mapassign`: resolve the bucket from
the hash under the current mask, drive `growWork` if growing, then
`mapassignScan`. -/
def mapassignStep (t : MapType α β) (k : α) (v : β) (hash : Nat)
    (allowGrow : Bool) (h0 : Hmap α β) : Except Fatal (Hmap α β) ⊕ Hmap α β :=
  let bucket := hash &&& (2 ^ h0.B - 1)
  match (if h0.growing then growWork t h0 bucket else .ok h0) with
  | .error e => .inl (.error e)
  | .ok h => mapassignScan t k v hash allowGrow bucket h

/-- The `again:` loop of `mapassign`: repeat `mapassignStep` after each
growth restart.  `fuel` bounds the number of restarts; at fuel 0 the pass
runs with the growth trigger disabled (unreachable from well-formed states,
whose restart count is bounded; the `.inr` case at fuel 0 is dead code). -/
def mapassignLoop (t : MapType α β) (k : α) (v : β) (hash : Nat) :
    Nat → Hmap α β → Except Fatal (Hmap α β)
  | 0, h0 =>
    match mapassignStep t k v hash false h0 with
    | .inl r => r
    | .inr h' => .ok h'
  | fuel + 1, h0 =>
    match mapassignStep t k v hash true h0 with
    | .inl r => r
    | .inr h' => mapassignLoop t k v hash fuel h'

/-- `mapassign(t, h, key)` followed by the caller's store of `v` into the
returned cell.  Panics on a nil map, throws on a concurrent write; the
`hashWriting` flag is set for the body and cleared on the way out, so the
flag bits of the result equal those of the argument. -/
def mapassign (t : MapType α β) (h? : Option (Hmap α β)) (k : α) (v : β) :
    Except Fatal (Hmap α β) :=
  match h? with
  | none => .error .nilMapAssign
  | some h =>
    if h.flags &&& hashWriting ≠ 0 then .error .concurrentWrite
    else
      let hash := hashOf t k h.hash0
      let h1 := if h.buckets.isEmpty then { h with buckets := [[newBucket]] } else h
      mapassignLoop t k v hash (h1.B + h1.count + 2) h1

/-- The part of `mapdelete` after `growWork`: scan the addressed chain; on a
hit clear the key and value storage, mark the cell `empty` and decrement
`count`; a miss is a no-op. -/
def mapdeleteFinish (t : MapType α β) (k : α) (hash bucket : Nat) (h1 : Hmap α β) :
    Hmap α β :=
  let top := tophashOf hash
  let c := h1.buckets.getD bucket []
  match chainUpdate t top k (fun _ => emptySlot) c with
  | some c' =>
    { h1 with buckets := h1.buckets.set bucket c', count := h1.count - 1 }
  | none => h1

/-- `mapdelete(t, h, key)`: no-op on a nil or empty map; throws on a
concurrent write; drives `growWork` while growing, then runs
`mapdeleteFinish`. -/
def mapdelete (t : MapType α β) (h? : Option (Hmap α β)) (k : α) :
    Except Fatal (Option (Hmap α β)) :=
  match h? with
  | none => .ok none
  | some h =>
    if h.count = 0 then .ok (some h)
    else if h.flags &&& hashWriting ≠ 0 then .error .concurrentWrite
    else
      let hash := hashOf t k h.hash0
      let bucket := hash &&& (2 ^ h.B - 1)
      (if h.growing then growWork t h bucket else .ok h).bind
        (fun h1 => .ok (some (mapdeleteFinish t k hash bucket h1)))

/-! ## Fast-path specializations (source `part_005`)

The 4-byte and 8-byte fast paths differ from the generic path only in how a
key is loaded and compared: the raw fixed-size key cells are compared with
machine equality (`k != key`), never through `alg.Equal`, and the
`Indirectkey`/`Needkeyupdate` machinery is absent.  In the model the raw
comparison is decidable equality on the key type.  The string fast paths
work on `StringStruct`s: a string is a byte list, `Len` is its length, data
pointer equality (`k.Str == key.Str`) is the oracle `t.ptrEq`, and
`Memequal` of two equal-length strings is list equality. -/

/-- The lookup loop of `mapaccess1_fast32`/`mapaccess2_fast32` (and the
64-bit variants) over one bucket: compare raw keys first, then skip cells
whose tophash is `empty`. -/
def bucketAccessFast [DecidableEq α] (k : α) : Bucket α β → Option β
  | [] => none
  | s :: rest =>
    if s.key = k ∧ s.top ≠ emptyCell then some s.val
    else bucketAccessFast k rest

/-- `bucketAccessFast` over the overflow chain. -/
def chainAccessFast [DecidableEq α] (k : α) : Chain α β → Option β
  | [] => none
  | b :: rest =>
    match bucketAccessFast k b with
    | some v => some v
    | none => chainAccessFast k rest

/-- `mapaccess1_fast32(t, h, key)`: a one-bucket table is scanned without
hashing; otherwise the bucket is resolved exactly as in the generic path. -/
def mapaccess1_fast32 [DecidableEq α] (t : MapType α β) (h? : Option (Hmap α β))
    (k : α) : Except Fatal (Ref β) :=
  match h? with
  | none => .ok .zeroRef
  | some h =>
    if h.count = 0 then .ok .zeroRef
    else if h.flags &&& hashWriting ≠ 0 then .error .concurrentReadWrite
    else
      let c := if h.B = 0 then h.buckets.getD 0 []
               else readChain h (hashOf t k h.hash0)
      match chainAccessFast k c with
      | some v => .ok (.valRef v)
      | none => .ok .zeroRef

/-- `mapaccess2_fast32(t, h, key)`. -/
def mapaccess2_fast32 [DecidableEq α] (t : MapType α β) (h? : Option (Hmap α β))
    (k : α) : Except Fatal (Ref β × Bool) :=
  match h? with
  | none => .ok (.zeroRef, false)
  | some h =>
    if h.count = 0 then .ok (.zeroRef, false)
    else if h.flags &&& hashWriting ≠ 0 then .error .concurrentReadWrite
    else
      let c := if h.B = 0 then h.buckets.getD 0 []
               else readChain h (hashOf t k h.hash0)
      match chainAccessFast k c with
      | some v => .ok (.valRef v, true)
      | none => .ok (.zeroRef, false)

/-- `mapaccess1_fast64(t, h, key)`: identical to the 32-bit variant except
for the key cell width, which the model does not track. -/
def mapaccess1_fast64 [DecidableEq α] (t : MapType α β) (h? : Option (Hmap α β))
    (k : α) : Except Fatal (Ref β) :=
  match h? with
  | none => .ok .zeroRef
  | some h =>
    if h.count = 0 then .ok .zeroRef
    else if h.flags &&& hashWriting ≠ 0 then .error .concurrentReadWrite
    else
      let c := if h.B = 0 then h.buckets.getD 0 []
               else readChain h (hashOf t k h.hash0)
      match chainAccessFast k c with
      | some v => .ok (.valRef v)
      | none => .ok .zeroRef

/-- `mapaccess2_fast64(t, h, key)`. -/
def mapaccess2_fast64 [DecidableEq α] (t : MapType α β) (h? : Option (Hmap α β))
    (k : α) : Except Fatal (Ref β × Bool) :=
  match h? with
  | none => .ok (.zeroRef, false)
  | some h =>
    if h.count = 0 then .ok (.zeroRef, false)
    else if h.flags &&& hashWriting ≠ 0 then .error .concurrentReadWrite
    else
      let c := if h.B = 0 then h.buckets.getD 0 []
               else readChain h (hashOf t k h.hash0)
      match chainAccessFast k c with
      | some v => .ok (.valRef v, true)
      | none => .ok (.zeroRef, false)

/-- The assign/delete scan predicate of the fixed-size fast paths: a tophash
match followed by a raw key comparison.  First-match update, like
`bucketUpdate`. -/
def bucketUpdateFast [DecidableEq α] (top : Nat) (k : α) (f : Slot α β → Slot α β) :
    Bucket α β → Option (Bucket α β)
  | [] => none
  | s :: rest =>
    if s.top = top ∧ s.key = k then some (f s :: rest)
    else (bucketUpdateFast top k f rest).map (s :: ·)

/-- `bucketUpdateFast` over the overflow chain. -/
def chainUpdateFast [DecidableEq α] (top : Nat) (k : α) (f : Slot α β → Slot α β) :
    Chain α β → Option (Chain α β)
  | [] => none
  | b :: rest =>
    match bucketUpdateFast top k f b with
    | some b' => some (b' :: rest)
    | none => (chainUpdateFast top k f rest).map (b :: ·)

/-- The scan-and-insert part of one `again:` pass of
`mapassign_fast32`/`mapassign_fast64` (the two are identical up to the key
width), including the caller's value store: like `mapassignScan` but with
the raw key comparison and no key update. -/
def mapassignScanFast [DecidableEq α] (t : MapType α β) (k : α) (v : β)
    (hash : Nat) (allowGrow : Bool) (bucket : Nat) (h : Hmap α β) :
    Except Fatal (Hmap α β) ⊕ Hmap α β :=
  let top := tophashOf hash
  let c := h.buckets.getD bucket []
  match chainUpdateFast top k (fun s => { s with val := v }) c with
  | some c' => .inl (.ok { h with buckets := h.buckets.set bucket c' })
  | none =>
    if allowGrow && (¬ h.growing && (overLoadFactor h.count h.B ||
        tooManyOverflowBuckets h.noverflow h.B)) then
      .inr (hashGrow t h)
    else
      match chainInsertEmpty ⟨top, k, v⟩ c with
      | some c' =>
        .inl (.ok { h with buckets := h.buckets.set bucket c', count := h.count + 1 })
      | none =>
        let c' := c ++ [(⟨top, k, v⟩ : Slot α β) :: List.replicate (bucketCnt - 1) emptySlot]
        let h1 := incrnoverflow t h
        .inl (.ok { h1 with buckets := h1.buckets.set bucket c', count := h1.count + 1 })

/-- One `again:` pass of `mapassign_fast32`/`mapassign_fast64`. -/
def mapassignStepFast [DecidableEq α] (t : MapType α β) (k : α) (v : β)
    (hash : Nat) (allowGrow : Bool) (h0 : Hmap α β) :
    Except Fatal (Hmap α β) ⊕ Hmap α β :=
  let bucket := hash &&& (2 ^ h0.B - 1)
  match (if h0.growing then growWork t h0 bucket else .ok h0) with
  | .error e => .inl (.error e)
  | .ok h => mapassignScanFast t k v hash allowGrow bucket h

/-- The `again:` loop of `mapassign_fast32`/`mapassign_fast64`. -/
def mapassignLoopFast [DecidableEq α] (t : MapType α β) (k : α) (v : β)
    (hash : Nat) : Nat → Hmap α β → Except Fatal (Hmap α β)
  | 0, h0 =>
    match mapassignStepFast t k v hash false h0 with
    | .inl r => r
    | .inr h' => .ok h'
  | fuel + 1, h0 =>
    match mapassignStepFast t k v hash true h0 with
    | .inl r => r
    | .inr h' => mapassignLoopFast t k v hash fuel h'

/-- `mapassign_fast32(t, h, key)` plus the caller's value store. -/
def mapassign_fast32 [DecidableEq α] (t : MapType α β) (h? : Option (Hmap α β))
    (k : α) (v : β) : Except Fatal (Hmap α β) :=
  match h? with
  | none => .error .nilMapAssign
  | some h =>
    if h.flags &&& hashWriting ≠ 0 then .error .concurrentWrite
    else
      let hash := hashOf t k h.hash0
      let h1 := if h.buckets.isEmpty then { h with buckets := [[newBucket]] } else h
      mapassignLoopFast t k v hash (h1.B + h1.count + 2) h1

/-- `mapassign_fast64(t, h, key)` plus the caller's value store. -/
def mapassign_fast64 [DecidableEq α] (t : MapType α β) (h? : Option (Hmap α β))
    (k : α) (v : β) : Except Fatal (Hmap α β) :=
  match h? with
  | none => .error .nilMapAssign
  | some h =>
    if h.flags &&& hashWriting ≠ 0 then .error .concurrentWrite
    else
      let hash := hashOf t k h.hash0
      let h1 := if h.buckets.isEmpty then { h with buckets := [[newBucket]] } else h
      mapassignLoopFast t k v hash (h1.B + h1.count + 2) h1

/-- `mapdelete_fast32(t, h, key)` (and the 64-bit variant): the scan uses
the raw key comparison; a hit zeroes the key cell (`*k = 0`), clears the
value and marks the cell `empty`. -/
def mapdelete_fast32 [DecidableEq α] (t : MapType α β) (h? : Option (Hmap α β))
    (k : α) : Except Fatal (Option (Hmap α β)) :=
  match h? with
  | none => .ok none
  | some h =>
    if h.count = 0 then .ok (some h)
    else if h.flags &&& hashWriting ≠ 0 then .error .concurrentWrite
    else
      let hash := hashOf t k h.hash0
      let bucket := hash &&& (2 ^ h.B - 1)
      (if h.growing then growWork t h bucket else .ok h).bind
        (fun h1 =>
          let top := tophashOf hash
          let c := h1.buckets.getD bucket []
          match chainUpdateFast top k (fun _ => emptySlot) c with
          | some c' =>
            .ok (some { h1 with buckets := h1.buckets.set bucket c', count := h1.count - 1 })
          | none => .ok (some h1))

/-- `mapdelete_fast64(t, h, key)`. -/
def mapdelete_fast64 [DecidableEq α] (t : MapType α β) (h? : Option (Hmap α β))
    (k : α) : Except Fatal (Option (Hmap α β)) :=
  match h? with
  | none => .ok none
  | some h =>
    if h.count = 0 then .ok (some h)
    else if h.flags &&& hashWriting ≠ 0 then .error .concurrentWrite
    else
      let hash := hashOf t k h.hash0
      let bucket := hash &&& (2 ^ h.B - 1)
      (if h.growing then growWork t h bucket else .ok h).bind
        (fun h1 =>
          let top := tophashOf hash
          let c := h1.buckets.getD bucket []
          match chainUpdateFast top k (fun _ => emptySlot) c with
          | some c' =>
            .ok (some { h1 with buckets := h1.buckets.set bucket c', count := h1.count - 1 })
          | none => .ok (some h1))

/-! ### String fast paths -/

/-- A Go string as seen through `runtimer.StringStruct`: its byte content.
`Len` is the list length; the data pointer is only visible through the
`t.ptrEq` oracle. -/
abbrev Str := List Nat

/-- The short-key scan of the one-bucket string paths (`key.Len < 32`):
occupied cells, matching length, pointer-equal or byte-equal content. -/
def bucketAccessStrShort (t : MapType Str β) (k : Str) : Bucket Str β → Option β
  | [] => none
  | s :: rest =>
    if s.top ≠ emptyCell ∧ s.key.length = k.length ∧
        (t.ptrEq s.key k = true ∨ s.key = k) then some s.val
    else bucketAccessStrShort t k rest

/-- Outcome of the long-key cheap scan: an immediate pointer-equality hit, a
fall-through to the hashed path when two candidates remain ambiguous, or the
end of the bucket with at most one candidate. -/
inductive LongScan (β : Type) where
  | hit (v : β)
  | dohash
  | done (keymaybe : Option (Slot Str β))

/-- The long-key scan of the one-bucket string paths (`key.Len >= 32`):
reject by length, then by the first and last four bytes; a pointer-equality
hit returns immediately; a second surviving candidate forces the hashed
path. -/
def strLongScan (t : MapType Str β) (k : Str) (keymaybe : Option (Slot Str β)) :
    Bucket Str β → LongScan β
  | [] => .done keymaybe
  | s :: rest =>
    if s.top = emptyCell then strLongScan t k keymaybe rest
    else if s.key.length ≠ k.length then strLongScan t k keymaybe rest
    else if t.ptrEq s.key k = true then .hit s.val
    else if k.take 4 ≠ s.key.take 4 then strLongScan t k keymaybe rest
    else if k.drop (k.length - 4) ≠ s.key.drop (k.length - 4) then
      strLongScan t k keymaybe rest
    else
      match keymaybe with
      | some _ => .dohash
      | none => strLongScan t k (some s) rest

/-- The hashed string scan (label `dohash` and the `B > 0` path): tophash
match, then length, then pointer-equal or byte-equal content. -/
def bucketAccessStrHash (t : MapType Str β) (top : Nat) (k : Str) :
    Bucket Str β → Option β
  | [] => none
  | s :: rest =>
    if s.top = top ∧ s.key.length = k.length ∧
        (t.ptrEq s.key k = true ∨ s.key = k) then some s.val
    else bucketAccessStrHash t top k rest

/-- `bucketAccessStrHash` over the overflow chain. -/
def chainAccessStrHash (t : MapType Str β) (top : Nat) (k : Str) :
    Chain Str β → Option β
  | [] => none
  | b :: rest =>
    match bucketAccessStrHash t top k b with
    | some v => some v
    | none => chainAccessStrHash t top k rest

/-- The hashed lookup shared by the `dohash` label and the `B > 0` entry of
`mapaccess1_faststr`/`mapaccess2_faststr`. -/
def faststrDohash (t : MapType Str β) (h : Hmap Str β) (ky : Str) : Option β :=
  let hash := hashOf t ky h.hash0
  chainAccessStrHash t (tophashOf hash) ky (readChain h hash)

/-- The `B == 0` body of the string lookups: short keys get the
content-comparing scan, long keys the cheap-rejection scan with its
`dohash` fall-back; both scan only the single main bucket (no overflow
walk in the source's one-bucket string paths). -/
def faststrOneBucket (t : MapType Str β) (h : Hmap Str β) (ky : Str) : Option β :=
  let b := (h.buckets.getD 0 []).headD []
  if ky.length < 32 then bucketAccessStrShort t ky b
  else
    match strLongScan t ky none b with
    | .hit v => some v
    | .dohash => faststrDohash t h ky
    | .done (some s) => if s.key = ky then some s.val else none
    | .done none => none

/-- `mapaccess1_faststr(t, h, ky)`. -/
def mapaccess1_faststr (t : MapType Str β) (h? : Option (Hmap Str β)) (ky : Str) :
    Except Fatal (Ref β) :=
  match h? with
  | none => .ok .zeroRef
  | some h =>
    if h.count = 0 then .ok .zeroRef
    else if h.flags &&& hashWriting ≠ 0 then .error .concurrentReadWrite
    else
      match (if h.B = 0 then faststrOneBucket t h ky else faststrDohash t h ky) with
      | some v => .ok (.valRef v)
      | none => .ok .zeroRef

/-- `mapaccess2_faststr(t, h, ky)`. -/
def mapaccess2_faststr (t : MapType Str β) (h? : Option (Hmap Str β)) (ky : Str) :
    Except Fatal (Ref β × Bool) :=
  match h? with
  | none => .ok (.zeroRef, false)
  | some h =>
    if h.count = 0 then .ok (.zeroRef, false)
    else if h.flags &&& hashWriting ≠ 0 then .error .concurrentReadWrite
    else
      match (if h.B = 0 then faststrOneBucket t h ky else faststrDohash t h ky) with
      | some v => .ok (.valRef v, true)
      | none => .ok (.zeroRef, false)

/-- The assign/delete scan predicate of the string fast path: tophash match,
length, pointer-equal or byte-equal content; first match is updated. -/
def bucketUpdateStr (t : MapType Str β) (top : Nat) (k : Str)
    (f : Slot Str β → Slot Str β) : Bucket Str β → Option (Bucket Str β)
  | [] => none
  | s :: rest =>
    if s.top = top ∧ s.key.length = k.length ∧
        (t.ptrEq s.key k = true ∨ s.key = k) then some (f s :: rest)
    else (bucketUpdateStr t top k f rest).map (s :: ·)

/-- `bucketUpdateStr` over the overflow chain. -/
def chainUpdateStr (t : MapType Str β) (top : Nat) (k : Str)
    (f : Slot Str β → Slot Str β) : Chain Str β → Option (Chain Str β)
  | [] => none
  | b :: rest =>
    match bucketUpdateStr t top k f b with
    | some b' => some (b' :: rest)
    | none => (chainUpdateStr t top k f rest).map (b :: ·)

/-- The scan-and-insert part of one `again:` pass of `mapassign_faststr`,
including the caller's value store: like `mapassignScan` but with the
string comparison and no key update. -/
def mapassignScanStr (t : MapType Str β) (k : Str) (v : β) (hash : Nat)
    (allowGrow : Bool) (bucket : Nat) (h : Hmap Str β) :
    Except Fatal (Hmap Str β) ⊕ Hmap Str β :=
  let top := tophashOf hash
  let c := h.buckets.getD bucket []
  match chainUpdateStr t top k (fun s => { s with val := v }) c with
  | some c' => .inl (.ok { h with buckets := h.buckets.set bucket c' })
  | none =>
    if allowGrow && (¬ h.growing && (overLoadFactor h.count h.B ||
        tooManyOverflowBuckets h.noverflow h.B)) then
      .inr (hashGrow t h)
    else
      match chainInsertEmpty ⟨top, k, v⟩ c with
      | some c' =>
        .inl (.ok { h with buckets := h.buckets.set bucket c', count := h.count + 1 })
      | none =>
        let c' := c ++ [(⟨top, k, v⟩ : Slot Str β) :: List.replicate (bucketCnt - 1) emptySlot]
        let h1 := incrnoverflow t h
        .inl (.ok { h1 with buckets := h1.buckets.set bucket c', count := h1.count + 1 })

/-- One `again:` pass of `mapassign_faststr`. -/
def mapassignStepStr (t : MapType Str β) (k : Str) (v : β) (hash : Nat)
    (allowGrow : Bool) (h0 : Hmap Str β) :
    Except Fatal (Hmap Str β) ⊕ Hmap Str β :=
  let bucket := hash &&& (2 ^ h0.B - 1)
  match (if h0.growing then growWork t h0 bucket else .ok h0) with
  | .error e => .inl (.error e)
  | .ok h => mapassignScanStr t k v hash allowGrow bucket h

/-- The `again:` loop of `mapassign_faststr`. -/
def mapassignLoopStr (t : MapType Str β) (k : Str) (v : β) (hash : Nat) :
    Nat → Hmap Str β → Except Fatal (Hmap Str β)
  | 0, h0 =>
    match mapassignStepStr t k v hash false h0 with
    | .inl r => r
    | .inr h' => .ok h'
  | fuel + 1, h0 =>
    match mapassignStepStr t k v hash true h0 with
    | .inl r => r
    | .inr h' => mapassignLoopStr t k v hash fuel h' 

/-- `mapassign_faststr(t, h, ky)` plus the caller's value store. -/
def mapassign_faststr (t : MapType Str β) (h? : Option (Hmap Str β)) (k : Str)
    (v : β) : Except Fatal (Hmap Str β) :=
  match h? with
  | none => .error .nilMapAssign
  | some h =>
    if h.flags &&& hashWriting ≠ 0 then .error .concurrentWrite
    else
      let hash := hashOf t k h.hash0
      let h1 := if h.buckets.isEmpty then { h with buckets := [[newBucket]] } else h
      mapassignLoopStr t k v hash (h1.B + h1.count + 2) h1

/-- `mapdelete_faststr(t, h, ky)`. -/
def mapdelete_faststr (t : MapType Str β) (h? : Option (Hmap Str β)) (k : Str) :
    Except Fatal (Option (Hmap Str β)) :=
  match h? with
  | none => .ok none
  | some h =>
    if h.count = 0 then .ok (some h)
    else if h.flags &&& hashWriting ≠ 0 then .error .concurrentWrite
    else
      let hash := hashOf t k h.hash0
      let bucket := hash &&& (2 ^ h.B - 1)
      (if h.growing then growWork t h bucket else .ok h).bind
        (fun h1 =>
          let top := tophashOf hash
          let c := h1.buckets.getD bucket []
          match chainUpdateStr t top k (fun _ => emptySlot) c with
          | some c' =>
            .ok (some { h1 with buckets := h1.buckets.set bucket c', count := h1.count - 1 })
          | none => .ok (some h1))

/-! ## Iteration (`hiter`, `mapiternext`) -/

/-- The iterator state (`hiter`).  `key`/`value` hold the last yielded pair
(`none` signals the end of iteration), `buckets` is the bucket-array
snapshot taken by `mapiterinit`, `bptr` the suffix of the current overflow
chain (its head is the bucket being scanned; `[]` is a nil `bptr`). -/
structure Hiter (α β : Type) where
  key : Option α
  value : Option β
  buckets : List (Chain α β)
  bptr : Chain α β
  startBucket : Nat
  offset : Nat
  wrapped : Bool
  B : Nat
  i : Nat
  bucket : Nat
  checkBucket : Nat
  deriving DecidableEq, Repr

/-- The slot loop of `mapiternext` (source lines 755–841) over the bucket at
the head of `b`, with `j` slots left to visit (slot index `i = bucketCnt - j`):
skip empty and `evacuatedEmpty` cells; while iterating an unevacuated old
bucket during a grow to a bigger size, skip entries destined for the other
new bucket (by rehash for reproducible keys, by the tophash low bit
otherwise); yield golden data directly and re-look-up evacuated entries in
the current table (`mapaccessK`), skipping keys that were deleted. -/
def mapiternextSlots (t : MapType α β) (h : Hmap α β) (it : Hiter α β)
    (bucket : Nat) (b : Chain α β) (checkBucket : Nat) (wrapped : Bool) :
    Nat → Option (Hiter α β)
  | 0 => none
  | j + 1 =>
    let i := bucketCnt - (j + 1)
    let offi := (i + it.offset) &&& (bucketCnt - 1)
    let s := (b.headD newBucket).getD offi emptySlot
    let skip := mapiternextSlots t h it bucket b checkBucket wrapped j
    if s.top ≠ emptyCell ∧ s.top ≠ evacuatedEmpty then
      let skipOther :=
        if checkBucket ≠ noCheck ∧ h.isSameSizeGrow = false then
          if t.reflexivekey = true ∨ t.equal s.key s.key = true then
            hashOf t s.key h.hash0 &&& (2 ^ it.B - 1) ≠ checkBucket
          else
            checkBucket >>> (it.B - 1) ≠ s.top &&& 1
        else False
      if skipOther then skip
      else
        let yield : α → β → Option (Hiter α β) := fun yk yv =>
          some { it with key := some yk, value := some yv, bucket := bucket,
                         bptr := b, i := i + 1, checkBucket := checkBucket,
                         wrapped := wrapped }
        if s.top ≠ evacuatedX ∧ s.top ≠ evacuatedY then
          -- this is the golden data, we can return it
          yield s.key s.val
        else
          -- the table has grown since the iterator started; the golden
          -- data for this key is now somewhere else
          if t.reflexivekey = true ∨ t.equal s.key s.key = true then
            match mapaccessK t (some h) s.key with
            | none => skip          -- key has been deleted
            | some (rk, rv) => yield rk rv
          else
            yield s.key s.val
    else skip

/-- The `next:` loop of `mapiternext`: when the current chain is exhausted,
stop after a full wrap, otherwise pick the next bucket — scanning an
unevacuated old bucket in place of its new bucket (with `checkBucket` set)
while an in-grow iterator's `B` still matches — and continue the slot walk.
`fuel` bounds the number of bucket advances (at most `2^it.B + 1` before the
wrap-around stop). -/
def mapiternextGo (t : MapType α β) (h : Hmap α β) (it : Hiter α β) :
    Nat → Nat → Chain α β → Nat → Nat → Bool → Hiter α β
  | 0, _, _, _, _, wrapped =>
    { it with key := none, value := none, wrapped := wrapped }
  | fuel + 1, bucket, b, i, checkBucket, wrapped =>
    match b with
    | [] =>
      if bucket = it.startBucket ∧ wrapped = true then
        -- end of iteration
        { it with key := none, value := none, wrapped := wrapped }
      else
        let next :=
          if h.growing = true ∧ it.B = h.B then
            let oldbucket := bucket &&& h.oldbucketmask
            let ob := (h.oldbuckets.getD []).getD oldbucket []
            if ¬ evacuatedChain ob then (ob, bucket)
            else (it.buckets.getD bucket [], noCheck)
          else (it.buckets.getD bucket [], noCheck)
        let bucket1 := bucket + 1
        let wb := if bucket1 = 2 ^ it.B then (0, true) else (bucket1, wrapped)
        mapiternextGo t h it fuel wb.1 next.1 0 next.2 wb.2
    | _ :: rest =>
      match mapiternextSlots t h it bucket b checkBucket wrapped (bucketCnt - i) with
      | some it' => it'
      | none => mapiternextGo t h it (fuel + 1) bucket rest 0 checkBucket wrapped
  termination_by fuel _ b _ _ _ => (fuel, b.length)

/-- `mapiternext(it)`: throws if a write is in progress, otherwise resumes
the walk from the iterator's cursor.  The map header the iterator points at
(`it.h`) is the explicit argument `h`. -/
def mapiternext (t : MapType α β) (h : Hmap α β) (it : Hiter α β) :
    Except Fatal (Hiter α β) :=
  if h.flags &&& hashWriting ≠ 0 then .error .concurrentIterWrite
  else
    .ok (mapiternextGo t h it (2 ^ it.B + 2) it.bucket it.bptr it.i it.checkBucket
          it.wrapped)

/-! ## Creation (`makemap`) -/

/-- The `for ; overLoadFactor(hint, B); B++` search for the initial size
class (bounded: `overLoadFactor` is false once `2^B` exceeds the hint, and
the hint fits in 31 bits). -/
def findB (hint : Nat) : Nat → Nat → Nat
  | 0, B => B
  | fuel + 1, B => if overLoadFactor hint B then findB hint fuel (B + 1) else B

/-- `makemap(t, hint, h, bucket)`: reject out-of-range hints, pick the size
class, allocate the initial bucket array (lazily for `B = 0`).  The
`hash0 = Fastrand()` draw is the explicit `hash0` argument.  The descriptor
consistency checks (`ismapkey`, key/value size and alignment) concern the
type descriptor, which the model takes as given, and are omitted. -/
def makemap (_t : MapType α β) (hint : Int) (hash0 : Nat) :
    Except Fatal (Hmap α β) :=
  if hint < 0 ∨ (2 ^ 31 : Int) ≤ hint then .error .hintOutOfRange
  else
    let B := findB hint.toNat 64 0
    .ok { count := 0
          flags := 0
          B := B
          noverflow := 0
          hash0 := hash0 % 2 ^ 32
          buckets := if B = 0 then [] else List.replicate (2 ^ B) ([newBucket] : Chain α β)
          oldbuckets := none
          nevacuate := 0
          rc := 0 }

/-! ## Specification layer: well-formed states and reachability

Everything below is verification vocabulary about the embedded program, not
part of it. -/

/-- All slots of a chain in scan order (main bucket first, then the overflow
buckets, slot index order inside each). -/
def chainSlots (c : Chain α β) : List (Slot α β) := c.flatten

/-- The live slots of a chain: cells whose tophash is a normal filled-cell
tag (`>= minTopHash`). -/
def liveSlots (c : Chain α β) : List (Slot α β) :=
  (chainSlots c).filter (fun s => decide (minTopHash ≤ s.top))

/-- Number of live cells across a bucket-array generation. -/
def genLive (g : List (Chain α β)) : Nat :=
  (g.map (fun c => (liveSlots c).length)).sum

/-- Structural well-formedness of a chain: non-empty, all buckets of
capacity `bucketCnt`. -/
def ChainShape (c : Chain α β) : Prop :=
  c ≠ [] ∧ ∀ b ∈ c, b.length = bucketCnt

/-- A bucket with no evacuation markers: every cell is empty or live. -/
def cleanChain (c : Chain α β) : Prop :=
  ∀ s ∈ chainSlots c, s.top = emptyCell ∨ minTopHash ≤ s.top

/-- A fully evacuated chain: every cell carries an evacuation marker. -/
def markedChain (c : Chain α β) : Prop :=
  ∀ s ∈ chainSlots c, evacuatedEmpty ≤ s.top ∧ s.top ≤ evacuatedY

/-- No two live cells of one chain can answer the same query: distinct live
slots never agree on both the tophash and the key (up to the descriptor's
equality). -/
def chainNoDup (t : MapType α β) (c : Chain α β) : Prop :=
  (liveSlots c).Pairwise (fun a b => ¬ (a.top = b.top ∧ t.equal a.key b.key = true))

/-- A live slot sits in the right chain and stores the right tag: for a key
that compares equal to itself, the hash (under the generation's mask `mask`)
addresses the chain `j` holding the slot and the stored tophash is the tag
of that hash. -/
def slotHashOk (t : MapType α β) (hash0 mask j : Nat) (s : Slot α β) : Prop :=
  t.equal s.key s.key = true →
    hashOf t s.key hash0 &&& mask = j ∧ s.top = tophashOf (hashOf t s.key hash0)

/-- Well-formedness of a reachable map state (established for all states
reachable by `makemap`/`mapassign`/`mapdelete`, see `Reach`). -/
structure WF (t : MapType α β) (h : Hmap α β) : Prop where
  flags_w : h.flags &&& hashWriting = 0
  blen : h.buckets ≠ [] → h.buckets.length = 2 ^ h.B
  bnil : h.buckets = [] → h.B = 0 ∧ h.count = 0 ∧ h.oldbuckets = none
  b0g : h.isSameSizeGrow = false → h.growing = true → 1 ≤ h.B
  cur_shape : ∀ c ∈ h.buckets, ChainShape c
  cur_clean : ∀ c ∈ h.buckets, cleanChain c
  cur_nodup : ∀ c ∈ h.buckets, chainNoDup t c
  count_eq : h.count = genLive h.buckets + genLive (h.oldbuckets.getD [])
  old_len : ∀ old, h.oldbuckets = some old → old.length = h.noldbuckets
  old_nev : h.growing = true → h.nevacuate < h.noldbuckets
  old_shape : ∀ old, h.oldbuckets = some old → ∀ c ∈ old, ChainShape c
  old_state : ∀ old, h.oldbuckets = some old → ∀ c ∈ old,
    markedChain c ∨ (cleanChain c ∧ chainNoDup t c)
  old_below_nev : ∀ old, h.oldbuckets = some old →
    ∀ i, i < h.nevacuate → evacuatedChain (old.getD i []) = true
  old_unevac : ∀ old, h.oldbuckets = some old →
    ∀ j, j < old.length → evacuatedChain (old.getD j []) = false →
      h.buckets.getD j [] = [newBucket] ∧
      (h.isSameSizeGrow = false → h.buckets.getD (j + h.noldbuckets) [] = [newBucket])
  nog_ss : h.oldbuckets = none → h.flags &&& sameSizeGrowFlag = 0

/-- The descriptor hypotheses the runtime guarantees for every map key
algorithm: equality is symmetric and transitive (a partial equivalence:
non-reflexive keys — NaNs — equal nothing at all), and equal keys hash
alike. -/
structure EqCtx (t : MapType α β) : Prop where
  symm : ∀ a b, t.equal a b = true → t.equal b a = true
  trans : ∀ a b c, t.equal a b = true → t.equal b c = true → t.equal a c = true
  hash_congr : ∀ a b s, t.equal a b = true → t.hash a s = t.hash b s

/-- Map states reachable by a sequence of operations: a fresh map followed
by any sequence of `put` (`mapassign`) and `delete` (`mapdelete`) calls
(lookups do not change the state). -/
inductive Reach (t : MapType α β) : Hmap α β → Prop where
  | init : ∀ hint hash0 h, makemap t hint hash0 = .ok h → Reach t h
  | put : ∀ h k v h', Reach t h → mapassign t (some h) k v = .ok h' → Reach t h'
  | del : ∀ h k h', Reach t h → mapdelete t (some h) k = .ok (some h') → Reach t h'

/-- The evacuation marker `evacuate` writes into a source cell: emptied
cells become `evacuatedEmpty`, moved entries `evacuatedX`/`evacuatedY`
according to the destination decision. -/
def markOf (t : MapType α β) (h : Hmap α β) (newbit : Nat) (s : Slot α β) : Nat :=
  if s.top = emptyCell then evacuatedEmpty
  else if (evacDecision t h newbit s).1 then evacuatedX else evacuatedY

/-- The per-slot hit condition every generic scan uses: the stored tophash
equals the probe tag and the stored key compares equal to the probe key. -/
def slotMatch (t : MapType α β) (top : Nat) (k : α) (s : Slot α β) : Prop :=
  s.top = top ∧ t.equal k s.key = true

instance (t : MapType α β) (top : Nat) (k : α) (s : Slot α β) :
    Decidable (slotMatch t top k s) := instDecidableAnd

/-- The slots a destination cursor has written so far, in order. -/
def destSlots (d : EvacDest α β) : List (Slot α β) :=
  d.done.flatten ++ d.cur.take d.xi

/-- Structural sanity of a destination cursor that started from a fresh
bucket: full 8-slot buckets, and everything past the write position still
empty. -/
def DestOk (d : EvacDest α β) : Prop :=
  d.xi ≤ bucketCnt ∧ d.cur.length = bucketCnt ∧
  (∀ b ∈ d.done, b.length = bucketCnt) ∧
  d.cur.drop d.xi = List.replicate (bucketCnt - d.xi) emptySlot

/-- The slot as `evacuate` stores it at the destination: the tophash byte is
replaced by the (possibly recomputed) destination tag. -/
def retag (t : MapType α β) (h : Hmap α β) (nb : Nat) (s : Slot α β) : Slot α β :=
  { s with top := (evacDecision t h nb s).2 }

/-- The live slots of `l` routed to the X destination, as stored there. -/
def pushedX (t : MapType α β) (h : Hmap α β) (nb : Nat) (l : List (Slot α β)) :
    List (Slot α β) :=
  ((l.filter (fun s => decide (minTopHash ≤ s.top))).filter
    (fun s => (evacDecision t h nb s).1)).map (retag t h nb)

/-- The live slots of `l` routed to the Y destination, as stored there. -/
def pushedY (t : MapType α β) (h : Hmap α β) (nb : Nat) (l : List (Slot α β)) :
    List (Slot α β) :=
  ((l.filter (fun s => decide (minTopHash ≤ s.top))).filter
    (fun s => ! (evacDecision t h nb s).1)).map (retag t h nb)

/-! ## Concrete instances used by witnesses and counterexamples -/

/-- A concrete descriptor on `Nat` keys: the identity hash and real
equality (a faithful stand-in for a fixed-size integer key type). -/
def tcW : MapType Nat Nat :=
  { hash := fun k _ => k
    equal := fun a b => decide (a = b)
    reflexivekey := true
    needkeyupdate := false
    ptrEq := fun _ _ => false
    rand := fun _ => 0 }

/-- A descriptor with a NaN-like key: `7` does not compare equal to itself. -/
def tcNaN : MapType Nat Nat :=
  { hash := fun k _ => k
    equal := fun a b => decide (a = b ∧ a ≠ 7)
    reflexivekey := false
    needkeyupdate := false
    ptrEq := fun _ _ => false
    rand := fun _ => 0 }

/-- Run one `put`, keeping the old state on a fatal outcome (which never
occurs in the concrete runs below). -/
def putD (t : MapType α β) (h : Hmap α β) (k : α) (v : β) : Hmap α β :=
  match mapassign t (some h) k v with
  | .ok h' => h'
  | .error _ => h

/-- The state after `put 0 100`, `put 1 101`, …, `put (n-1) (100+n-1)` on a
fresh map. -/
def putUpTo (n : Nat) : Hmap Nat Nat :=
  match n with
  | 0 =>
    match makemap tcW 0 0 with
    | .ok h => h
    | .error _ => { count := 0, flags := 0, B := 0, noverflow := 0, hash0 := 0,
                    buckets := [], oldbuckets := none, nevacuate := 0, rc := 0 }
  | n + 1 => putD tcW (putUpTo n) n (100 + n)

/-- The growing state used by the C8 counterexample: a map mid-way through
a doubling grow (`B = 1`, one old bucket) whose old bucket holds the
NaN-like key `7` with an even stored tophash, no iterator flag. -/
def hNaN : Hmap Nat Nat :=
  { count := 1, flags := 0, B := 1, noverflow := 0, hash0 := 0,
    buckets := [[newBucket], [newBucket]],
    oldbuckets := some [[(⟨4, 7, 77⟩ : Slot Nat Nat) :: List.replicate 7 emptySlot]],
    nevacuate := 0, rc := 0 }

/-- A small mid-growth state over `tcW`: a doubling grow from one bucket to
two (`B = 1`), the single old bucket holding the entry `1 ↦ 101`, cursor at
0. -/
def hGrowC3 : Hmap Nat Nat :=
  { count := 1, flags := 0, B := 1, noverflow := 0, hash0 := 0,
    buckets := [[newBucket], [newBucket]],
    oldbuckets := some
      [[(⟨tophashOf (hashOf tcW 1 0), 1, 101⟩ : Slot Nat Nat) ::
        List.replicate 7 emptySlot]],
    nevacuate := 0, rc := 0 }

/-- Run one `evacuate`, keeping the old state on a fatal outcome (which never
occurs in the concrete runs below). -/
def evacD (t : MapType Nat Nat) (h : Hmap Nat Nat) (j : Nat) : Hmap Nat Nat :=
  match evacuate t h j with | .ok h' => h' | .error _ => h

/-- Run one `delete`, keeping the old state on a fatal or nil outcome (which
never occurs in the concrete runs below). -/
def delD (t : MapType Nat Nat) (h : Hmap Nat Nat) (k : Nat) : Hmap Nat Nat :=
  match mapdelete t (some h) k with
  | .ok (some h') => h'
  | _ => h

/-- The chain produced by re-putting the present key `3` with value `203`
on the 8-entry table (the concrete hit of the C9 witness). -/
def c9hit : Chain Nat Nat :=
  (chainUpdate tcW (tophashOf (hashOf tcW 3 (putUpTo 8).hash0)) 3
    (fun s => { s with key := if tcW.needkeyupdate then 3 else s.key, val := 203 })
    ((putUpTo 8).buckets.getD
      (hashOf tcW 3 (putUpTo 8).hash0 &&& (2 ^ (putUpTo 8).B - 1)) [])).getD []

/-- Results of the embedded operations are compared in concrete runs. -/
instance {ε σ : Type} [DecidableEq ε] [DecidableEq σ] : DecidableEq (Except ε σ) := fun a b =>
  match a, b with
  | .error x, .error y => decidable_of_iff (x = y) (by simp)
  | .ok x, .ok y => decidable_of_iff (x = y) (by simp)
  | .error _, .ok _ => isFalse (by simp)
  | .ok _, .error _ => isFalse (by simp)

/-- Two map headers that agree on everything except the overflow-bucket
counter and the random cursor (the only header fields the evacuation
copy-machinery touches). -/
def SameCore (h h' : Hmap α β) : Prop :=
  h'.count = h.count ∧ h'.flags = h.flags ∧ h'.B = h.B ∧ h'.hash0 = h.hash0 ∧
  h'.buckets = h.buckets ∧ h'.oldbuckets = h.oldbuckets ∧ h'.nevacuate = h.nevacuate

/-! ## Fast-path refinement vocabulary (C5) -/

/-- A descriptor whose `Equal` is memory equality of the key cells — what
the runtime guarantees for the fixed-size and string key types the fast
paths serve. -/
def Faithful [DecidableEq α] (t : MapType α β) : Prop :=
  ∀ a b, t.equal a b = decide (a = b)

/-- Soundness of the data-pointer shortcut of the string fast paths:
pointer-equal strings are equal. -/
def PtrEqSound {β : Type} (t : MapType Str β) : Prop :=
  ∀ a b, t.ptrEq a b = true → a = b

/-- Well-formedness strengthened with the tag/size bookkeeping the fast
paths rely on: every live cell's tophash is the tag of its key's hash, a
map that never grew past `B = 0` has no overflow buckets (so its single
chain is one bucket and no growth can be in progress), and any growth in
progress started from at least one bucket. -/
structure WFT (t : MapType α β) (h : Hmap α β) extends WF t h : Prop where
  cur_tags : ∀ c ∈ h.buckets, ∀ s ∈ chainSlots c, minTopHash ≤ s.top →
    t.equal s.key s.key = true → s.top = tophashOf (hashOf t s.key h.hash0)
  old_tags : ∀ old, h.oldbuckets = some old → ∀ c ∈ old, ∀ s ∈ chainSlots c,
    minTopHash ≤ s.top → t.equal s.key s.key = true →
    s.top = tophashOf (hashOf t s.key h.hash0)
  b0nov : h.B = 0 → h.noverflow = 0
  b0chain : h.B = 0 → ∀ c ∈ h.buckets, c.length = 1
  grow_B1 : h.growing = true → 1 ≤ h.B

/-- One observable operation of the abstract map interface. -/
inductive MapOp (α β : Type) where
  | get (k : α)
  | put (k : α) (v : β)
  | del (k : α)

/-- One observation: what a `get` reports, or `none` for a write. -/
abbrev Obs (β : Type) := Option (Ref β × Bool)

/-- Run an operation sequence against an implementation given by its three
entry points, recording each `get`'s report; a fatal outcome aborts the run
(recorded as the final `none`).  Instantiated with the generic entry points
and with each fast-path family to state C5. -/
def runSeq (acc : Option (Hmap α β) → α → Except Fatal (Ref β × Bool))
    (put : Option (Hmap α β) → α → β → Except Fatal (Hmap α β))
    (del : Option (Hmap α β) → α → Except Fatal (Option (Hmap α β))) :
    List (MapOp α β) → Option (Hmap α β) → List (Obs β) × Option (Hmap α β)
  | [], h? => ([], h?)
  | .get k :: ops, h? =>
    match acc h? k with
    | .error _ => ([none], h?)
    | .ok r =>
      let rest := runSeq acc put del ops h?
      (some r :: rest.1, rest.2)
  | .put k v :: ops, h? =>
    match put h? k v with
    | .error _ => ([none], h?)
    | .ok h' =>
      let rest := runSeq acc put del ops (some h')
      (none :: rest.1, rest.2)
  | .del k :: ops, h? =>
    match del h? k with
    | .error _ => ([none], h?)
    | .ok h?' =>
      let rest := runSeq acc put del ops h?'
      (none :: rest.1, rest.2)

/-- A fresh map over the NaN-like descriptor (hint 1, seed 0), used by the
C1 counterexample. -/
def c1base : Hmap Nat Nat :=
  match makemap tcNaN 1 0 with
  | .ok h => h
  | .error _ => { count := 0, flags := 0, B := 0, noverflow := 0, hash0 := 0,
                  buckets := [], oldbuckets := none, nevacuate := 0, rc := 0 }

/-- The state after `put 7 77` (the NaN-like key) on that fresh map. -/
def c1put : Hmap Nat Nat := putD tcNaN c1base 7 77

/-! # Theorems -/

/-! ## Bit-level helpers -/

theorem land_add_ldiff (a : Nat) : ∀ b, (a &&& b) + Nat.ldiff a b = a := by
  induction a using Nat.binaryRec with
  | z =>
    intro b
    simp [Nat.zero_and, Nat.ldiff, Nat.bitwise_zero_left]
  | f x m ih =>
    intro b
    rw [← Nat.bit_decomp b, Nat.land_bit, Nat.ldiff_bit,
      Nat.bit_val, Nat.bit_val, Nat.bit_val]
    have := ih b.div2
    cases x <;> cases b.bodd <;> simp only [Bool.true_and, Bool.false_and, Bool.not_true,
      Bool.not_false, Bool.toNat_true, Bool.toNat_false] <;> omega

theorem andNot_eq_ldiff (a b : Nat) : andNot a b = Nat.ldiff a b := by
  have := land_add_ldiff a b
  have hle : a &&& b ≤ a := by omega
  unfold andNot
  omega

theorem and_two_pow_ne (f k : Nat) : (f &&& 2 ^ k ≠ 0) ↔ f.testBit k = true := by
  rw [Nat.and_two_pow]
  cases hb : f.testBit k <;> simp [hb, Nat.pow_eq_zero]

theorem demote_keeps_bit3 (f : Nat) :
    ((if f &&& iterFlag ≠ 0 then andNot f (iterFlag ||| oldIterFlag) ||| oldIterFlag
      else andNot f (iterFlag ||| oldIterFlag)) &&& sameSizeGrowFlag ≠ 0)
    ↔ (f &&& sameSizeGrowFlag ≠ 0) := by
  have h8 : sameSizeGrowFlag = 2 ^ 3 := rfl
  rw [h8, and_two_pow_ne, and_two_pow_ne]
  have h3 : Nat.testBit 3 3 = false := by decide
  have h2 : Nat.testBit 2 3 = false := by decide
  split <;>
    simp [andNot_eq_ldiff, iterFlag, oldIterFlag, Nat.testBit_lor, Nat.testBit_ldiff, h3, h2]

/-! ## C7: growth size decision (`hashGrow`) -/

/-- C7: every grow event doubles the bucket count (`bigger = 1`) — the new
array has `2^(B+1)` buckets — unless the load factor is still acceptable
(so the trigger was too many overflow buckets), in which case the bucket
count stays the same (`bigger = 0`) and the growth is flagged same-size.
The current array becomes the old generation.  (The hypothesis that the
same-size flag is clear on entry holds at every call site: `hashGrow` only
runs on a non-growing map, where the flag is clear.) -/
theorem hashGrow_isSameSize (t : MapType α β) (h : Hmap α β)
    (hf : h.flags &&& sameSizeGrowFlag = 0) :
    (hashGrow t h).isSameSizeGrow = ! overLoadFactor h.count h.B := by
  have hbit : h.flags.testBit 3 = false := by
    have := (and_two_pow_ne h.flags 3).not
    simp only [not_not, not_true, not_false_iff] at this
    by_contra hc
    simp only [Bool.not_eq_false] at hc
    exact absurd hf (by
      intro h0
      have : h.flags &&& 2 ^ 3 ≠ 0 := (and_two_pow_ne h.flags 3).mpr hc
      exact this h0)
  unfold hashGrow Hmap.isSameSizeGrow
  cases hov : overLoadFactor h.count h.B
  · simp only [hov, Bool.false_eq_true, ite_false, Bool.not_false, decide_eq_true_eq]
    rw [demote_keeps_bit3]
    show (h.flags ||| sameSizeGrowFlag) &&& sameSizeGrowFlag ≠ 0
    rw [show sameSizeGrowFlag = 2 ^ 3 from rfl, and_two_pow_ne, Nat.testBit_lor]
    simp [show Nat.testBit 8 3 = true from by decide]
  · simp only [hov, ite_true, Bool.not_true, decide_eq_false_iff_not]
    rw [demote_keeps_bit3]
    show ¬ h.flags &&& sameSizeGrowFlag ≠ 0
    simp [hf]

/-- C7: every grow event doubles the bucket count (`bigger = 1`) — the new
array has `2^(B+1)` buckets — unless the load factor is still acceptable
(so the trigger was too many overflow buckets), in which case the bucket
count stays the same (`bigger = 0`) and the growth is flagged same-size.
The current array becomes the old generation.  (The hypothesis that the
same-size flag is clear on entry holds at every call site: `hashGrow` only
runs on a non-growing map, where the flag is clear.) -/
theorem hashGrow_size_decision (t : MapType α β) (h : Hmap α β)
    (hf : h.flags &&& sameSizeGrowFlag = 0) :
    ((hashGrow t h).B = if overLoadFactor h.count h.B then h.B + 1 else h.B)
  ∧ ((hashGrow t h).isSameSizeGrow = ! overLoadFactor h.count h.B)
  ∧ ((hashGrow t h).buckets.length = 2 ^ (hashGrow t h).B)
  ∧ ((hashGrow t h).oldbuckets = some h.buckets) := by
  refine ⟨?_, hashGrow_isSameSize t h hf, ?_, ?_⟩ <;>
    unfold hashGrow <;>
    cases hov : overLoadFactor h.count h.B <;>
    simp [hov]

set_option maxRecDepth 100000 in
/-- Witness for `hashGrow_size_decision` at a concrete reachable state (the
map after eight inserts, about to double). -/
theorem hashGrow_size_decision_witness :
    (putUpTo 8).flags &&& sameSizeGrowFlag = 0 ∧
    (hashGrow tcW (putUpTo 8)).B =
      (if overLoadFactor (putUpTo 8).count (putUpTo 8).B
       then (putUpTo 8).B + 1 else (putUpTo 8).B) :=
  ⟨by decide, (hashGrow_size_decision tcW (putUpTo 8) (by decide)).1⟩

/-! ## Structure lemmas for `mapassign` and `mapdelete` -/

theorem incrnoverflow_fields (t : MapType α β) (h : Hmap α β) :
    (incrnoverflow t h).B = h.B ∧ (incrnoverflow t h).buckets = h.buckets ∧
    (incrnoverflow t h).oldbuckets = h.oldbuckets ∧ (incrnoverflow t h).count = h.count ∧
    (incrnoverflow t h).flags = h.flags ∧ (incrnoverflow t h).hash0 = h.hash0 ∧
    (incrnoverflow t h).nevacuate = h.nevacuate := by
  unfold incrnoverflow
  split
  · exact ⟨rfl, rfl, rfl, rfl, rfl, rfl, rfl⟩
  · dsimp only
    split
    · exact ⟨rfl, rfl, rfl, rfl, rfl, rfl, rfl⟩
    · exact ⟨rfl, rfl, rfl, rfl, rfl, rfl, rfl⟩

theorem mapassign_eq_loop (t : MapType α β) (h : Hmap α β) (k : α) (v : β)
    (hw : h.flags &&& hashWriting = 0) (hne : h.buckets ≠ []) :
    mapassign t (some h) k v =
      mapassignLoop t k v (hashOf t k h.hash0) (h.B + h.count + 2) h := by
  unfold mapassign
  simp [hw, List.isEmpty_iff, hne]

theorem mapassignLoop_succ (t : MapType α β) (k : α) (v : β) (hash fuel : Nat)
    (h0 : Hmap α β) :
    mapassignLoop t k v hash (fuel + 1) h0 =
      (match mapassignStep t k v hash true h0 with
       | .inl r => r
       | .inr h' => mapassignLoop t k v hash fuel h') := rfl

theorem mapdelete_eq_finish (t : MapType α β) (h : Hmap α β) (k : α)
    (hw : h.flags &&& hashWriting = 0) (hc : h.count ≠ 0) :
    mapdelete t (some h) k =
      (if h.growing
       then growWork t h (hashOf t k h.hash0 &&& (2 ^ h.B - 1))
       else .ok h).bind
        (fun h1 => .ok (some (mapdeleteFinish t k (hashOf t k h.hash0)
          (hashOf t k h.hash0 &&& (2 ^ h.B - 1)) h1))) := by
  unfold mapdelete
  simp [hw, hc]

/-! ## C2: the growth trigger in `mapassign` -/

/-- C2: on an insert of a key the scan did not find, the grow is started —
`mapassignScan` hands back `hashGrow t h` for a restart of the whole
operation (`goto again`, re-resolving the bucket on the grown table) —
exactly when the table is not already growing and either the load-factor
condition `count >= 6.5 * 2^B` holds (stated as the exact rational
comparison `13 * 2^B <= 2 * count` together with `count >= bucketCnt`) or
there are too many overflow buckets (`noverflow >= 2^B` for `B < 16`; the
probabilistically maintained counter is compared against `2^15` otherwise);
when the trigger does not fire the insert proceeds with the bucket count
and growth state unchanged. -/
theorem mapassign_grow_trigger (t : MapType α β) (k : α) (v : β)
    (hash fuel bucket : Nat) (h h0 : Hmap α β)
    (hmiss : chainUpdate t (tophashOf hash) k
      (fun s => { s with key := if t.needkeyupdate then k else s.key, val := v })
      (h.buckets.getD bucket []) = none) :
    ((h.growing = false ∧ (overLoadFactor h.count h.B = true ∨
        tooManyOverflowBuckets h.noverflow h.B = true)) →
      mapassignScan t k v hash true bucket h = .inr (hashGrow t h))
  ∧ (∀ h', mapassignStep t k v hash true h0 = .inr h' →
      mapassignLoop t k v hash (fuel + 1) h0 = mapassignLoop t k v hash fuel h')
  ∧ ((h.growing = true ∨ (overLoadFactor h.count h.B = false ∧
        tooManyOverflowBuckets h.noverflow h.B = false)) →
      ∃ h', mapassignScan t k v hash true bucket h = .inl (.ok h') ∧
        h'.B = h.B ∧ h'.oldbuckets = h.oldbuckets ∧ h'.count = h.count + 1)
  ∧ (overLoadFactor h.count h.B = true ↔
      (bucketCnt ≤ h.count ∧ 13 * mask64 (2 ^ h.B) ≤ 2 * h.count))
  ∧ (h.B < 16 →
      (tooManyOverflowBuckets h.noverflow h.B = true ↔ 2 ^ h.B ≤ h.noverflow)) := by
  refine ⟨?_, ?_, ?_, ?_, ?_⟩
  · rintro ⟨hg, hcond⟩
    unfold mapassignScan
    simp only [hmiss]
    have hc : (true && (¬ h.growing && (overLoadFactor h.count h.B ||
        tooManyOverflowBuckets h.noverflow h.B))) = true := by
      rcases hcond with hc | hc <;> simp [hg, hc]
    rw [hc]
    rfl
  · intro h' hstep
    rw [mapassignLoop_succ, hstep]
  · intro hcond
    unfold mapassignScan
    simp only [hmiss]
    have hc : (true && (¬ h.growing && (overLoadFactor h.count h.B ||
        tooManyOverflowBuckets h.noverflow h.B))) = false := by
      rcases hcond with hc | ⟨hA, hB⟩
      · simp [hc]
      · simp [hA, hB]
    rw [hc]
    cases hins : chainInsertEmpty (⟨tophashOf hash, k, v⟩ : Slot α β)
        (h.buckets.getD bucket []) with
    | some c' =>
      simp only [hins, Bool.false_eq_true, if_false]
      exact ⟨_, rfl, rfl, rfl, rfl⟩
    | none =>
      simp only [hins, Bool.false_eq_true, if_false]
      exact ⟨_, rfl, (incrnoverflow_fields t h).1,
        (incrnoverflow_fields t h).2.2.1, by rw [(incrnoverflow_fields t h).2.2.2.1]⟩
  · unfold overLoadFactor
    simp
  · intro hB
    unfold tooManyOverflowBuckets
    simp [hB, Nat.shiftLeft_eq]

set_option maxRecDepth 100000 in
/-- Witness for `mapassign_grow_trigger`: the full table after eight
inserts, probing the absent key `8` (load factor `8 >= 6.5 * 2^0`
triggers). -/
theorem mapassign_grow_trigger_witness :
    (putUpTo 8).growing = false ∧ overLoadFactor (putUpTo 8).count (putUpTo 8).B = true ∧
    mapassignScan tcW 8 108 8 true 0 (putUpTo 8) = .inr (hashGrow tcW (putUpTo 8)) :=
  ⟨by decide, by decide,
    (mapassign_grow_trigger tcW 8 108 8 10 0 (putUpTo 8) (putUpTo 8) (by decide)).1
      ⟨by decide, Or.inl (by decide)⟩⟩

/-! ## C4: `growWork` during a write -/

/-- C4: while the table is growing, a `put` or `delete` first runs
`growWork` on the bucket it is about to touch, and `growWork` evacuates the
old bucket addressed by that bucket under the old-generation mask and then,
if growth is still in progress, one additional old bucket at the current
evacuation cursor. -/
theorem growWork_during_write (t : MapType α β) (h : Hmap α β) (k : α) (v : β)
    (hg : h.growing = true) (hw : h.flags &&& hashWriting = 0)
    (hc : h.count ≠ 0) (hne : h.buckets ≠ []) :
    (∀ bucket, growWork t h bucket =
        (evacuate t h (bucket &&& h.oldbucketmask)).bind
          (fun h1 => if h1.growing then evacuate t h1 h1.nevacuate else .ok h1))
  ∧ (mapassign t (some h) k v =
      (growWork t h (hashOf t k h.hash0 &&& (2 ^ h.B - 1))).bind
        (fun h1 =>
          match mapassignScan t k v (hashOf t k h.hash0) true
              (hashOf t k h.hash0 &&& (2 ^ h.B - 1)) h1 with
          | .inl r => r
          | .inr h' => mapassignLoop t k v (hashOf t k h.hash0) (h.B + h.count + 1) h'))
  ∧ (mapdelete t (some h) k =
      (growWork t h (hashOf t k h.hash0 &&& (2 ^ h.B - 1))).bind
        (fun h1 => .ok (some (mapdeleteFinish t k (hashOf t k h.hash0)
          (hashOf t k h.hash0 &&& (2 ^ h.B - 1)) h1)))) := by
  refine ⟨fun bucket => rfl, ?_, ?_⟩
  · rw [mapassign_eq_loop t h k v hw hne]
    show mapassignLoop t k v (hashOf t k h.hash0) ((h.B + h.count + 1) + 1) h = _
    rw [mapassignLoop_succ]
    unfold mapassignStep
    rw [hg]
    simp only [ite_true]
    cases growWork t h (hashOf t k h.hash0 &&& (2 ^ h.B - 1)) with
    | error e => rfl
    | ok h1 =>
      show (match mapassignScan t k v (hashOf t k h.hash0) true
          (hashOf t k h.hash0 &&& (2 ^ h.B - 1)) h1 with
        | .inl r => r
        | .inr h' => mapassignLoop t k v (hashOf t k h.hash0) (h.B + h.count + 1) h') = _
      rfl
  · rw [mapdelete_eq_finish t h k hw hc]
    simp [hg]

set_option maxRecDepth 1000000 in
/-- Witness for `growWork_during_write` at the concrete mid-growth state
after 27 inserts. -/
theorem growWork_during_write_witness :
    (putUpTo 27).growing = true ∧
    mapdelete tcW (some (putUpTo 27)) 999 =
      (growWork tcW (putUpTo 27) (hashOf tcW 999 (putUpTo 27).hash0 &&&
          (2 ^ (putUpTo 27).B - 1))).bind
        (fun h1 => .ok (some (mapdeleteFinish tcW 999 (hashOf tcW 999 (putUpTo 27).hash0)
          (hashOf tcW 999 (putUpTo 27).hash0 &&& (2 ^ (putUpTo 27).B - 1)) h1))) :=
  ⟨by decide,
    (growWork_during_write tcW (putUpTo 27) 999 0 (by decide) (by decide)
      (by decide) (by decide)).2.2⟩

/-! ## C10: the lookups never return nil -/

/-- C10: the one-result lookup never returns a nil pointer — every miss,
including a nil map and a map with `count == 0`, yields the shared zero
object — while the two-result lookup flags the miss with `false`; on a hit
both return the stored value and the flag is `true`.  The two lookups agree
on every input. -/
theorem mapaccess1_never_nil (t : MapType α β) (h? : Option (Hmap α β)) (k : α) :
    ((mapaccess2 t h? k).map Prod.fst = mapaccess1 t h? k)
  ∧ (∀ r, mapaccess1 t h? k = .ok r → r ≠ Ref.nullRef)
  ∧ (∀ r b, mapaccess2 t h? k = .ok (r, b) →
      (b = false → r = Ref.zeroRef) ∧ (b = true → ∃ v, r = Ref.valRef v))
  ∧ ((h? = none ∨ ∃ h, h? = some h ∧ h.count = 0) →
      mapaccess1 t h? k = .ok Ref.zeroRef ∧
      mapaccess2 t h? k = .ok (Ref.zeroRef, false)) := by
  unfold mapaccess1 mapaccess2
  match h? with
  | none => simp [Except.map]
  | some h =>
    by_cases hc : h.count = 0
    · simp [hc, Except.map]
    · by_cases hw : h.flags &&& hashWriting ≠ 0
      · simp [hc, hw, Except.map]
      · simp only [hc, hw, if_false, if_true, ite_false, ite_true]
        cases chainAccess t (tophashOf (hashOf t k h.hash0)) k
            (readChain h (hashOf t k h.hash0)) with
        | some v => simp [hc, Except.map]
        | none => simp [hc, Except.map]

/-! ## C6: the write-in-progress flag -/

/-- C6 (corrected): a lookup on a map whose `hashWriting` flag is set does
not signal the concurrent-access error when the map is nil or empty
(`count == 0`): the nil/empty early-out precedes the flag check, so the
read proceeds and returns the not-found result; likewise `mapdelete`
returns silently.  This refutes the claim that every operation checks the
flag at entry "rather than proceeding". -/
theorem writeFlag_empty_counterexample :
    (({ putUpTo 0 with flags := hashWriting } : Hmap Nat Nat).flags &&& hashWriting ≠ 0)
  ∧ mapaccess2 tcW (some { putUpTo 0 with flags := hashWriting }) 3 = .ok (.zeroRef, false)
  ∧ mapaccess1 tcW (some { putUpTo 0 with flags := hashWriting }) 3 = .ok .zeroRef
  ∧ mapdelete tcW (some { putUpTo 0 with flags := hashWriting }) 3 =
      .ok (some { putUpTo 0 with flags := hashWriting }) := by
  refine ⟨by decide, by decide, by decide, by decide⟩

/-- C6 (amended): every operation on a non-empty table whose write flag is
already set — one- and two-result lookups, put, delete, iterate-next —
signals the fatal concurrent-access error at entry; `put` and iterate-next
signal it on any table (the nil-map assign panic aside), while lookups and
delete first take their nil/empty (`count == 0`) early-out and only then
consult the flag. -/
theorem writeFlag_checked_at_entry (t : MapType α β) (h : Hmap α β) (k : α)
    (v : β) (it : Hiter α β) (hw : h.flags &&& hashWriting ≠ 0) :
    (h.count ≠ 0 → mapaccess1 t (some h) k = .error .concurrentReadWrite)
  ∧ (h.count ≠ 0 → mapaccess2 t (some h) k = .error .concurrentReadWrite)
  ∧ (mapassign t (some h) k v = .error .concurrentWrite)
  ∧ (h.count ≠ 0 → mapdelete t (some h) k = .error .concurrentWrite)
  ∧ (mapiternext t h it = .error .concurrentIterWrite) := by
  refine ⟨?_, ?_, ?_, ?_, ?_⟩
  · intro hc
    unfold mapaccess1
    simp [hc, hw]
  · intro hc
    unfold mapaccess2
    simp [hc, hw]
  · unfold mapassign
    simp [hw]
  · intro hc
    unfold mapdelete
    simp [hc, hw]
  · unfold mapiternext
    simp [hw]

/-- Witness for `writeFlag_checked_at_entry` on a concrete non-empty table
with the flag forced on. -/
theorem writeFlag_checked_at_entry_witness :
    (({ putUpTo 3 with flags := hashWriting } : Hmap Nat Nat).flags &&& hashWriting ≠ 0)
  ∧ mapaccess2 tcW (some { putUpTo 3 with flags := hashWriting }) 1 =
      .error .concurrentReadWrite :=
  ⟨by decide,
    (writeFlag_checked_at_entry tcW { putUpTo 3 with flags := hashWriting } 1 0
      ⟨none, none, [], [], 0, 0, false, 0, 0, 0, 0⟩ (by decide)).2.1 (by decide)⟩

/-! ## C3: growth invariants of the evacuation cursor -/

theorem advanceLoop_le (old : List (Chain α β)) (stop : Nat) :
    ∀ fuel nev, nev ≤ advanceLoop old stop fuel nev := by
  intro fuel
  induction fuel with
  | zero => intro nev; exact Nat.le_refl _
  | succ fuel ih =>
    intro nev
    unfold advanceLoop
    split
    · exact Nat.le_refl _
    · split
      · exact Nat.le_trans (Nat.le_succ _) (ih (nev + 1))
      · exact Nat.le_refl _

theorem evacAdvance_nevacuate (h : Hmap α β) (old : List (Chain α β))
    (oldbucket newbit : Nat) (hlt : h.nevacuate < newbit) :
    h.nevacuate ≤ (evacAdvance h old oldbucket newbit).nevacuate ∧
    ((evacAdvance h old oldbucket newbit).oldbuckets = none ↔
      (h.oldbuckets = none ∨
        (evacAdvance h old oldbucket newbit).nevacuate = newbit)) := by
  unfold evacAdvance
  by_cases hj : oldbucket = h.nevacuate
  · subst hj
    rw [if_pos rfl]
    have hle : h.nevacuate + 1 ≤
        advanceLoop old ((h.nevacuate + 1 + 1024) ⊓ newbit) (1025 + old.length)
          (h.nevacuate + 1) := advanceLoop_le old _ _ _
    by_cases hres : advanceLoop old ((h.nevacuate + 1 + 1024) ⊓ newbit)
        (1025 + old.length) (h.nevacuate + 1) = newbit
    · rw [if_pos hres]
      exact ⟨Nat.le_of_succ_le hle, by simp [hres]⟩
    · rw [if_neg hres]
      exact ⟨Nat.le_of_succ_le hle, by simp [hres]⟩
  · simp only [if_neg hj]
    have : h.nevacuate ≠ newbit := Nat.ne_of_lt hlt
    exact ⟨Nat.le_refl _, by simp [this]⟩

theorem pushSlot_SameCore (t : MapType α β) (s : Slot α β) (d : EvacDest α β)
    (h : Hmap α β) : SameCore h (pushSlot t s d h).2 := by
  unfold pushSlot SameCore
  split
  · simp only
    have := incrnoverflow_fields t h
    exact ⟨this.2.2.2.1, this.2.2.2.2.1, this.1, this.2.2.2.2.2.1, this.2.1,
      this.2.2.1, this.2.2.2.2.2.2⟩
  · exact ⟨rfl, rfl, rfl, rfl, rfl, rfl, rfl⟩

theorem SameCore_trans (h1 h2 h3 : Hmap α β) :
    SameCore h1 h2 → SameCore h2 h3 → SameCore h1 h3 := by
  intro a b
  unfold SameCore at a b ⊢
  exact ⟨b.1.trans a.1, b.2.1.trans a.2.1, b.2.2.1.trans a.2.2.1,
    b.2.2.2.1.trans a.2.2.2.1, b.2.2.2.2.1.trans a.2.2.2.2.1,
    b.2.2.2.2.2.1.trans a.2.2.2.2.2.1, b.2.2.2.2.2.2.trans a.2.2.2.2.2.2⟩

theorem evacuateSlot_SameCore (t : MapType α β) (newbit : Nat)
    (st : EvacState α β) (s : Slot α β) (mark : Nat) (st' : EvacState α β)
    (heq : evacuateSlot t newbit st s = .ok (mark, st')) :
    SameCore st.h st'.h := by
  unfold evacuateSlot at heq
  split at heq
  · cases heq
    exact ⟨rfl, rfl, rfl, rfl, rfl, rfl, rfl⟩
  · split at heq
    · cases heq
    · split at heq <;>
      · cases heq
        exact pushSlot_SameCore t _ _ _

theorem evacuateBucket_SameCore (t : MapType α β) (newbit : Nat) :
    ∀ (b : Bucket α β) (st : EvacState α β) (b' : Bucket α β)
      (st' : EvacState α β), evacuateBucket t newbit st b = .ok (b', st') →
      SameCore st.h st'.h := by
  intro b
  induction b with
  | nil =>
    intro st b' st' heq
    cases heq
    exact ⟨rfl, rfl, rfl, rfl, rfl, rfl, rfl⟩
  | cons s rest ih =>
    intro st b' st' heq
    unfold evacuateBucket at heq
    split at heq
    · cases heq
    · split at heq
      · cases heq
      · cases heq
        exact SameCore_trans _ _ _
          (evacuateSlot_SameCore t newbit st s _ _ (by assumption))
          (ih _ _ _ (by assumption))

theorem evacuateChain_SameCore (t : MapType α β) (newbit : Nat) :
    ∀ (c : Chain α β) (st : EvacState α β) (c' : Chain α β)
      (st' : EvacState α β), evacuateChain t newbit st c = .ok (c', st') →
      SameCore st.h st'.h := by
  intro c
  induction c with
  | nil =>
    intro st c' st' heq
    cases heq
    exact ⟨rfl, rfl, rfl, rfl, rfl, rfl, rfl⟩
  | cons b rest ih =>
    intro st c' st' heq
    unfold evacuateChain at heq
    split at heq
    · cases heq
    · split at heq
      · cases heq
      · cases heq
        exact SameCore_trans _ _ _
          (evacuateBucket_SameCore t newbit b st _ _ (by assumption))
          (ih _ _ _ (by assumption))

/-- What `evacuate` does to the cursor and the old array: the cursor never
decreases, and — provided the cursor is still short of the old bucket count,
which holds in every growing well-formed state (`WF.old_nev`) — the old
array is dropped exactly when the cursor reaches the old bucket count. -/
theorem evacuate_cursor (t : MapType α β) (h : Hmap α β) (j : Nat)
    (h' : Hmap α β) (heq : evacuate t h j = .ok h')
    (hnev : h.growing = true → h.nevacuate < h.noldbuckets) :
    h.nevacuate ≤ h'.nevacuate ∧
    (h.growing = true → ((h'.oldbuckets = none) ↔ h'.nevacuate = h.noldbuckets)) := by
  unfold evacuate at heq
  split at heq
  case h_1 hob =>
    cases heq
    refine ⟨Nat.le_refl _, ?_⟩
    intro hg
    rw [Hmap.growing, hob] at hg
    cases hg
  case h_2 old hob =>
    have hg : h.growing = true := by rw [Hmap.growing, hob]; rfl
    have hlt := hnev hg
    have key : ∀ (hh : Hmap α β) (old2 : List (Chain α β)),
        hh.nevacuate = h.nevacuate → hh.oldbuckets.isSome →
        h.nevacuate ≤ (evacAdvance hh old2 j h.noldbuckets).nevacuate ∧
        ((evacAdvance hh old2 j h.noldbuckets).oldbuckets = none ↔
          (evacAdvance hh old2 j h.noldbuckets).nevacuate = h.noldbuckets) := by
      intro hh old2 hnev2 hsome
      have h2 := evacAdvance_nevacuate hh old2 j h.noldbuckets (hnev2 ▸ hlt)
      refine ⟨hnev2 ▸ h2.1, ?_⟩
      rw [h2.2]
      cases hob2 : hh.oldbuckets with
      | none => rw [hob2] at hsome; cases hsome
      | some _ => simp
    dsimp only at heq
    split at heq
    · -- not yet evacuated: run the copy loop, then advance
      split at heq
      · cases heq
      · cases heq
        rename_i marked st hch
        have hsc := evacuateChain_SameCore t h.noldbuckets (old.getD j [])
          _ marked st hch
        refine (key _ _ ?_ ?_ ).imp (fun a => a) (fun b _ => b)
        · exact hsc.2.2.2.2.2.2
        · rfl
    · -- already evacuated: just advance
      cases heq
      refine (key h old rfl ?_).imp (fun a => a) (fun b _ => b)
      rw [hob]
      rfl

/-- C3 (amended): the old bucket array is present exactly when the table is
mid-growth (`growing()` is defined as `oldbuckets != nil`); `hashGrow`
installs the current array as the old one and resets the evacuation cursor
to `0`; and `evacuate` never decreases the cursor and — provided the cursor
is still short of the old bucket count, which holds in every growing
well-formed state — releases the old array exactly when the cursor reaches
the old bucket count.  The cursor is monotone only within one growth cycle:
the reset at `hashGrow` can decrease it across an operation that triggers a
fresh grow (see the counterexample). -/
theorem mapgrow_cursor_invariants (t : MapType α β) (h : Hmap α β) :
    (h.growing = h.oldbuckets.isSome) ∧
    ((hashGrow t h).nevacuate = 0 ∧ (hashGrow t h).oldbuckets = some h.buckets) ∧
    (∀ j h', evacuate t h j = .ok h' →
      (h.growing = true → h.nevacuate < h.noldbuckets) →
      h.nevacuate ≤ h'.nevacuate ∧
      (h.growing = true → (h'.oldbuckets = none ↔ h'.nevacuate = h.noldbuckets))) :=
  ⟨rfl, ⟨rfl, rfl⟩, fun j h' heq hnev => evacuate_cursor t h j h' heq hnev⟩

/-- Witness for C3: on the concrete mid-growth state `hGrowC3`, evacuating
old bucket 0 advances the cursor from 0 to 1 and releases the old array
exactly as the cursor reaches the old bucket count 1. -/
theorem mapgrow_cursor_invariants_witness :
    evacuate tcW hGrowC3 0 = .ok (evacD tcW hGrowC3 0) ∧
    hGrowC3.nevacuate ≤ (evacD tcW hGrowC3 0).nevacuate ∧
    ((evacD tcW hGrowC3 0).oldbuckets = none ↔
      (evacD tcW hGrowC3 0).nevacuate = hGrowC3.noldbuckets) :=
  have heq : evacuate tcW hGrowC3 0 = .ok (evacD tcW hGrowC3 0) := by decide
  ⟨heq,
   ((mapgrow_cursor_invariants tcW hGrowC3).2.2 0 _ heq (by decide)).1,
   ((mapgrow_cursor_invariants tcW hGrowC3).2.2 0 _ heq (by decide)).2 (by decide)⟩

set_option maxRecDepth 1000000 in
/-- Counterexample to C3 as stated: the evacuation cursor DOES decrease
across an operation.  After 26 sequential puts the previous growth has
completed with the cursor left at 2; the 27th put triggers a fresh grow,
whose `hashGrow` resets the cursor to 0, and finishes with the cursor at 1
— a decrease from 2 to 1 across a single `mapassign`. -/
theorem nevacuate_decreases_on_regrow :
    (putUpTo 26).nevacuate = 2 ∧
    mapassign tcW (some (putUpTo 26)) 26 126 = .ok (putUpTo 27) ∧
    (putUpTo 27).nevacuate = 1 := by decide

theorem lor_land_self (a b : Nat) : (a ||| b) &&& b = b := by
  apply Nat.eq_of_testBit_eq
  intro i
  rw [Nat.testBit_land, Nat.testBit_lor]
  cases hb : b.testBit i <;> simp [hb]

theorem andNot_land_self (a b : Nat) : andNot a b &&& b = 0 := by
  rw [andNot_eq_ldiff]
  apply Nat.eq_of_testBit_eq
  intro i
  rw [Nat.testBit_land, Nat.testBit_ldiff]
  cases hb : b.testBit i <;> simp [hb]

/-- C8 (amended): during a doubling grow, a key that does not compare equal
to itself is routed to X or Y by the low bit of its stored tag byte — X on
an even tag, Y on an odd tag — PROVIDED the iterator flag is set; with no
iterator flagged the recomputed hash decides (see the counterexample). -/
theorem evacuate_nan_iterator_tag_bit (t : MapType α β) (h : Hmap α β)
    (newbit : Nat) (s : Slot α β)
    (hss : h.isSameSizeGrow = false)
    (hiter : h.flags &&& iterFlag ≠ 0)
    (hrefl : t.reflexivekey = false)
    (hnan : t.equal s.key s.key = false)
    (hb : 0 < newbit) :
    (evacDecision t h newbit s).1 = decide (s.top &&& 1 = 0) := by
  have hnb : newbit ≠ 0 := Nat.pos_iff_ne_zero.mp hb
  simp only [evacDecision, hss, Bool.false_eq_true, not_false_eq_true, if_true]
  rw [if_pos ⟨hiter, hrefl, hnan⟩]
  by_cases htop : s.top &&& 1 = 0
  · rw [if_neg (by simp [htop])]
    simp [andNot_land_self, htop]
  · rw [if_pos htop]
    rw [Nat.and_one_is_mod] at htop
    simp [lor_land_self, hnb, Nat.and_one_is_mod]
    omega

/-- Witness for C8: on the concrete descriptor `tcNaN` (key `7` does not
compare equal to itself) and the growing state `hNaN` with the iterator
flag set, the slot with even stored tag `4` is routed to X: the decision
equals the tag's low-bit test. -/
theorem evacuate_nan_iterator_tag_bit_witness :
    ({ hNaN with flags := iterFlag } : Hmap Nat Nat).isSameSizeGrow = false ∧
    { hNaN with flags := iterFlag }.flags &&& iterFlag ≠ 0 ∧
    tcNaN.reflexivekey = false ∧
    tcNaN.equal 7 7 = false ∧
    (evacDecision tcNaN { hNaN with flags := iterFlag } 1
      (⟨4, 7, 77⟩ : Slot Nat Nat)).1 = decide ((⟨4, 7, 77⟩ : Slot Nat Nat).top &&& 1 = 0) :=
  ⟨by decide, by decide, by decide, by decide,
   evacuate_nan_iterator_tag_bit tcNaN { hNaN with flags := iterFlag } 1
     ⟨4, 7, 77⟩ (by decide) (by decide) (by decide) (by decide) (by decide)⟩

/-- Counterexample to C8 as stated: with NO iterator flagged, the
destination of a key that does not compare equal to itself is decided by
the recomputed hash, not the stored tag's low bit.  In the concrete growing
state `hNaN` (iterator flag clear) the slot holding key `7` has the even
tag `4` — the tag's low bit says X — yet the decision is Y (`false`), and
after evacuating the old bucket the key sits in the high bucket 1. -/
theorem evacuate_nan_no_iterator_counterexample :
    hNaN.flags &&& iterFlag = 0 ∧
    (⟨4, 7, 77⟩ : Slot Nat Nat).top &&& 1 = 0 ∧
    (evacDecision tcNaN hNaN hNaN.noldbuckets (⟨4, 7, 77⟩ : Slot Nat Nat)).1 = false ∧
    ((evacD tcNaN hNaN 0).buckets.getD 1 []).any
      (fun b => b.any (fun sl => decide (sl.key = 7 ∧ sl.top ≠ emptyCell))) = true := by
  decide

theorem evacAdvance_count (h : Hmap α β) (old : List (Chain α β)) (j nb : Nat) :
    (evacAdvance h old j nb).count = h.count := by
  unfold evacAdvance
  split
  · dsimp only
    split <;> rfl
  · rfl

theorem evacuate_count (t : MapType α β) (h : Hmap α β) (j : Nat) (h' : Hmap α β)
    (heq : evacuate t h j = .ok h') : h'.count = h.count := by
  unfold evacuate at heq
  split at heq
  case h_1 hob => cases heq; rfl
  case h_2 old hob =>
    dsimp only at heq
    split at heq
    · split at heq
      · cases heq
      · cases heq
        rename_i marked st hch
        rw [evacAdvance_count]
        exact (evacuateChain_SameCore t h.noldbuckets (old.getD j []) _ marked st hch).1
    · cases heq
      rw [evacAdvance_count]

theorem growWork_count (t : MapType α β) (h : Hmap α β) (b : Nat) (h1 : Hmap α β)
    (heq : growWork t h b = .ok h1) : h1.count = h.count := by
  unfold growWork at heq
  cases he1 : evacuate t h (b &&& h.oldbucketmask) with
  | error e =>
    rw [he1] at heq
    simp only [bind, Except.bind] at heq
    cases heq
  | ok hm =>
    rw [he1] at heq
    simp only [bind, Except.bind] at heq
    split at heq
    · exact (evacuate_count _ _ _ _ heq).trans (evacuate_count _ _ _ _ he1)
    · cases heq
      exact evacuate_count _ _ _ _ he1

/-- C9 (amended): deleting a key the scan does not find is an exact no-op
on a table that is not mid-growth; on a growing table the delete performs
its share of evacuation work first — the state changes (see the
counterexample) — but `count` is unchanged.  Re-putting a key the scan
finds updates the entry in place and leaves `count` unchanged, however
often repeated. -/
theorem mapdelete_absent_mapassign_present (t : MapType α β) :
    (∀ (h : Hmap α β) (k : α),
      h.flags &&& hashWriting = 0 →
      h.growing = false →
      chainUpdate t (tophashOf (hashOf t k h.hash0)) k (fun _ => emptySlot)
        (h.buckets.getD (hashOf t k h.hash0 &&& (2 ^ h.B - 1)) []) = none →
      mapdelete t (some h) k = .ok (some h))
  ∧ (∀ (h h1 : Hmap α β) (k : α),
      h.flags &&& hashWriting = 0 →
      h.count ≠ 0 →
      h.growing = true →
      growWork t h (hashOf t k h.hash0 &&& (2 ^ h.B - 1)) = .ok h1 →
      chainUpdate t (tophashOf (hashOf t k h.hash0)) k (fun _ => emptySlot)
        (h1.buckets.getD (hashOf t k h.hash0 &&& (2 ^ h.B - 1)) []) = none →
      mapdelete t (some h) k = .ok (some h1) ∧ h1.count = h.count)
  ∧ (∀ (h h1 : Hmap α β) (k : α) (v : β) (c' : Chain α β),
      h.flags &&& hashWriting = 0 →
      h.buckets ≠ [] →
      (if h.growing then growWork t h (hashOf t k h.hash0 &&& (2 ^ h.B - 1))
       else .ok h) = .ok h1 →
      chainUpdate t (tophashOf (hashOf t k h.hash0)) k
        (fun s => { s with key := if t.needkeyupdate then k else s.key, val := v })
        (h1.buckets.getD (hashOf t k h.hash0 &&& (2 ^ h.B - 1)) []) = some c' →
      mapassign t (some h) k v =
        .ok { h1 with buckets :=
          h1.buckets.set (hashOf t k h.hash0 &&& (2 ^ h.B - 1)) c' }
      ∧ h1.count = h.count) := by
  refine ⟨?_, ?_, ?_⟩
  · intro h k hw hng hmiss
    by_cases hc : h.count = 0
    · unfold mapdelete
      simp [hc]
    · rw [mapdelete_eq_finish t h k hw hc]
      rw [hng]
      simp only [Bool.false_eq_true, if_false, Except.bind]
      unfold mapdeleteFinish
      dsimp only
      rw [hmiss]
  · intro h h1 k hw hc hg hgw hmiss
    refine ⟨?_, growWork_count t h _ h1 hgw⟩
    rw [mapdelete_eq_finish t h k hw hc]
    rw [hg]
    simp only [if_true]
    rw [hgw]
    simp only [bind, Except.bind]
    unfold mapdeleteFinish
    dsimp only
    rw [hmiss]
  · intro h h1 k v c' hw hne hgw hhit
    have hcnt : h1.count = h.count := by
      cases hgrow : h.growing with
      | true =>
        rw [hgrow] at hgw
        simp only [if_true] at hgw
        exact growWork_count t h _ h1 hgw
      | false =>
        rw [hgrow] at hgw
        simp only [Bool.false_eq_true, if_false] at hgw
        cases hgw
        rfl
    refine ⟨?_, hcnt⟩
    rw [mapassign_eq_loop t h k v hw hne]
    show mapassignLoop t k v (hashOf t k h.hash0) ((h.B + h.count + 1) + 1) h = _
    rw [mapassignLoop_succ]
    unfold mapassignStep
    dsimp only
    rw [hgw]
    unfold mapassignScan
    dsimp only
    rw [hhit]

set_option maxRecDepth 100000 in
/-- Witness for C9 on the 8-entry table: deleting the absent key `999` is an
exact no-op, and re-putting the present key `3` rewrites its chain in place
(leaving `count` at 8). -/
theorem mapdelete_absent_mapassign_present_witness :
    mapdelete tcW (some (putUpTo 8)) 999 = .ok (some (putUpTo 8)) ∧
    mapassign tcW (some (putUpTo 8)) 3 203 =
      .ok { putUpTo 8 with
            buckets := (putUpTo 8).buckets.set
              (hashOf tcW 3 (putUpTo 8).hash0 &&& (2 ^ (putUpTo 8).B - 1)) c9hit } :=
  ⟨(mapdelete_absent_mapassign_present tcW).1 (putUpTo 8) 999
      (by decide) (by decide) (by decide),
   ((mapdelete_absent_mapassign_present tcW).2.2 (putUpTo 8) (putUpTo 8) 3 203 c9hit
      (by decide) (by decide) (by decide) (by decide)).1⟩

set_option maxRecDepth 1000000 in
/-- Counterexample to C9 as stated: deleting an absent key is NOT always a
no-op.  On the mid-growth table after 27 inserts, deleting the absent key
`999` (the two-result lookup reports it missing) changes the table — the
delete's `growWork` evacuates old buckets — even though `count` is
untouched. -/
theorem mapdelete_absent_growing_counterexample :
    (putUpTo 27).growing = true ∧
    mapaccess2 tcW (some (putUpTo 27)) 999 = .ok (.zeroRef, false) ∧
    (putUpTo 27).nevacuate = 1 ∧ (delD tcW (putUpTo 27) 999).nevacuate = 4 ∧
    (delD tcW (putUpTo 27) 999).count = (putUpTo 27).count := by decide

/-! ## Scan lemmas: the access, update and insert walks agree cell by cell -/

theorem bucketAccess_eq_none_iff (t : MapType α β) (top : Nat) (k : α)
    (b : Bucket α β) :
    bucketAccess t top k b = none ↔ ∀ s ∈ b, ¬ slotMatch t top k s := by
  induction b with
  | nil => simp [bucketAccess]
  | cons s rest ih =>
    unfold bucketAccess
    by_cases hm : s.top = top ∧ t.equal k s.key = true
    · rw [if_pos hm]
      constructor
      · intro hc; cases hc
      · intro hall
        exact absurd (hm : slotMatch t top k s) (hall s (List.mem_cons_self s rest))
    · rw [if_neg hm]
      rw [ih]
      constructor
      · intro hall x hx
        rcases List.mem_cons.1 hx with rfl | hx2
        · exact hm
        · exact hall x hx2
      · intro hall x hx
        exact hall x (List.mem_cons_of_mem s hx)

theorem chainAccess_eq_none_iff (t : MapType α β) (top : Nat) (k : α)
    (c : Chain α β) :
    chainAccess t top k c = none ↔ ∀ s ∈ chainSlots c, ¬ slotMatch t top k s := by
  induction c with
  | nil => simp [chainAccess, chainSlots]
  | cons b rest ih =>
    unfold chainAccess
    cases hb : bucketAccess t top k b with
    | some v =>
      show some v = none ↔ _
      constructor
      · intro hc; cases hc
      · intro hall
        have hnone := (bucketAccess_eq_none_iff t top k b).mpr
          (fun x hx => hall x (by
            show x ∈ (b :: rest).flatten
            rw [List.flatten_cons]
            exact List.mem_append_left _ hx))
        rw [hnone] at hb
        cases hb
    | none =>
      show chainAccess t top k rest = none ↔ _
      have hball := (bucketAccess_eq_none_iff t top k b).mp hb
      rw [ih]
      constructor
      · intro hall x hx
        rw [show chainSlots (b :: rest) = b ++ chainSlots rest from
          List.flatten_cons] at hx
        rcases List.mem_append.1 hx with h1 | h2
        · exact hball x h1
        · exact hall x h2
      · intro hall x hx
        refine hall x ?_
        rw [show chainSlots (b :: rest) = b ++ chainSlots rest from
          List.flatten_cons]
        exact List.mem_append_right _ hx

theorem bucketUpdate_eq_none_iff (t : MapType α β) (top : Nat) (k : α)
    (f : Slot α β → Slot α β) (b : Bucket α β) :
    bucketUpdate t top k f b = none ↔ ∀ s ∈ b, ¬ slotMatch t top k s := by
  induction b with
  | nil => simp [bucketUpdate]
  | cons s rest ih =>
    unfold bucketUpdate
    by_cases hm : s.top = top ∧ t.equal k s.key = true
    · rw [if_pos hm]
      constructor
      · intro hc; cases hc
      · intro hall
        exact absurd (hm : slotMatch t top k s) (hall s (List.mem_cons_self s rest))
    · rw [if_neg hm]
      constructor
      · intro hmap x hx
        have hnone : bucketUpdate t top k f rest = none := by
          cases hr : bucketUpdate t top k f rest with
          | none => rfl
          | some rb => rw [hr] at hmap; cases hmap
        rcases List.mem_cons.1 hx with rfl | hx2
        · exact hm
        · exact (ih.mp hnone) x hx2
      · intro hall
        have hnone : bucketUpdate t top k f rest = none :=
          ih.mpr (fun x hx => hall x (List.mem_cons_of_mem s hx))
        rw [hnone]
        rfl

theorem chainUpdate_eq_none_iff (t : MapType α β) (top : Nat) (k : α)
    (f : Slot α β → Slot α β) (c : Chain α β) :
    chainUpdate t top k f c = none ↔ ∀ s ∈ chainSlots c, ¬ slotMatch t top k s := by
  induction c with
  | nil => simp [chainUpdate, chainSlots]
  | cons b rest ih =>
    unfold chainUpdate
    cases hb : bucketUpdate t top k f b with
    | some b2 =>
      show some (b2 :: rest) = none ↔ _
      constructor
      · intro hc; cases hc
      · intro hall
        have hnone := (bucketUpdate_eq_none_iff t top k f b).mpr
          (fun x hx => hall x (by
            rw [show chainSlots (b :: rest) = b ++ chainSlots rest from
              List.flatten_cons]
            exact List.mem_append_left _ hx))
        rw [hnone] at hb
        cases hb
    | none =>
      show (chainUpdate t top k f rest).map (b :: ·) = none ↔ _
      have hball := (bucketUpdate_eq_none_iff t top k f b).mp hb
      constructor
      · intro hmap x hx
        have hnone : chainUpdate t top k f rest = none := by
          cases hr : chainUpdate t top k f rest with
          | none => rfl
          | some rc => rw [hr] at hmap; cases hmap
        rw [show chainSlots (b :: rest) = b ++ chainSlots rest from
          List.flatten_cons] at hx
        rcases List.mem_append.1 hx with h1 | h2
        · exact hball x h1
        · exact (ih.mp hnone) x h2
      · intro hall
        have hnone : chainUpdate t top k f rest = none :=
          ih.mpr (fun x hx => hall x (by
            rw [show chainSlots (b :: rest) = b ++ chainSlots rest from
              List.flatten_cons]
            exact List.mem_append_right _ hx))
        rw [hnone]
        rfl

theorem bucketUpdate_eq_some_decomp (t : MapType α β) (top : Nat) (k : α)
    (f : Slot α β → Slot α β) :
    ∀ (b b' : Bucket α β), bucketUpdate t top k f b = some b' →
    ∃ p s q, b = p ++ s :: q ∧ b' = p ++ f s :: q ∧ slotMatch t top k s ∧
      ∀ x ∈ p, ¬ slotMatch t top k x := by
  intro b
  induction b with
  | nil => intro b' h; cases h
  | cons s rest ih =>
    intro b' hup
    unfold bucketUpdate at hup
    by_cases hm : s.top = top ∧ t.equal k s.key = true
    · rw [if_pos hm] at hup
      cases hup
      exact ⟨[], s, rest, rfl, rfl, hm, by simp⟩
    · rw [if_neg hm] at hup
      cases hr : bucketUpdate t top k f rest with
      | none => rw [hr] at hup; cases hup
      | some rb =>
        rw [hr] at hup
        cases hup
        obtain ⟨p, s0, q, hb, hb', hms, hp⟩ := ih rb hr
        refine ⟨s :: p, s0, q, by rw [List.cons_append, ← hb],
          by rw [List.cons_append, ← hb'], hms, ?_⟩
        intro x hx
        rcases List.mem_cons.1 hx with rfl | hx2
        · exact hm
        · exact hp x hx2

theorem chainUpdate_eq_some_decomp (t : MapType α β) (top : Nat) (k : α)
    (f : Slot α β → Slot α β) :
    ∀ (c c' : Chain α β), chainUpdate t top k f c = some c' →
    ∃ cp p s q cq, c = cp ++ (p ++ s :: q) :: cq ∧
      c' = cp ++ (p ++ f s :: q) :: cq ∧ slotMatch t top k s ∧
      (∀ x ∈ chainSlots cp, ¬ slotMatch t top k x) ∧
      ∀ x ∈ p, ¬ slotMatch t top k x := by
  intro c
  induction c with
  | nil => intro c' h; cases h
  | cons b rest ih =>
    intro c' hup
    unfold chainUpdate at hup
    cases hb : bucketUpdate t top k f b with
    | some b2 =>
      rw [hb] at hup
      cases hup
      obtain ⟨p, s0, q, hbb, hb2, hms, hp⟩ := bucketUpdate_eq_some_decomp t top k f b b2 hb
      exact ⟨[], p, s0, q, rest, by rw [List.nil_append, ← hbb],
        by rw [List.nil_append, ← hb2], hms, by simp [chainSlots], hp⟩
    | none =>
      rw [hb] at hup
      cases hr : chainUpdate t top k f rest with
      | none => rw [hr] at hup; cases hup
      | some rc =>
        rw [hr] at hup
        cases hup
        obtain ⟨cp, p, s0, q, cq, hc, hc', hms, hcp, hp⟩ := ih rc hr
        rw [bucketUpdate_eq_none_iff] at hb
        refine ⟨b :: cp, p, s0, q, cq, by rw [List.cons_append, ← hc],
          by rw [List.cons_append, ← hc'], hms, ?_, hp⟩
        intro x hx
        rw [show chainSlots (b :: cp) = b ++ chainSlots cp from
          List.flatten_cons] at hx
        rcases List.mem_append.1 hx with hx1 | hx2
        · exact hb x hx1
        · exact hcp x hx2

theorem bucketAccess_first_match (t : MapType α β) (top : Nat) (k : α)
    (p : List (Slot α β)) (m : Slot α β) (q : List (Slot α β))
    (hp : ∀ x ∈ p, ¬ slotMatch t top k x) (hm : slotMatch t top k m) :
    bucketAccess t top k (p ++ m :: q) = some m.val := by
  induction p with
  | nil =>
    rw [List.nil_append]
    unfold bucketAccess
    have hm' : m.top = top ∧ t.equal k m.key = true := hm
    rw [if_pos hm']
  | cons x rest ih =>
    rw [List.cons_append]
    unfold bucketAccess
    have hx' : ¬ (x.top = top ∧ t.equal k x.key = true) :=
      hp x (List.mem_cons_self x rest)
    rw [if_neg hx']
    exact ih (fun y hy => hp y (List.mem_cons_of_mem x hy))

theorem chainAccess_first_match (t : MapType α β) (top : Nat) (k : α)
    (cp : Chain α β) (p : List (Slot α β)) (m : Slot α β) (q : List (Slot α β))
    (cq : Chain α β) (hcp : ∀ x ∈ chainSlots cp, ¬ slotMatch t top k x)
    (hp : ∀ x ∈ p, ¬ slotMatch t top k x) (hm : slotMatch t top k m) :
    chainAccess t top k (cp ++ (p ++ m :: q) :: cq) = some m.val := by
  induction cp with
  | nil =>
    rw [List.nil_append]
    unfold chainAccess
    rw [bucketAccess_first_match t top k p m q hp hm]
  | cons b rest ih =>
    rw [List.cons_append]
    unfold chainAccess
    have hb : bucketAccess t top k b = none := by
      rw [bucketAccess_eq_none_iff]
      intro x hx
      refine hcp x ?_
      rw [show chainSlots (b :: rest) = b ++ chainSlots rest from
        List.flatten_cons]
      exact List.mem_append_left _ hx
    rw [hb]
    exact ih (fun y hy => hcp y (by
      rw [show chainSlots (b :: rest) = b ++ chainSlots rest from
        List.flatten_cons]
      exact List.mem_append_right _ hy))

theorem bucketInsertEmpty_decomp (s' : Slot α β) :
    ∀ (b b' : Bucket α β), bucketInsertEmpty s' b = some b' →
    ∃ p e q, b = p ++ e :: q ∧ b' = p ++ s' :: q := by
  intro b
  induction b with
  | nil => intro b' h; cases h
  | cons x rest ih =>
    intro b' hins
    unfold bucketInsertEmpty at hins
    by_cases hx : x.top = emptyCell
    · rw [if_pos hx] at hins
      cases hins
      exact ⟨[], x, rest, rfl, rfl⟩
    · rw [if_neg hx] at hins
      cases hb2 : bucketInsertEmpty s' rest with
      | none => rw [hb2] at hins; cases hins
      | some rb =>
        rw [hb2] at hins
        cases hins
        obtain ⟨p, e, q, h1, h2⟩ := ih rb hb2
        exact ⟨x :: p, e, q, by rw [List.cons_append, ← h1],
          by rw [List.cons_append, ← h2]⟩

theorem chainInsertEmpty_decomp (s' : Slot α β) :
    ∀ (c c' : Chain α β), chainInsertEmpty s' c = some c' →
    ∃ cp p e q cq, c = cp ++ (p ++ e :: q) :: cq ∧
      c' = cp ++ (p ++ s' :: q) :: cq := by
  intro c
  induction c with
  | nil => intro c' h; cases h
  | cons b rest ih =>
    intro c' hins
    unfold chainInsertEmpty at hins
    cases hb : bucketInsertEmpty s' b with
    | some b2 =>
      rw [hb] at hins
      cases hins
      obtain ⟨p, e, q, h1, h2⟩ := bucketInsertEmpty_decomp s' b b2 hb
      exact ⟨[], p, e, q, rest, by rw [List.nil_append, ← h1],
        by rw [List.nil_append, ← h2]⟩
    | none =>
      rw [hb] at hins
      cases hr : chainInsertEmpty s' rest with
      | none => rw [hr] at hins; cases hins
      | some rc =>
        rw [hr] at hins
        cases hins
        obtain ⟨cp, p, e, q, cq, h1, h2⟩ := ih rc hr
        exact ⟨b :: cp, p, e, q, cq, by rw [List.cons_append, ← h1],
          by rw [List.cons_append, ← h2]⟩

theorem eqCtx_cross (t : MapType α β) (hctx : EqCtx t) (k a b : α)
    (ha : t.equal k a = true) (hb : t.equal k b = true) : t.equal a b = true :=
  hctx.trans a k b (hctx.symm k a ha) hb

theorem chainSlots_decomp_eq (cp : Chain α β) (m : Bucket α β) (cq : Chain α β) :
    chainSlots (cp ++ m :: cq) = chainSlots cp ++ m ++ chainSlots cq := by
  unfold chainSlots
  rw [List.flatten_append, List.flatten_cons]
  rw [List.append_assoc]

theorem nodup_no_second_match (t : MapType α β) (hctx : EqCtx t) (top : Nat)
    (k : α) (htop : minTopHash ≤ top) (c : Chain α β) (hnd : chainNoDup t c)
    (cp : Chain α β) (p : List (Slot α β)) (s : Slot α β) (q : List (Slot α β))
    (cq : Chain α β) (hc : c = cp ++ (p ++ s :: q) :: cq)
    (hms : slotMatch t top k s) :
    ∀ x ∈ q ++ chainSlots cq, ¬ slotMatch t top k x := by
  intro x hx hmx
  have hslots : chainSlots c =
      (chainSlots cp ++ p) ++ s :: (q ++ chainSlots cq) := by
    rw [hc, chainSlots_decomp_eq]
    simp [List.append_assoc]
  have hsl : decide (minTopHash ≤ s.top) = true := by
    rw [hms.1]; exact decide_eq_true htop
  have hxl : decide (minTopHash ≤ x.top) = true := by
    rw [hmx.1]; exact decide_eq_true htop
  have hfilter : liveSlots c =
      ((chainSlots cp ++ p).filter (fun y => decide (minTopHash ≤ y.top))) ++
      s :: ((q ++ chainSlots cq).filter (fun y => decide (minTopHash ≤ y.top))) := by
    unfold liveSlots
    rw [hslots, List.filter_append, List.filter_cons]
    rw [if_pos hsl]
  have hpw := hnd
  unfold chainNoDup at hpw
  rw [hfilter] at hpw
  have hpw2 := (List.pairwise_append.mp hpw).2.1
  have hrel := (List.pairwise_cons.mp hpw2).1 x
    (List.mem_filter.mpr ⟨hx, hxl⟩)
  exact hrel ⟨hms.1.trans hmx.1.symm,
    eqCtx_cross t hctx k s.key x.key hms.2 hmx.2⟩

theorem chainAccess_after_update (t : MapType α β) (top : Nat) (k : α)
    (f : Slot α β → Slot α β) (v : β) (c c' : Chain α β)
    (hup : chainUpdate t top k f c = some c')
    (hf : ∀ s, slotMatch t top k s → slotMatch t top k (f s) ∧ (f s).val = v) :
    chainAccess t top k c' = some v := by
  obtain ⟨cp, p, s0, q, cq, hc, hc', hms, hcp, hp⟩ :=
    chainUpdate_eq_some_decomp t top k f c c' hup
  rw [hc']
  rw [chainAccess_first_match t top k cp p (f s0) q cq hcp hp (hf s0 hms).1]
  rw [(hf s0 hms).2]

theorem chainAccess_after_insert (t : MapType α β) (top : Nat) (k : α) (v : β)
    (c c' : Chain α β) (hk : t.equal k k = true)
    (hnomatch : ∀ s ∈ chainSlots c, ¬ slotMatch t top k s)
    (hins : chainInsertEmpty (⟨top, k, v⟩ : Slot α β) c = some c') :
    chainAccess t top k c' = some v := by
  obtain ⟨cp, p, e, q, cq, h1, h2⟩ := chainInsertEmpty_decomp _ c c' hins
  rw [h2]
  have hcp : ∀ x ∈ chainSlots cp, ¬ slotMatch t top k x := by
    intro x hx
    refine hnomatch x ?_
    rw [h1, chainSlots_decomp_eq]
    exact List.mem_append_left _ (List.mem_append_left _ hx)
  have hp : ∀ x ∈ p, ¬ slotMatch t top k x := by
    intro x hx
    refine hnomatch x ?_
    rw [h1, chainSlots_decomp_eq]
    exact List.mem_append_left _
      (List.mem_append_right _ (List.mem_append_left _ hx))
  exact chainAccess_first_match t top k cp p _ q cq hcp hp ⟨rfl, hk⟩

theorem chainAccess_append_new (t : MapType α β) (top : Nat) (k : α) (v : β)
    (c : Chain α β) (pad : List (Slot α β)) (hk : t.equal k k = true)
    (hnomatch : ∀ s ∈ chainSlots c, ¬ slotMatch t top k s) :
    chainAccess t top k (c ++ [(⟨top, k, v⟩ : Slot α β) :: pad]) = some v :=
  chainAccess_first_match t top k c [] _ pad [] hnomatch (by simp) ⟨rfl, hk⟩

theorem chainAccess_after_delete (t : MapType α β) (hctx : EqCtx t) (top : Nat)
    (k : α) (htop : minTopHash ≤ top) (c c' : Chain α β)
    (hnd : chainNoDup t c)
    (hup : chainUpdate t top k (fun _ => emptySlot) c = some c') :
    chainAccess t top k c' = none := by
  obtain ⟨cp, p, s0, q, cq, hc, hc', hms, hcp, hp⟩ :=
    chainUpdate_eq_some_decomp t top k _ c c' hup
  have hq := nodup_no_second_match t hctx top k htop c hnd cp p s0 q cq hc hms
  rw [hc', chainAccess_eq_none_iff]
  intro x hx
  rw [chainSlots_decomp_eq] at hx
  rcases List.mem_append.1 hx with hx1 | hx2
  · rcases List.mem_append.1 hx1 with hx3 | hx4
    · exact hcp x hx3
    · rcases List.mem_append.1 hx4 with hx5 | hx6
      · exact hp x hx5
      · rcases List.mem_cons.1 hx6 with rfl | hx7
        · intro hmx
          have h0 : (0 : Nat) = top := hmx.1
          have h4 : 4 ≤ top := htop
          omega
        · exact hq x (List.mem_append_left _ hx7)
  · exact hq x (List.mem_append_right _ hx2)

/-! ## Bookkeeping of `evacuate` and `growWork`: header fields and markers -/

theorem andNot_land_keep (a b c : Nat) (hbc : b &&& c = 0) :
    andNot a b &&& c = a &&& c := by
  rw [andNot_eq_ldiff]
  apply Nat.eq_of_testBit_eq
  intro i
  rw [Nat.testBit_land, Nat.testBit_ldiff, Nat.testBit_land]
  by_cases hc : c.testBit i
  · have hb : b.testBit i = false := by
      by_contra hb
      have h2 := congrArg (fun n => n.testBit i) hbc
      simp only [Nat.testBit_land, Nat.zero_testBit] at h2
      rw [Bool.not_eq_false] at hb
      rw [hb, hc] at h2
      cases h2
    simp [hc, hb]
  · simp [hc]

theorem evacAdvance_fields (h : Hmap α β) (old : List (Chain α β)) (j nb : Nat) :
    (evacAdvance h old j nb).B = h.B ∧
    (evacAdvance h old j nb).hash0 = h.hash0 ∧
    (evacAdvance h old j nb).buckets = h.buckets ∧
    ((evacAdvance h old j nb).oldbuckets = h.oldbuckets ∧
        (evacAdvance h old j nb).flags = h.flags ∨
      (evacAdvance h old j nb).oldbuckets = none ∧
        (evacAdvance h old j nb).flags = andNot h.flags sameSizeGrowFlag) := by
  unfold evacAdvance
  split
  · dsimp only
    split
    · exact ⟨rfl, rfl, rfl, Or.inr ⟨rfl, rfl⟩⟩
    · exact ⟨rfl, rfl, rfl, Or.inl ⟨rfl, rfl⟩⟩
  · exact ⟨rfl, rfl, rfl, Or.inl ⟨rfl, rfl⟩⟩

theorem evacuate_fields (t : MapType α β) (h : Hmap α β) (j : Nat) (h' : Hmap α β)
    (heq : evacuate t h j = .ok h') :
    h'.B = h.B ∧ h'.hash0 = h.hash0 ∧
    h'.buckets.length = h.buckets.length ∧
    h'.flags &&& hashWriting = h.flags &&& hashWriting ∧
    (h'.oldbuckets = none ∨ h'.flags = h.flags) := by
  have h84 : sameSizeGrowFlag &&& hashWriting = 0 := by decide
  unfold evacuate at heq
  split at heq
  case h_1 hob =>
    cases heq
    exact ⟨rfl, rfl, rfl, rfl, Or.inr rfl⟩
  case h_2 old hob =>
    dsimp only at heq
    split at heq
    · split at heq
      · cases heq
      · cases heq
        rename_i marked st hch
        have hsc := evacuateChain_SameCore t h.noldbuckets (old.getD j []) _ marked st hch
        obtain ⟨hB, hh0, hbk, hrest⟩ := evacAdvance_fields
          { st.h with
            buckets :=
              if ¬ h.isSameSizeGrow then
                ((st.h.buckets.set j
                    (destChain ((h.buckets.getD j []).drop 1) st.x)).set
                  (j + h.noldbuckets)
                  (destChain ((h.buckets.getD (j + h.noldbuckets) []).drop 1) st.y))
              else st.h.buckets.set j
                (destChain ((h.buckets.getD j []).drop 1) st.x),
            oldbuckets := some (old.set j
              (if h.flags &&& oldIterFlag = 0 then
                [(marked.headD []).map
                  (fun s => { s with key := default, val := default })]
              else marked)) }
          (old.set j
            (if h.flags &&& oldIterFlag = 0 then
              [(marked.headD []).map
                (fun s => { s with key := default, val := default })]
            else marked))
          j h.noldbuckets
        refine ⟨hB.trans hsc.2.2.1, hh0.trans hsc.2.2.2.1, ?_, ?_, ?_⟩
        · rw [hbk]
          show (if ¬ h.isSameSizeGrow then _ else _ : List (Chain α β)).length = _
          split
          · rw [List.length_set, List.length_set, hsc.2.2.2.2.1]
          · rw [List.length_set, hsc.2.2.2.2.1]
        · rcases hrest with ⟨_, hf⟩ | ⟨_, hf⟩
          · rw [hf]
            show st.h.flags &&& hashWriting = _
            rw [hsc.2.1]
          · rw [hf]
            rw [andNot_land_keep _ _ _ h84]
            show st.h.flags &&& hashWriting = _
            rw [hsc.2.1]
        · rcases hrest with ⟨_, hf⟩ | ⟨ho, _⟩
          · refine Or.inr ?_
            rw [hf]
            show st.h.flags = _
            rw [hsc.2.1]
          · exact Or.inl ho
    · cases heq
      obtain ⟨hB, hh0, hbk, hrest⟩ := evacAdvance_fields h old j h.noldbuckets
      refine ⟨hB, hh0, by rw [hbk], ?_, ?_⟩
      · rcases hrest with ⟨_, hf⟩ | ⟨_, hf⟩
        · rw [hf]
        · rw [hf, andNot_land_keep _ _ _ h84]
      · rcases hrest with ⟨_, hf⟩ | ⟨ho, _⟩
        · exact Or.inr hf
        · exact Or.inl ho

theorem getD_set_self {γ : Type} (l : List γ) (i : Nat) (x d : γ)
    (h : i < l.length) : (l.set i x).getD i d = x := by
  simp [List.getD_eq_getElem?_getD, List.getElem?_set_self, h]

theorem getD_set_ne {γ : Type} (l : List γ) (i j : Nat) (x d : γ)
    (h : i ≠ j) : (l.set i x).getD j d = l.getD j d := by
  simp [List.getD_eq_getElem?_getD, List.getElem?_set_ne, h]

theorem getD_mem {γ : Type} (l : List γ) (n : Nat) (d : γ)
    (h : n < l.length) : l.getD n d ∈ l := by
  rw [List.getD_eq_getElem?_getD, List.getElem?_eq_getElem h]
  exact List.getElem_mem h

theorem evacuateSlot_mark_range (t : MapType α β) (nb : Nat)
    (st : EvacState α β) (s : Slot α β) (mark : Nat) (st' : EvacState α β)
    (heq : evacuateSlot t nb st s = .ok (mark, st')) :
    0 < mark ∧ mark < minTopHash := by
  unfold evacuateSlot at heq
  split at heq
  · cases heq; exact ⟨by decide, by decide⟩
  · split at heq
    · cases heq
    · split at heq <;>
      · cases heq
        exact ⟨by decide, by decide⟩

theorem evacuateBucket_marked (t : MapType α β) (nb : Nat) :
    ∀ (b : Bucket α β) (st : EvacState α β) (b' : Bucket α β)
      (st' : EvacState α β), evacuateBucket t nb st b = .ok (b', st') →
    b'.length = b.length ∧ ∀ x ∈ b', 0 < x.top ∧ x.top < minTopHash := by
  intro b
  induction b with
  | nil =>
    intro st b' st' heq
    cases heq
    exact ⟨rfl, by simp⟩
  | cons s rest ih =>
    intro st b' st' heq
    unfold evacuateBucket at heq
    split at heq
    · cases heq
    · split at heq
      · cases heq
      · cases heq
        obtain ⟨hlen, hall⟩ := ih _ _ _ (by assumption)
        refine ⟨?_, ?_⟩
        · rw [List.length_cons, List.length_cons, hlen]
        · intro x hx
          rcases List.mem_cons.1 hx with rfl | hx2
          · exact evacuateSlot_mark_range t nb st s _ _ (by assumption)
          · exact hall x hx2

theorem evacuateChain_marked (t : MapType α β) (nb : Nat) :
    ∀ (c : Chain α β) (st : EvacState α β) (marked : Chain α β)
      (st' : EvacState α β), evacuateChain t nb st c = .ok (marked, st') →
    marked.length = c.length ∧
    (∀ i, (marked.getD i []).length = (c.getD i []).length) ∧
    ∀ x ∈ chainSlots marked, 0 < x.top ∧ x.top < minTopHash := by
  intro c
  induction c with
  | nil =>
    intro st marked st' heq
    cases heq
    exact ⟨rfl, fun i => rfl, by simp [chainSlots]⟩
  | cons b rest ih =>
    intro st marked st' heq
    unfold evacuateChain at heq
    split at heq
    · cases heq
    · split at heq
      · cases heq
      · cases heq
        obtain ⟨hblen, hball⟩ := evacuateBucket_marked t nb b st _ _ (by assumption)
        obtain ⟨hlen, hgetD, hall⟩ := ih _ _ _ (by assumption)
        refine ⟨?_, ?_, ?_⟩
        · rw [List.length_cons, List.length_cons, hlen]
        · intro i
          cases i with
          | zero => exact hblen
          | succ n => exact hgetD n
        · intro x hx
          simp only [chainSlots, List.flatten_cons] at hx
          rcases List.mem_append.1 hx with hx1 | hx2
          · exact hball x hx1
          · exact hall x hx2

theorem evacuate_marks (t : MapType α β) (h : Hmap α β) (j : Nat) (h' : Hmap α β)
    (heq : evacuate t h j = .ok h')
    (hshape : ∀ old, h.oldbuckets = some old → ∀ c ∈ old, ChainShape c) :
    h'.oldbuckets = none ∨
    ∃ old old', h.oldbuckets = some old ∧ h'.oldbuckets = some old' ∧
      old'.length = old.length ∧
      (∀ i, evacuatedChain (old.getD i []) = true →
        evacuatedChain (old'.getD i []) = true) ∧
      (j < old.length → evacuatedChain (old'.getD j []) = true) := by
  unfold evacuate at heq
  split at heq
  case h_1 hob =>
    cases heq
    rw [hob]
    exact Or.inl rfl
  case h_2 old hob =>
    dsimp only at heq
    split at heq
    case isTrue hcond =>
      split at heq
      · cases heq
      · cases heq
        rename_i marked st hch
        obtain ⟨hmlen, hmgetD, hmall⟩ :=
          evacuateChain_marked t h.noldbuckets (old.getD j []) _ marked st hch
        have hmfevac : j < old.length →
            evacuatedChain
              (if h.flags &&& oldIterFlag = 0 then
                [(marked.headD []).map
                  (fun s => { s with key := default, val := default })]
              else marked) = true := by
          intro hj
          obtain ⟨hne, hblen⟩ := hshape old hob (old.getD j []) (getD_mem old j [] hj)
          cases hcc : old.getD j [] with
          | nil => exact absurd hcc hne
          | cons hb crest =>
            rw [hcc] at hmlen hmgetD
            cases marked with
            | nil => rw [List.length_cons] at hmlen; cases hmlen
            | cons mb mrest =>
              have hmb : mb.length = hb.length := hmgetD 0
              have hb8 : hb.length = bucketCnt :=
                hblen hb (by rw [hcc]; exact List.mem_cons_self _ _)
              cases mb with
              | nil =>
                rw [List.length_nil, hb8] at hmb
                cases hmb
              | cons m0 mtail =>
                have hm0 : 0 < m0.top ∧ m0.top < minTopHash :=
                  hmall m0 (by
                    rw [show chainSlots ((m0 :: mtail) :: mrest) =
                      (m0 :: mtail) ++ chainSlots mrest from List.flatten_cons]
                    exact List.mem_append_left _ (List.mem_cons_self _ _))
                by_cases hit : h.flags &&& oldIterFlag = 0
                · rw [if_pos hit]
                  exact decide_eq_true hm0
                · rw [if_neg hit]
                  exact decide_eq_true hm0
        obtain ⟨hB, hh0, hbk, hrest⟩ := evacAdvance_fields
          { st.h with
            buckets :=
              if ¬ h.isSameSizeGrow then
                ((st.h.buckets.set j
                    (destChain ((h.buckets.getD j []).drop 1) st.x)).set
                  (j + h.noldbuckets)
                  (destChain ((h.buckets.getD (j + h.noldbuckets) []).drop 1) st.y))
              else st.h.buckets.set j
                (destChain ((h.buckets.getD j []).drop 1) st.x),
            oldbuckets := some (old.set j
              (if h.flags &&& oldIterFlag = 0 then
                [(marked.headD []).map
                  (fun s => { s with key := default, val := default })]
              else marked)) }
          (old.set j
            (if h.flags &&& oldIterFlag = 0 then
              [(marked.headD []).map
                (fun s => { s with key := default, val := default })]
            else marked))
          j h.noldbuckets
        rcases hrest with ⟨ho, _⟩ | ⟨ho, _⟩
        · refine Or.inr ⟨old, _, hob, ho, List.length_set _ _ _, ?_, ?_⟩
          · intro i hi
            by_cases hij : j = i
            · subst hij
              exact absurd hi hcond
            · rw [getD_set_ne old j i _ [] hij]
              exact hi
          · intro hj
            rw [getD_set_self old j _ [] hj]
            exact hmfevac hj
        · exact Or.inl ho
    case isFalse hcond =>
      cases heq
      obtain ⟨hB, hh0, hbk, hrest⟩ := evacAdvance_fields h old j h.noldbuckets
      rcases hrest with ⟨ho, _⟩ | ⟨ho, _⟩
      · refine Or.inr ⟨old, old, hob, by rw [ho, hob], rfl, fun i hi => hi, ?_⟩
        intro hj
        exact not_not.mp hcond
      · exact Or.inl ho

/-! ## The destination cursor of `evacuate` -/

theorem take_set_succ {γ : Type} :
    ∀ (l : List γ) (i : Nat) (x : γ), i < l.length →
      (l.set i x).take (i + 1) = l.take i ++ [x] := by
  intro l
  induction l with
  | nil => intro i x h; cases h
  | cons a rest ih =>
    intro i x h
    cases i with
    | zero => rfl
    | succ n =>
      show (a :: rest.set n x).take (n + 1 + 1) = (a :: rest.take n) ++ [x]
      rw [List.take_succ_cons, List.cons_append]
      rw [ih n x (Nat.lt_of_succ_lt_succ h)]

theorem drop_set_succ {γ : Type} :
    ∀ (l : List γ) (i : Nat) (x : γ), (l.set i x).drop (i + 1) = l.drop (i + 1) := by
  intro l
  induction l with
  | nil => intro i x; rfl
  | cons a rest ih =>
    intro i x
    cases i with
    | zero => rfl
    | succ n =>
      show (a :: rest.set n x).drop (n + 1 + 1) = (a :: rest).drop (n + 1 + 1)
      rw [List.drop_succ_cons, List.drop_succ_cons]
      exact ih n x

theorem tophashOf_ge (hash : Nat) : minTopHash ≤ tophashOf hash := by
  unfold tophashOf
  dsimp only
  by_cases hlt : hash >>> (wordBits - 8) < minTopHash
  · rw [if_pos hlt]
    exact Nat.le_add_left _ _
  · rw [if_neg hlt]
    exact Nat.le_of_not_lt hlt

theorem pushSlot_spec (t : MapType α β) (s : Slot α β) (d : EvacDest α β)
    (h : Hmap α β) (hd : DestOk d) :
    DestOk (pushSlot t s d h).1 ∧
    destSlots (pushSlot t s d h).1 = destSlots d ++ [s] := by
  obtain ⟨hxi, hcur, hdone, hdrop⟩ := hd
  unfold pushSlot
  by_cases hfull : d.xi = bucketCnt
  · rw [if_pos hfull]
    dsimp only
    constructor
    · refine ⟨?_, rfl, ?_, ?_⟩
      · show (1 : Nat) ≤ bucketCnt
        decide
      · intro b hb
        rcases List.mem_append.1 hb with hb1 | hb2
        · exact hdone b hb1
        · rw [List.mem_singleton.1 hb2]
          exact hcur
      · show (s :: List.replicate (bucketCnt - 1) emptySlot).drop 1 =
          List.replicate (bucketCnt - 1) emptySlot
        rfl
    · unfold destSlots
      dsimp only
      show (d.done ++ [d.cur]).flatten ++
          (s :: List.replicate (bucketCnt - 1) emptySlot).take 1 =
        (d.done.flatten ++ d.cur.take d.xi) ++ [s]
      have h0 : (s :: List.replicate (bucketCnt - 1) (emptySlot : Slot α β)).take 1
          = [s] := rfl
      have h1 : ([d.cur] : List (Bucket α β)).flatten = d.cur := by simp
      have h2 : d.cur.take d.xi = d.cur := by
        rw [hfull, ← hcur]
        exact List.take_length d.cur
      rw [h0, List.flatten_append, h1, h2, List.append_assoc]
  · rw [if_neg hfull]
    dsimp only
    have hlt : d.xi < d.cur.length := by rw [hcur]; omega
    constructor
    · refine ⟨?_, ?_, hdone, ?_⟩
      · show d.xi + 1 ≤ bucketCnt
        omega
      · show (d.cur.set d.xi s).length = bucketCnt
        rw [List.length_set, hcur]
      · show (d.cur.set d.xi s).drop (d.xi + 1) =
          List.replicate (bucketCnt - (d.xi + 1)) emptySlot
        rw [drop_set_succ]
        have h1 : d.cur.drop (d.xi + 1) = (d.cur.drop d.xi).drop 1 := by
          rw [List.drop_drop]
        have h2 : bucketCnt - d.xi - 1 = bucketCnt - (d.xi + 1) := by omega
        rw [h1, hdrop, List.drop_replicate, h2]
    · unfold destSlots
      dsimp only
      rw [take_set_succ d.cur d.xi s hlt, ← List.append_assoc]

theorem evacDecision_congr (t : MapType α β) (h1 h2 : Hmap α β) (nb : Nat)
    (s : Slot α β) (hf : h1.flags = h2.flags) (hh : h1.hash0 = h2.hash0) :
    evacDecision t h1 nb s = evacDecision t h2 nb s := by
  unfold evacDecision Hmap.isSameSizeGrow
  rw [hf, hh]

theorem pushedX_append (t : MapType α β) (h : Hmap α β) (nb : Nat)
    (l1 l2 : List (Slot α β)) :
    pushedX t h nb (l1 ++ l2) = pushedX t h nb l1 ++ pushedX t h nb l2 := by
  simp [pushedX, List.filter_append, List.map_append]

theorem pushedY_append (t : MapType α β) (h : Hmap α β) (nb : Nat)
    (l1 l2 : List (Slot α β)) :
    pushedY t h nb (l1 ++ l2) = pushedY t h nb l1 ++ pushedY t h nb l2 := by
  simp [pushedY, List.filter_append, List.map_append]

theorem evacuateSlot_dest_spec (t : MapType α β) (nb : Nat) (h0 : Hmap α β)
    (st : EvacState α β) (s : Slot α β) (mark : Nat) (st' : EvacState α β)
    (heq : evacuateSlot t nb st s = .ok (mark, st'))
    (hfl : st.h.flags = h0.flags) (hh0 : st.h.hash0 = h0.hash0)
    (hx : DestOk st.x) (hy : DestOk st.y) :
    DestOk st'.x ∧ DestOk st'.y ∧
    destSlots st'.x = destSlots st.x ++ pushedX t h0 nb [s] ∧
    destSlots st'.y = destSlots st.y ++ pushedY t h0 nb [s] := by
  have hd0 : evacDecision t st.h nb s = evacDecision t h0 nb s :=
    evacDecision_congr t st.h h0 nb s hfl hh0
  unfold evacuateSlot at heq
  split at heq
  case isTrue hemp =>
    cases heq
    have hdead : decide (minTopHash ≤ s.top) = false := by
      rw [hemp]
      decide
    refine ⟨hx, hy, ?_, ?_⟩ <;>
      simp [pushedX, pushedY, List.filter_cons, hdead]
  case isFalse hemp =>
    split at heq
    · cases heq
    case isFalse hlt =>
      have hlive : decide (minTopHash ≤ s.top) = true :=
        decide_eq_true (Nat.le_of_not_lt hlt)
      split at heq
      case isTrue hdec =>
        cases heq
        obtain ⟨hok, hds⟩ := pushSlot_spec t
          { s with top := (evacDecision t st.h nb s).2 } st.x st.h hx
        have hdec0 : (evacDecision t h0 nb s).1 = true := by rw [← hd0]; exact hdec
        refine ⟨hok, hy, ?_, ?_⟩
        · rw [hds]
          simp [pushedX, List.filter_cons, hlive, hdec0, retag, hd0]
        · simp [pushedY, List.filter_cons, hlive, hdec0]
      case isFalse hdec =>
        cases heq
        obtain ⟨hok, hds⟩ := pushSlot_spec t
          { s with top := (evacDecision t st.h nb s).2 } st.y st.h hy
        have hdec0 : (evacDecision t h0 nb s).1 = false := by
          rw [← hd0]
          exact Bool.not_eq_true _ |>.mp hdec
        refine ⟨hx, hok, ?_, ?_⟩
        · simp [pushedX, List.filter_cons, hlive, hdec0]
        · rw [hds]
          simp [pushedY, List.filter_cons, hlive, hdec0, retag, hd0]

theorem evacuateBucket_dest_spec (t : MapType α β) (nb : Nat) (h0 : Hmap α β) :
    ∀ (b : Bucket α β) (st : EvacState α β) (b' : Bucket α β)
      (st' : EvacState α β), evacuateBucket t nb st b = .ok (b', st') →
    st.h.flags = h0.flags → st.h.hash0 = h0.hash0 →
    DestOk st.x → DestOk st.y →
    DestOk st'.x ∧ DestOk st'.y ∧
    destSlots st'.x = destSlots st.x ++ pushedX t h0 nb b ∧
    destSlots st'.y = destSlots st.y ++ pushedY t h0 nb b := by
  intro b
  induction b with
  | nil =>
    intro st b' st' heq hfl hh0 hx hy
    cases heq
    refine ⟨hx, hy, ?_, ?_⟩ <;> simp [pushedX, pushedY]
  | cons s rest ih =>
    intro st b' st' heq hfl hh0 hx hy
    unfold evacuateBucket at heq
    split at heq
    · cases heq
    · split at heq
      · cases heq
      · cases heq
        rename_i x1 mark st1 hslot x2 rest2 hrest
        obtain ⟨hx1, hy1, hdsx1, hdsy1⟩ :=
          evacuateSlot_dest_spec t nb h0 st s mark st1 hslot hfl hh0 hx hy
        have hsc := evacuateSlot_SameCore t nb st s mark st1 hslot
        obtain ⟨hx2, hy2, hdsx2, hdsy2⟩ := ih st1 rest2 st' hrest
          (hsc.2.1.trans hfl) (hsc.2.2.2.1.trans hh0) hx1 hy1
        refine ⟨hx2, hy2, ?_, ?_⟩
        · rw [hdsx2, hdsx1, List.append_assoc,
            show pushedX t h0 nb [s] ++ pushedX t h0 nb rest =
              pushedX t h0 nb (s :: rest) from
                (pushedX_append t h0 nb [s] rest).symm]
        · rw [hdsy2, hdsy1, List.append_assoc,
            show pushedY t h0 nb [s] ++ pushedY t h0 nb rest =
              pushedY t h0 nb (s :: rest) from
                (pushedY_append t h0 nb [s] rest).symm]

theorem evacuateChain_dest_spec (t : MapType α β) (nb : Nat) (h0 : Hmap α β) :
    ∀ (c : Chain α β) (st : EvacState α β) (marked : Chain α β)
      (st' : EvacState α β), evacuateChain t nb st c = .ok (marked, st') →
    st.h.flags = h0.flags → st.h.hash0 = h0.hash0 →
    DestOk st.x → DestOk st.y →
    DestOk st'.x ∧ DestOk st'.y ∧
    destSlots st'.x = destSlots st.x ++ pushedX t h0 nb (chainSlots c) ∧
    destSlots st'.y = destSlots st.y ++ pushedY t h0 nb (chainSlots c) := by
  intro c
  induction c with
  | nil =>
    intro st marked st' heq hfl hh0 hx hy
    cases heq
    refine ⟨hx, hy, ?_, ?_⟩ <;> simp [pushedX, pushedY, chainSlots]
  | cons b rest ih =>
    intro st marked st' heq hfl hh0 hx hy
    unfold evacuateChain at heq
    split at heq
    · cases heq
    · split at heq
      · cases heq
      · cases heq
        rename_i x1 b2 st1 hbkt x2 rest2 hrest
        obtain ⟨hx1, hy1, hdsx1, hdsy1⟩ :=
          evacuateBucket_dest_spec t nb h0 b st b2 st1 hbkt hfl hh0 hx hy
        have hsc := evacuateBucket_SameCore t nb b st b2 st1 hbkt
        obtain ⟨hx2, hy2, hdsx2, hdsy2⟩ := ih st1 rest2 st' hrest
          (hsc.2.1.trans hfl) (hsc.2.2.2.1.trans hh0) hx1 hy1
        have hcs : chainSlots (b :: rest) = b ++ chainSlots rest :=
          List.flatten_cons
        refine ⟨hx2, hy2, ?_, ?_⟩
        · rw [hdsx2, hdsx1, List.append_assoc, hcs, pushedX_append]
        · rw [hdsy2, hdsy1, List.append_assoc, hcs, pushedY_append]

theorem destChain_chainSlots (d : EvacDest α β) (hd : DestOk d) :
    chainSlots (destChain ([] : List (Bucket α β)) d) =
      destSlots d ++ List.replicate (bucketCnt - d.xi) emptySlot := by
  obtain ⟨hxi, hcur, hdone, hdrop⟩ := hd
  unfold destChain destSlots
  cases hdd : d.done with
  | nil =>
    show chainSlots [d.cur] = ([] : List (Bucket α β)).flatten ++ d.cur.take d.xi ++ _
    rw [show chainSlots [d.cur] = d.cur ++ [] from by simp [chainSlots]]
    rw [List.append_nil, ← hdrop]
    show d.cur = ([] : List (Bucket α β)).flatten ++ _ ++ _
    rw [show ([] : List (Bucket α β)).flatten = [] from rfl, List.nil_append]
    rw [List.take_append_drop]
  | cons b bs =>
    show chainSlots ((b :: bs) ++ [d.cur]) = (b :: bs).flatten ++ d.cur.take d.xi ++ _
    unfold chainSlots
    rw [List.flatten_append, List.append_assoc]
    congr 1
    rw [show ([d.cur] : List (Bucket α β)).flatten = d.cur ++ [] from rfl]
    rw [List.append_nil, ← hdrop, List.take_append_drop]

theorem destChain_shape (d : EvacDest α β) (hd : DestOk d) :
    ChainShape (destChain ([] : List (Bucket α β)) d) := by
  obtain ⟨hxi, hcur, hdone, hdrop⟩ := hd
  unfold destChain ChainShape
  cases hdd : d.done with
  | nil =>
    refine ⟨by simp, ?_⟩
    intro b hb
    rw [List.mem_singleton.1 hb]
    exact hcur
  | cons x xs =>
    refine ⟨by simp, ?_⟩
    intro b hb
    rcases List.mem_append.1 hb with hb1 | hb2
    · refine hdone b ?_
      rw [hdd]
      exact hb1
    · rw [List.mem_singleton.1 hb2]
      exact hcur

theorem destChain_clean (d : EvacDest α β) (hd : DestOk d)
    (hlive : ∀ x ∈ destSlots d, minTopHash ≤ x.top) :
    cleanChain (destChain ([] : List (Bucket α β)) d) := by
  intro s hs
  rw [destChain_chainSlots d hd] at hs
  rcases List.mem_append.1 hs with hs1 | hs2
  · exact Or.inr (hlive s hs1)
  · rw [List.eq_of_mem_replicate hs2]
    exact Or.inl rfl

theorem destChain_liveSlots (d : EvacDest α β) (hd : DestOk d)
    (hlive : ∀ x ∈ destSlots d, minTopHash ≤ x.top) :
    liveSlots (destChain ([] : List (Bucket α β)) d) = destSlots d := by
  unfold liveSlots
  rw [destChain_chainSlots d hd, List.filter_append]
  have h1 : (destSlots d).filter (fun s => decide (minTopHash ≤ s.top)) =
      destSlots d := by
    rw [List.filter_eq_self]
    intro x hx
    exact decide_eq_true (hlive x hx)
  have h2 : (List.replicate (bucketCnt - d.xi) (emptySlot : Slot α β)).filter
      (fun s => decide (minTopHash ≤ s.top)) = [] := by
    rw [List.filter_eq_nil_iff]
    intro x hx
    rw [List.eq_of_mem_replicate hx]
    have he : (emptySlot : Slot α β).top = 0 := rfl
    rw [he]
    decide
  rw [h1, h2, List.append_nil]

theorem evacDecision_top_ge (t : MapType α β) (h : Hmap α β) (nb : Nat)
    (s : Slot α β) (hlive : minTopHash ≤ s.top) :
    minTopHash ≤ (evacDecision t h nb s).2 := by
  unfold evacDecision
  dsimp only
  split
  · split
    · exact tophashOf_ge _
    · exact hlive
  · exact hlive

theorem evacDecision_top_refl (t : MapType α β) (h : Hmap α β) (nb : Nat)
    (s : Slot α β) (hrefl : t.equal s.key s.key = true) :
    (evacDecision t h nb s).2 = s.top := by
  unfold evacDecision
  dsimp only
  split
  · rw [if_neg (fun hc => by
      obtain ⟨_, _, hc3⟩ := hc
      rw [hrefl] at hc3
      cases hc3)]
  · rfl

theorem pushedX_live (t : MapType α β) (h : Hmap α β) (nb : Nat)
    (l : List (Slot α β)) : ∀ x ∈ pushedX t h nb l, minTopHash ≤ x.top := by
  intro x hx
  unfold pushedX at hx
  obtain ⟨s, hs, rfl⟩ := List.mem_map.1 hx
  have hsl := (List.mem_filter.1 (List.mem_filter.1 hs).1).2
  exact evacDecision_top_ge t h nb s (of_decide_eq_true hsl)

theorem pushedY_live (t : MapType α β) (h : Hmap α β) (nb : Nat)
    (l : List (Slot α β)) : ∀ x ∈ pushedY t h nb l, minTopHash ≤ x.top := by
  intro x hx
  unfold pushedY at hx
  obtain ⟨s, hs, rfl⟩ := List.mem_map.1 hx
  have hsl := (List.mem_filter.1 (List.mem_filter.1 hs).1).2
  exact evacDecision_top_ge t h nb s (of_decide_eq_true hsl)

theorem retag_rel (t : MapType α β) (hctx : EqCtx t) (h : Hmap α β) (nb : Nat)
    (a b : Slot α β)
    (hrel : ¬ (a.top = b.top ∧ t.equal a.key b.key = true)) :
    ¬ ((retag t h nb a).top = (retag t h nb b).top ∧
       t.equal (retag t h nb a).key (retag t h nb b).key = true) := by
  intro hcon
  obtain ⟨htop, hkey⟩ := hcon
  have hkey' : t.equal a.key b.key = true := hkey
  have hbb : t.equal b.key b.key = true :=
    hctx.trans _ _ _ (hctx.symm _ _ hkey') hkey'
  have haa : t.equal a.key a.key = true :=
    hctx.trans _ _ _ hkey' (hctx.symm _ _ hkey')
  have ha : (retag t h nb a).top = a.top := evacDecision_top_refl t h nb a haa
  have hb : (retag t h nb b).top = b.top := evacDecision_top_refl t h nb b hbb
  rw [ha, hb] at htop
  exact hrel ⟨htop, hkey'⟩

theorem pushedX_nodup (t : MapType α β) (hctx : EqCtx t) (h : Hmap α β)
    (nb : Nat) (c : Chain α β) (hnd : chainNoDup t c) :
    (pushedX t h nb (chainSlots c)).Pairwise
      (fun a b => ¬ (a.top = b.top ∧ t.equal a.key b.key = true)) := by
  unfold pushedX
  rw [List.pairwise_map]
  refine List.Pairwise.imp ?_ (List.Pairwise.filter _ hnd)
  intro a b hab
  exact retag_rel t hctx h nb a b hab

theorem pushedY_nodup (t : MapType α β) (hctx : EqCtx t) (h : Hmap α β)
    (nb : Nat) (c : Chain α β) (hnd : chainNoDup t c) :
    (pushedY t h nb (chainSlots c)).Pairwise
      (fun a b => ¬ (a.top = b.top ∧ t.equal a.key b.key = true)) := by
  unfold pushedY
  rw [List.pairwise_map]
  refine List.Pairwise.imp ?_ (List.Pairwise.filter _ hnd)
  intro a b hab
  exact retag_rel t hctx h nb a b hab

theorem pushed_length (t : MapType α β) (h : Hmap α β) (nb : Nat)
    (l : List (Slot α β)) :
    (pushedX t h nb l).length + (pushedY t h nb l).length =
      (l.filter (fun s => decide (minTopHash ≤ s.top))).length := by
  unfold pushedX pushedY
  rw [List.length_map, List.length_map]
  exact (List.length_eq_length_filter_add _).symm

theorem advanceLoop_le_stop (old : List (Chain α β)) (stop : Nat) :
    ∀ fuel nev, nev ≤ stop → advanceLoop old stop fuel nev ≤ stop := by
  intro fuel
  induction fuel with
  | zero => intro nev h; exact h
  | succ fuel ih =>
    intro nev h
    unfold advanceLoop
    split
    · exact h
    · split
      · refine ih (nev + 1) ?_
        rename_i hne _
        omega
      · exact h

theorem advanceLoop_traversed (old : List (Chain α β)) (stop : Nat) :
    ∀ fuel nev i, nev ≤ i → i < advanceLoop old stop fuel nev →
      evacuatedChain (old.getD i []) = true := by
  intro fuel
  induction fuel with
  | zero =>
    intro nev i h1 h2
    exact absurd (Nat.lt_of_le_of_lt h1 h2) (Nat.lt_irrefl _)
  | succ fuel ih =>
    intro nev i h1 h2
    unfold advanceLoop at h2
    split at h2
    · exact absurd (Nat.lt_of_le_of_lt h1 h2) (Nat.lt_irrefl _)
    · split at h2
      · rename_i hne hev
        by_cases hi : i = nev
        · rw [hi]
          exact hev
        · exact ih (nev + 1) i (by omega) h2
      · exact absurd (Nat.lt_of_le_of_lt h1 h2) (Nat.lt_irrefl _)

theorem evacAdvance_cursor_spec (h : Hmap α β) (old : List (Chain α β))
    (j nb : Nat) (hj : j < nb) (hnev : h.nevacuate < nb)
    (hall : ∀ i, i < h.nevacuate → evacuatedChain (old.getD i []) = true)
    (hjev : evacuatedChain (old.getD j []) = true) :
    ((evacAdvance h old j nb).oldbuckets = none ∧
     ∀ i, i < nb → evacuatedChain (old.getD i []) = true) ∨
    ((evacAdvance h old j nb).oldbuckets = h.oldbuckets ∧
     (evacAdvance h old j nb).flags = h.flags ∧
     (evacAdvance h old j nb).nevacuate < nb ∧
     (∀ i, i < (evacAdvance h old j nb).nevacuate →
       evacuatedChain (old.getD i []) = true)) := by
  unfold evacAdvance
  by_cases htr : j = h.nevacuate
  · rw [if_pos htr]
    dsimp only
    have hle : advanceLoop old ((j + 1 + 1024) ⊓ nb) (1025 + old.length) (j + 1) ≤
        (j + 1 + 1024) ⊓ nb := advanceLoop_le_stop old _ _ _ (by omega)
    have htrav := advanceLoop_traversed old ((j + 1 + 1024) ⊓ nb)
      (1025 + old.length) (j + 1)
    by_cases hres : advanceLoop old ((j + 1 + 1024) ⊓ nb) (1025 + old.length)
        (j + 1) = nb
    · rw [if_pos hres]
      refine Or.inl ⟨rfl, ?_⟩
      intro i hi
      by_cases hij : i < j
      · exact hall i (by omega)
      · by_cases hij2 : i = j
        · rw [hij2]
          exact hjev
        · refine htrav i (by omega) ?_
          omega
    · rw [if_neg hres]
      refine Or.inr ⟨rfl, rfl, ?_, ?_⟩
      · show advanceLoop old _ _ _ < nb
        have : advanceLoop old ((j + 1 + 1024) ⊓ nb) (1025 + old.length) (j + 1) ≤ nb := by
          omega
        omega
      · intro i hi
        show evacuatedChain (old.getD i []) = true
        by_cases hij : i < j
        · exact hall i (by omega)
        · by_cases hij2 : i = j
          · rw [hij2]
            exact hjev
          · exact htrav i (by omega) hi
  · rw [if_neg htr]
    exact Or.inr ⟨rfl, rfl, hnev, hall⟩

theorem evacuateChain_marked_mem (t : MapType α β) (nb : Nat) :
    ∀ (c : Chain α β) (st : EvacState α β) (marked : Chain α β)
      (st' : EvacState α β), evacuateChain t nb st c = .ok (marked, st') →
    ∀ b' ∈ marked, ∃ b ∈ c, b'.length = b.length := by
  intro c
  induction c with
  | nil =>
    intro st marked st' heq
    cases heq
    intro b' hb'
    cases hb'
  | cons b rest ih =>
    intro st marked st' heq
    unfold evacuateChain at heq
    split at heq
    · cases heq
    · split at heq
      · cases heq
      · cases heq
        rename_i x1 b2 st1 hbkt x2 rest2 hrest
        intro b' hb'
        rcases List.mem_cons.1 hb' with rfl | hb2
        · exact ⟨b, List.mem_cons_self _ _,
            (evacuateBucket_marked t nb b st b' st1 hbkt).1⟩
        · obtain ⟨b0, hb0, hlen⟩ := ih _ _ _ hrest b' hb2
          exact ⟨b0, List.mem_cons_of_mem _ hb0, hlen⟩

theorem genLive_cons (c : Chain α β) (g : List (Chain α β)) :
    genLive (c :: g) = (liveSlots c).length + genLive g := by
  simp [genLive]

theorem genLive_set (g : List (Chain α β)) :
    ∀ (i : Nat) (c : Chain α β), i < g.length →
    genLive (g.set i c) + (liveSlots (g.getD i [])).length =
      genLive g + (liveSlots c).length := by
  induction g with
  | nil => intro i c hi; cases hi
  | cons x xs ih =>
    intro i c hi
    cases i with
    | zero =>
      show genLive (c :: xs) + (liveSlots x).length = _
      rw [genLive_cons, genLive_cons]
      omega
    | succ n =>
      show genLive (x :: xs.set n c) + (liveSlots (xs.getD n [])).length = _
      rw [genLive_cons, genLive_cons]
      have := ih n c (Nat.lt_of_succ_lt_succ hi)
      omega

theorem noldbuckets_congr (h1 h2 : Hmap α β) (hB : h1.B = h2.B)
    (hf : h1.flags = h2.flags) : h1.noldbuckets = h2.noldbuckets := by
  unfold Hmap.noldbuckets Hmap.isSameSizeGrow
  rw [hB, hf]

theorem markedChain_lives_nil (c : Chain α β) (hm : markedChain c) :
    liveSlots c = [] := by
  unfold liveSlots
  rw [List.filter_eq_nil_iff]
  intro x hx
  have := hm x hx
  simp only [decide_eq_true_eq]
  unfold evacuatedEmpty evacuatedY at this
  show ¬ minTopHash ≤ x.top
  unfold minTopHash
  omega

theorem marked_of_evacuated (t : MapType α β) (c : Chain α β)
    (hstate : markedChain c ∨ (cleanChain c ∧ chainNoDup t c))
    (hev : evacuatedChain c = true) : markedChain c := by
  rcases hstate with hm | ⟨hcl, _⟩
  · exact hm
  · exfalso
    unfold evacuatedChain evacuatedB at hev
    have htop := of_decide_eq_true hev
    cases hc : c with
    | nil =>
      rw [hc] at htop
      have : ((([] : Chain α β).headD []).headD emptySlot).top = 0 := rfl
      rw [this] at htop
      omega
    | cons b bs =>
      rw [hc] at htop
      cases hb : b with
      | nil =>
        rw [hb] at htop
        have : ((([] : Bucket α β)).headD emptySlot).top = 0 := rfl
        simp only [List.headD_cons] at htop
        rw [this] at htop
        omega
      | cons s ss =>
        rw [hb] at htop
        simp only [List.headD_cons] at htop
        have hmem : s ∈ chainSlots c := by
          rw [hc, hb]
          simp only [chainSlots, List.flatten_cons]
          exact List.mem_append_left _ (List.mem_cons_self _ _)
        rcases hcl s hmem with he | hl
        · rw [he] at htop
          have : (0 : Nat) < emptyCell → False := by decide
          exact this htop.1
        · have h4 : (4 : Nat) ≤ s.top := hl
          have hlt : s.top < 4 := htop.2
          omega

theorem genLive_zero_of_all_evac (t : MapType α β) (old : List (Chain α β))
    (hstate : ∀ c ∈ old, markedChain c ∨ (cleanChain c ∧ chainNoDup t c))
    (hev : ∀ i, i < old.length → evacuatedChain (old.getD i []) = true) :
    genLive old = 0 := by
  unfold genLive
  refine List.sum_eq_zero ?_
  intro x hx
  obtain ⟨c, hc, rfl⟩ := List.mem_map.1 hx
  obtain ⟨i, hi, hgi⟩ := List.mem_iff_getElem.mp hc
  have hgd : old.getD i [] = c := by
    rw [List.getD_eq_getElem?_getD, List.getElem?_eq_getElem hi, hgi]
    rfl
  have hevc : evacuatedChain c = true := by
    rw [← hgd]
    exact hev i hi
  rw [markedChain_lives_nil c (marked_of_evacuated t c (hstate c hc) hevc)]
  rfl

theorem liveSlots_newBucket : liveSlots ([newBucket] : Chain α β) = [] := by
  rw [show liveSlots ([newBucket] : Chain α β) =
    (chainSlots [newBucket]).filter (fun s => decide (minTopHash ≤ s.top)) from rfl]
  rw [List.filter_eq_nil_iff]
  intro x hx
  simp only [chainSlots, List.flatten_cons, List.flatten_nil, List.append_nil,
    newBucket] at hx
  rw [List.eq_of_mem_replicate hx]
  have he : (emptySlot : Slot α β).top = 0 := rfl
  simp only [decide_eq_true_eq, he]
  decide

theorem evacDecision_sameSize (t : MapType α β) (h : Hmap α β) (nb : Nat)
    (s : Slot α β) (hss : h.isSameSizeGrow = true) :
    evacDecision t h nb s = (true, s.top) := by
  unfold evacDecision
  rw [if_neg (by rw [hss]; exact not_not_intro rfl)]

theorem pushedY_sameSize_nil (t : MapType α β) (h : Hmap α β) (nb : Nat)
    (l : List (Slot α β)) (hss : h.isSameSizeGrow = true) :
    pushedY t h nb l = [] := by
  unfold pushedY
  rw [show (l.filter (fun s => decide (minTopHash ≤ s.top))).filter
      (fun s => ! (evacDecision t h nb s).1) = [] from ?_]
  · rfl
  rw [List.filter_eq_nil_iff]
  intro x hx
  rw [evacDecision_sameSize t h nb x hss]
  show ¬ (! (true : Bool)) = true
  decide

theorem pushedX_sameSize_length (t : MapType α β) (h : Hmap α β) (nb : Nat)
    (l : List (Slot α β)) (hss : h.isSameSizeGrow = true) :
    (pushedX t h nb l).length =
      (l.filter (fun s => decide (minTopHash ≤ s.top))).length := by
  have := pushed_length t h nb l
  rw [pushedY_sameSize_nil t h nb l hss] at this
  simp at this
  exact this

theorem marked_evacuated (t : MapType α β) (nb : Nat) (c : Chain α β)
    (st : EvacState α β) (marked : Chain α β) (st' : EvacState α β)
    (hch : evacuateChain t nb st c = .ok (marked, st')) (hs : ChainShape c) :
    evacuatedChain marked = true ∧
    evacuatedChain [(marked.headD []).map
      (fun s => { s with key := (default : α), val := (default : β) })] = true := by
  obtain ⟨hmlen, hmgetD, hmall⟩ := evacuateChain_marked t nb c st marked st' hch
  obtain ⟨hne, hblen⟩ := hs
  cases hcc : c with
  | nil => exact absurd hcc hne
  | cons hb crest =>
    rw [hcc] at hmlen hmgetD
    cases marked with
    | nil => rw [List.length_cons] at hmlen; cases hmlen
    | cons mb mrest =>
      have hmb : mb.length = hb.length := hmgetD 0
      have hb8 : hb.length = bucketCnt :=
        hblen hb (by rw [hcc]; exact List.mem_cons_self _ _)
      cases mb with
      | nil =>
        rw [List.length_nil, hb8] at hmb
        cases hmb
      | cons m0 mtail =>
        have hm0 : 0 < m0.top ∧ m0.top < minTopHash :=
          hmall m0 (by
            rw [show chainSlots ((m0 :: mtail) :: mrest) =
              (m0 :: mtail) ++ chainSlots mrest from List.flatten_cons]
            exact List.mem_append_left _ (List.mem_cons_self _ _))
        constructor
        · exact decide_eq_true hm0
        · exact decide_eq_true hm0

theorem markedFinal_markedChain (t : MapType α β) (nb : Nat) (c : Chain α β)
    (st : EvacState α β) (marked : Chain α β) (st' : EvacState α β)
    (hch : evacuateChain t nb st c = .ok (marked, st')) :
    markedChain marked ∧
    markedChain [(marked.headD []).map
      (fun s => { s with key := (default : α), val := (default : β) })] := by
  obtain ⟨hmlen, hmgetD, hmall⟩ := evacuateChain_marked t nb c st marked st' hch
  constructor
  · intro s hsm
    have := hmall s hsm
    unfold evacuatedEmpty evacuatedY
    unfold minTopHash at this
    omega
  · intro s hsm
    simp only [chainSlots, List.flatten_cons, List.flatten_nil,
      List.append_nil] at hsm
    obtain ⟨s0, hs0, rfl⟩ := List.mem_map.1 hsm
    have hs0m : s0 ∈ chainSlots marked := by
      cases marked with
      | nil => cases hs0
      | cons mb mrest =>
        simp only [List.headD_cons] at hs0
        simp only [chainSlots, List.flatten_cons]
        exact List.mem_append_left _ hs0
    have := hmall s0 hs0m
    unfold evacuatedEmpty evacuatedY
    unfold minTopHash at this
    show 1 ≤ s0.top ∧ s0.top ≤ 3
    omega

theorem markedFinal_shape (t : MapType α β) (nb : Nat) (c : Chain α β)
    (st : EvacState α β) (marked : Chain α β) (st' : EvacState α β)
    (hch : evacuateChain t nb st c = .ok (marked, st')) (hs : ChainShape c) :
    ChainShape marked ∧
    ChainShape [(marked.headD []).map
      (fun s => { s with key := (default : α), val := (default : β) })] := by
  obtain ⟨hmlen, hmgetD, hmall⟩ := evacuateChain_marked t nb c st marked st' hch
  obtain ⟨hne, hblen⟩ := hs
  have hmne : marked ≠ [] := by
    intro hmn
    rw [hmn] at hmlen
    exact hne (List.length_eq_zero.mp hmlen.symm)
  refine ⟨⟨hmne, ?_⟩, ⟨by simp, ?_⟩⟩
  · intro b hb
    obtain ⟨b0, hb0, hlen⟩ := evacuateChain_marked_mem t nb c st marked st' hch b hb
    rw [hlen]
    exact hblen b0 hb0
  · intro b hb
    rw [List.mem_singleton.1 hb, List.length_map]
    cases hcc : c with
    | nil => exact absurd hcc hne
    | cons hb0 crest =>
      rw [hcc] at hmlen hmgetD
      cases marked with
      | nil => rw [List.length_cons] at hmlen; cases hmlen
      | cons mb mrest =>
        show mb.length = bucketCnt
        have h0 : mb.length = hb0.length := hmgetD 0
        rw [h0]
        exact hblen hb0 (by rw [hcc]; exact List.mem_cons_self _ _)

theorem markedChain_evacuated (c : Chain α β) (hs : ChainShape c)
    (hm : markedChain c) : evacuatedChain c = true := by
  obtain ⟨hne, hblen⟩ := hs
  cases hcc : c with
  | nil => exact absurd hcc hne
  | cons b bs =>
    have hb8 : b.length = bucketCnt :=
      hblen b (by rw [hcc]; exact List.mem_cons_self _ _)
    cases hb : b with
    | nil =>
      rw [hb] at hb8
      have h08 : (0 : Nat) = bucketCnt := hb8
      exact absurd h08 (by decide)
    | cons s ss =>
      have hmem : s ∈ chainSlots c := by
        rw [hcc, hb]
        simp only [chainSlots, List.flatten_cons]
        exact List.mem_append_left _ (List.mem_cons_self _ _)
      have hrange := hm s hmem
      unfold evacuatedChain evacuatedB
      show decide (emptyCell < s.top ∧ s.top < minTopHash) = true
      refine decide_eq_true ?_
      unfold evacuatedEmpty evacuatedY at hrange
      unfold emptyCell minTopHash
      omega

theorem evacuate_assemble (t : MapType α β) (h hm : Hmap α β)
    (j : Nat) (old : List (Chain α β)) (mf : Chain α β) (bks : List (Chain α β))
    (hsc : SameCore h hm)
    (hwf : WF t h) (hob : h.oldbuckets = some old) (hj : j < h.noldbuckets)
    (hcond : evacuatedChain (old.getD j []) = false)
    (hmf_ev : evacuatedChain mf = true)
    (hmf_marked : markedChain mf)
    (hmf_shape : ChainShape mf)
    (hbks_len : bks.length = h.buckets.length)
    (hbks_mem : ∀ c ∈ bks, ChainShape c ∧ cleanChain c ∧ chainNoDup t c)
    (hbks_genLive : genLive bks =
      genLive h.buckets + (liveSlots (old.getD j [])).length)
    (hbks_pristine : ∀ i, i < old.length → i ≠ j →
      evacuatedChain (old.getD i []) = false →
      bks.getD i [] = h.buckets.getD i [] ∧
      bks.getD (i + h.noldbuckets) [] = h.buckets.getD (i + h.noldbuckets) []) :
    WF t (evacAdvance
      { hm with buckets := bks, oldbuckets := some (old.set j mf) }
      (old.set j mf) j h.noldbuckets) := by
  have hgrow : h.growing = true := by rw [Hmap.growing, hob]; rfl
  have hlen_old : old.length = h.noldbuckets := hwf.old_len old hob
  have hjlen : j < old.length := by rw [hlen_old]; exact hj
  have hnev : h.nevacuate < h.noldbuckets := hwf.old_nev hgrow
  have hbne : h.buckets ≠ [] := by
    intro hb
    have hx := (hwf.bnil hb).2.2
    rw [hob] at hx
    cases hx
  have hblen : h.buckets.length = 2 ^ h.B := hwf.blen hbne
  obtain ⟨haB, hah0, habk, harest⟩ := evacAdvance_fields
    { hm with buckets := bks, oldbuckets := some (old.set j mf) }
    (old.set j mf) j h.noldbuckets
  have hB2 : (evacAdvance
      { hm with buckets := bks, oldbuckets := some (old.set j mf) }
      (old.set j mf) j h.noldbuckets).B = h.B := haB.trans hsc.2.2.1
  have habk' : (evacAdvance
      { hm with buckets := bks, oldbuckets := some (old.set j mf) }
      (old.set j mf) j h.noldbuckets).buckets = bks := habk
  have hcnt : (evacAdvance
      { hm with buckets := bks, oldbuckets := some (old.set j mf) }
      (old.set j mf) j h.noldbuckets).count = h.count :=
    (evacAdvance_count _ _ _ _).trans hsc.1
  have hflagsw : (evacAdvance
      { hm with buckets := bks, oldbuckets := some (old.set j mf) }
      (old.set j mf) j h.noldbuckets).flags &&& hashWriting = 0 := by
    rcases harest with ⟨_, hf⟩ | ⟨_, hf⟩
    · rw [hf]
      show hm.flags &&& hashWriting = 0
      rw [hsc.2.1]
      exact hwf.flags_w
    · rw [hf, andNot_land_keep _ _ _ (by decide)]
      show hm.flags &&& hashWriting = 0
      rw [hsc.2.1]
      exact hwf.flags_w
  have hmfl0 : (liveSlots mf).length = 0 := by
    rw [markedChain_lives_nil mf hmf_marked]
    rfl
  have hgset := genLive_set old j mf hjlen
  have hce := hwf.count_eq
  rw [hob, show (Option.getD (some old) ([] : List (Chain α β))) = old from rfl] at hce
  have hblen2 : bks.length = 2 ^ h.B := hbks_len.trans hblen
  have h2pos : 0 < 2 ^ h.B := Nat.pos_pow_of_pos _ (by decide)
  have hnev2 : ({ hm with
      buckets := bks
      oldbuckets := some (old.set j mf) } : Hmap α β).nevacuate = h.nevacuate :=
    hsc.2.2.2.2.2.2
  have hall2 : ∀ i, i < ({ hm with
      buckets := bks
      oldbuckets := some (old.set j mf) } : Hmap α β).nevacuate →
      evacuatedChain ((old.set j mf).getD i []) = true := by
    intro i hi
    rw [hnev2] at hi
    by_cases hij : i = j
    · rw [hij, getD_set_self old j mf [] hjlen]
      exact hmf_ev
    · rw [getD_set_ne old j i mf [] (fun hji => hij hji.symm)]
      exact hwf.old_below_nev old hob i hi
  have hjev2 : evacuatedChain ((old.set j mf).getD j []) = true := by
    rw [getD_set_self old j mf [] hjlen]
    exact hmf_ev
  rcases evacAdvance_cursor_spec
      { hm with buckets := bks, oldbuckets := some (old.set j mf) }
      (old.set j mf) j h.noldbuckets hj (by rw [hnev2]; exact hnev) hall2 hjev2 with
    ⟨hnone, hallev⟩ | ⟨ho, hf, hnv, hbel⟩
  · -- the advance released the old array: growth complete
    have hgl0 : genLive (old.set j mf) = 0 := by
      refine genLive_zero_of_all_evac t (old.set j mf) ?_ ?_
      · intro c hc
        rcases List.mem_or_eq_of_mem_set hc with hc1 | hc2
        · exact hwf.old_state old hob c hc1
        · rw [hc2]
          exact Or.inl hmf_marked
      · intro i hi
        refine hallev i ?_
        rw [List.length_set, hlen_old] at hi
        exact hi
    refine ⟨hflagsw, ?_, ?_, ?_, ?_, ?_, ?_, ?_, ?_, ?_, ?_, ?_, ?_, ?_, ?_⟩
    · intro _
      rw [habk', hB2, hblen2]
    · intro habs
      rw [habk'] at habs
      have hl0 : bks.length = 0 := by rw [habs]; rfl
      omega
    · intro _ hg
      rw [Hmap.growing, hnone] at hg
      simp only [Option.isSome_none] at hg
      cases hg
    · rw [habk']
      exact fun c hc => (hbks_mem c hc).1
    · rw [habk']
      exact fun c hc => (hbks_mem c hc).2.1
    · rw [habk']
      exact fun c hc => (hbks_mem c hc).2.2
    · rw [hcnt, habk', hnone]
      show h.count = genLive bks + genLive []
      rw [show genLive ([] : List (Chain α β)) = 0 from rfl]
      omega
    · intro old0 hsome
      rw [hnone] at hsome
      cases hsome
    · intro hg
      rw [Hmap.growing, hnone] at hg
      cases hg
    · intro old0 hsome
      rw [hnone] at hsome
      cases hsome
    · intro old0 hsome
      rw [hnone] at hsome
      cases hsome
    · intro old0 hsome
      rw [hnone] at hsome
      cases hsome
    · intro old0 hsome
      rw [hnone] at hsome
      cases hsome
    · intro _
      rcases harest with ⟨hoo, _⟩ | ⟨_, hff⟩
      · rw [hnone] at hoo
        have hoo2 : (none : Option (List (Chain α β))) = some (old.set j mf) := hoo
        cases hoo2
      · rw [hff]
        exact andNot_land_self _ _
  · -- still growing
    have hf2 : (evacAdvance
        { hm with buckets := bks, oldbuckets := some (old.set j mf) }
        (old.set j mf) j h.noldbuckets).flags = h.flags := by
      rw [hf]
      show hm.flags = h.flags
      exact hsc.2.1
    have hnb' : (evacAdvance
        { hm with buckets := bks, oldbuckets := some (old.set j mf) }
        (old.set j mf) j h.noldbuckets).noldbuckets = h.noldbuckets :=
      noldbuckets_congr _ _ hB2 hf2
    have ho2 : (evacAdvance
        { hm with buckets := bks, oldbuckets := some (old.set j mf) }
        (old.set j mf) j h.noldbuckets).oldbuckets = some (old.set j mf) := ho
    have hss2 : (evacAdvance
        { hm with buckets := bks, oldbuckets := some (old.set j mf) }
        (old.set j mf) j h.noldbuckets).isSameSizeGrow = h.isSameSizeGrow := by
      unfold Hmap.isSameSizeGrow
      rw [hf2]
    refine ⟨hflagsw, ?_, ?_, ?_, ?_, ?_, ?_, ?_, ?_, ?_, ?_, ?_, ?_, ?_, ?_⟩
    · intro _
      rw [habk', hB2, hblen2]
    · intro habs
      rw [habk'] at habs
      have hl0 : bks.length = 0 := by rw [habs]; rfl
      omega
    · intro hss hg
      rw [hB2]
      rw [hss2] at hss
      exact hwf.b0g hss hgrow
    · rw [habk']
      exact fun c hc => (hbks_mem c hc).1
    · rw [habk']
      exact fun c hc => (hbks_mem c hc).2.1
    · rw [habk']
      exact fun c hc => (hbks_mem c hc).2.2
    · rw [hcnt, habk', ho2]
      show h.count = genLive bks +
        genLive (Option.getD (some (old.set j mf)) [])
      rw [show (Option.getD (some (old.set j mf)) ([] : List (Chain α β))) =
        old.set j mf from rfl]
      omega
    · intro old0 hsome
      rw [ho2] at hsome
      cases hsome
      rw [List.length_set, hnb']
      exact hlen_old
    · intro _
      rw [hnb']
      exact hnv
    · intro old0 hsome
      rw [ho2] at hsome
      cases hsome
      intro c hc
      rcases List.mem_or_eq_of_mem_set hc with hc1 | hc2
      · exact hwf.old_shape old hob c hc1
      · rw [hc2]
        exact hmf_shape
    · intro old0 hsome
      rw [ho2] at hsome
      cases hsome
      intro c hc
      rcases List.mem_or_eq_of_mem_set hc with hc1 | hc2
      · exact hwf.old_state old hob c hc1
      · rw [hc2]
        exact Or.inl hmf_marked
    · intro old0 hsome
      rw [ho2] at hsome
      cases hsome
      intro i hi
      exact hbel i hi
    · intro old0 hsome
      rw [ho2] at hsome
      cases hsome
      intro i hilen hiev
      rw [List.length_set] at hilen
      by_cases hij : i = j
      · rw [hij, getD_set_self old j mf [] hjlen, hmf_ev] at hiev
        cases hiev
      · rw [getD_set_ne old j i mf [] (fun hji => hij hji.symm)] at hiev
        have hres := hwf.old_unevac old hob i hilen hiev
        have hpr := hbks_pristine i hilen hij hiev
        rw [habk', hnb', hss2]
        constructor
        · rw [hpr.1]
          exact hres.1
        · intro hssf
          rw [hpr.2]
          exact hres.2 hssf
    · intro hx
      rw [ho2] at hx
      cases hx

theorem evacuate_main_WF (t : MapType α β) (hctx : EqCtx t) (h : Hmap α β)
    (j : Nat) (old : List (Chain α β)) (marked : Chain α β) (st : EvacState α β)
    (hwf : WF t h) (hob : h.oldbuckets = some old) (hj : j < h.noldbuckets)
    (hcond : evacuatedChain (old.getD j []) = false)
    (hch : evacuateChain t h.noldbuckets
      ⟨⟨[], (h.buckets.getD j []).headD newBucket, 0⟩,
       ⟨[], (h.buckets.getD (j + h.noldbuckets) []).headD newBucket, 0⟩, h⟩
      (old.getD j []) = .ok (marked, st)) :
    WF t (evacAdvance
      { st.h with
        buckets :=
          if ¬ h.isSameSizeGrow then
            ((st.h.buckets.set j
                (destChain ((h.buckets.getD j []).drop 1) st.x)).set
              (j + h.noldbuckets)
              (destChain ((h.buckets.getD (j + h.noldbuckets) []).drop 1) st.y))
          else st.h.buckets.set j
            (destChain ((h.buckets.getD j []).drop 1) st.x),
        oldbuckets := some (old.set j
          (if h.flags &&& oldIterFlag = 0 then
            [(marked.headD []).map
              (fun s => { s with key := (default : α), val := (default : β) })]
          else marked)) }
      (old.set j
        (if h.flags &&& oldIterFlag = 0 then
          [(marked.headD []).map
            (fun s => { s with key := (default : α), val := (default : β) })]
        else marked))
      j h.noldbuckets) := by
  have hgrow : h.growing = true := by rw [Hmap.growing, hob]; rfl
  have hlen_old : old.length = h.noldbuckets := hwf.old_len old hob
  have hjlen : j < old.length := by rw [hlen_old]; exact hj
  have hnev : h.nevacuate < h.noldbuckets := hwf.old_nev hgrow
  have hbne : h.buckets ≠ [] := by
    intro hb
    have hx := (hwf.bnil hb).2.2
    rw [hob] at hx
    cases hx
  have hblen : h.buckets.length = 2 ^ h.B := hwf.blen hbne
  have hnbpos : 0 < h.noldbuckets := by
    show 0 < 2 ^ _
    exact Nat.pos_pow_of_pos _ (by decide)
  have hshape_c := hwf.old_shape old hob (old.getD j []) (getD_mem old j [] hjlen)
  have hcn : cleanChain (old.getD j []) ∧ chainNoDup t (old.getD j []) := by
    rcases hwf.old_state old hob (old.getD j []) (getD_mem old j [] hjlen) with hm | hcn
    · rw [markedChain_evacuated (old.getD j []) hshape_c hm] at hcond
      cases hcond
    · exact hcn
  have hunev := hwf.old_unevac old hob j hjlen hcond
  have hxchain : h.buckets.getD j [] = [newBucket] := hunev.1
  -- the initial destination cursors
  have hx0 : DestOk (⟨[], (h.buckets.getD j []).headD newBucket, 0⟩ : EvacDest α β) := by
    rw [hxchain]
    refine ⟨Nat.zero_le _, rfl, ?_, rfl⟩
    intro b hb
    cases hb
  have hy0 : DestOk (⟨[], (h.buckets.getD (j + h.noldbuckets) []).headD newBucket, 0⟩ :
      EvacDest α β) := by
    by_cases hss : h.isSameSizeGrow = true
    · have hout : h.buckets.length ≤ j + h.noldbuckets := by
        have hnb : h.noldbuckets = 2 ^ h.B := by
          unfold Hmap.noldbuckets
          rw [hss]
          rfl
        rw [hblen]
        omega
      rw [List.getD_eq_default _ _ hout]
      refine ⟨Nat.zero_le _, rfl, ?_, rfl⟩
      intro b hb
      cases hb
    · rw [hunev.2 (Bool.not_eq_true _ |>.mp hss)]
      refine ⟨Nat.zero_le _, rfl, ?_, rfl⟩
      intro b hb
      cases hb
  obtain ⟨hxok, hyok, hdsx, hdsy⟩ := evacuateChain_dest_spec t h.noldbuckets h
    (old.getD j []) _ marked st hch rfl rfl hx0 hy0
  rw [show destSlots (⟨[], (h.buckets.getD j []).headD newBucket, 0⟩ : EvacDest α β) =
    [] from rfl, List.nil_append] at hdsx
  rw [show destSlots (⟨[], (h.buckets.getD (j + h.noldbuckets) []).headD newBucket, 0⟩ :
    EvacDest α β) = [] from rfl, List.nil_append] at hdsy
  have hsc := evacuateChain_SameCore t h.noldbuckets (old.getD j []) _ marked st hch
  have hmarkedEv := marked_evacuated t h.noldbuckets (old.getD j []) _ marked st hch hshape_c
  have hmarkedMk := markedFinal_markedChain t h.noldbuckets (old.getD j []) _ marked st hch
  have hmarkedSh := markedFinal_shape t h.noldbuckets (old.getD j []) _ marked st hch hshape_c
  -- facts about the stored old chain (markedFinal), whichever form it takes
  have hmf_ev : evacuatedChain
      (if h.flags &&& oldIterFlag = 0 then
        [(marked.headD []).map
          (fun s => { s with key := (default : α), val := (default : β) })]
      else marked) = true := by
    split
    · exact hmarkedEv.2
    · exact hmarkedEv.1
  have hmf_marked : markedChain
      (if h.flags &&& oldIterFlag = 0 then
        [(marked.headD []).map
          (fun s => { s with key := (default : α), val := (default : β) })]
      else marked) := by
    split
    · exact hmarkedMk.2
    · exact hmarkedMk.1
  have hmf_shape : ChainShape
      (if h.flags &&& oldIterFlag = 0 then
        [(marked.headD []).map
          (fun s => { s with key := (default : α), val := (default : β) })]
      else marked) := by
    split
    · exact hmarkedSh.2
    · exact hmarkedSh.1
  -- destination chain facts
  have hlx : ∀ x ∈ destSlots st.x, minTopHash ≤ x.top := by
    rw [hdsx]
    exact pushedX_live t h h.noldbuckets (chainSlots (old.getD j []))
  have hly : ∀ x ∈ destSlots st.y, minTopHash ≤ x.top := by
    rw [hdsy]
    exact pushedY_live t h h.noldbuckets (chainSlots (old.getD j []))
  have hXshape : ChainShape (destChain ([] : List (Bucket α β)) st.x) :=
    destChain_shape st.x hxok
  have hXclean : cleanChain (destChain ([] : List (Bucket α β)) st.x) :=
    destChain_clean st.x hxok hlx
  have hXnodup : chainNoDup t (destChain ([] : List (Bucket α β)) st.x) := by
    unfold chainNoDup
    rw [destChain_liveSlots st.x hxok hlx, hdsx]
    exact pushedX_nodup t hctx h h.noldbuckets (old.getD j []) hcn.2
  have hYshape : ChainShape (destChain ([] : List (Bucket α β)) st.y) :=
    destChain_shape st.y hyok
  have hYclean : cleanChain (destChain ([] : List (Bucket α β)) st.y) :=
    destChain_clean st.y hyok hly
  have hYnodup : chainNoDup t (destChain ([] : List (Bucket α β)) st.y) := by
    unfold chainNoDup
    rw [destChain_liveSlots st.y hyok hly, hdsy]
    exact pushedY_nodup t hctx h h.noldbuckets (old.getD j []) hcn.2
  have hXlives : (liveSlots (destChain ([] : List (Bucket α β)) st.x)).length =
      (pushedX t h h.noldbuckets (chainSlots (old.getD j []))).length := by
    rw [destChain_liveSlots st.x hxok hlx, hdsx]
  have hYlives : (liveSlots (destChain ([] : List (Bucket α β)) st.y)).length =
      (pushedY t h h.noldbuckets (chainSlots (old.getD j []))).length := by
    rw [destChain_liveSlots st.y hyok hly, hdsy]
  have hnbpos2 : 0 < h.noldbuckets := hnbpos
  have hlivesc : (liveSlots (old.getD j [])).length =
      ((chainSlots (old.getD j [])).filter
        (fun s => decide (minTopHash ≤ s.top))).length := rfl
  have hplen := pushed_length t h h.noldbuckets (chainSlots (old.getD j []))
  have hstb : st.h.buckets = h.buckets := hsc.2.2.2.2.1
  rw [hstb, hxchain, show ([newBucket] : Chain α β).drop 1 = [] from rfl]
  by_cases hss : h.isSameSizeGrow = true
  · -- same-size grow: only the X destination is written
    rw [if_neg (not_not_intro hss)]
    have hnb_eq : h.noldbuckets = 2 ^ h.B := by
      unfold Hmap.noldbuckets
      rw [hss, if_pos rfl]
    have hjlt : j < h.buckets.length := by
      rw [hblen]
      omega
    refine evacuate_assemble t h st.h j old _ _ hsc hwf hob hj hcond
      hmf_ev hmf_marked hmf_shape ?_ ?_ ?_ ?_
    · rw [List.length_set]
    · intro c hc
      rcases List.mem_or_eq_of_mem_set hc with hc1 | hc2
      · exact ⟨hwf.cur_shape c hc1, hwf.cur_clean c hc1, hwf.cur_nodup c hc1⟩
      · rw [hc2]
        exact ⟨hXshape, hXclean, hXnodup⟩
    · have g1 := genLive_set h.buckets j (destChain [] st.x) hjlt
      rw [hxchain, liveSlots_newBucket] at g1
      simp only [List.length_nil] at g1
      have hxl := pushedX_sameSize_length t h h.noldbuckets
        (chainSlots (old.getD j [])) hss
      omega
    · intro i hilen hij hiev
      have hile : i < h.noldbuckets := by rw [← hlen_old]; exact hilen
      constructor
      · rw [getD_set_ne h.buckets j i _ [] (fun hji => hij hji.symm)]
      · rw [getD_set_ne h.buckets j (i + h.noldbuckets) _ [] (by omega)]
  · -- doubling grow: both destinations are written
    rw [if_pos hss]
    have hssf : h.isSameSizeGrow = false := Bool.not_eq_true _ |>.mp hss
    have hB1 : 1 ≤ h.B := hwf.b0g hssf hgrow
    have hnb_eq : h.noldbuckets = 2 ^ (h.B - 1) := by
      unfold Hmap.noldbuckets
      rw [hssf, if_neg (by decide)]
    have hnb2 : h.noldbuckets + h.noldbuckets = 2 ^ h.B := by
      have e1 : 2 ^ (h.B - 1) * 2 = 2 ^ h.B := by
        rw [← Nat.pow_succ]
        congr 1
        omega
      rw [hnb_eq]
      omega
    have hjlt : j < h.buckets.length := by
      rw [hblen]
      omega
    have hjlt2 : j + h.noldbuckets < h.buckets.length := by
      rw [hblen]
      omega
    rw [hunev.2 hssf, show ([newBucket] : Chain α β).drop 1 = [] from rfl]
    refine evacuate_assemble t h st.h j old _ _ hsc hwf hob hj hcond
      hmf_ev hmf_marked hmf_shape ?_ ?_ ?_ ?_
    · rw [List.length_set, List.length_set]
    · intro c hc
      rcases List.mem_or_eq_of_mem_set hc with hc1 | hc2
      · rcases List.mem_or_eq_of_mem_set hc1 with hc3 | hc4
        · exact ⟨hwf.cur_shape c hc3, hwf.cur_clean c hc3, hwf.cur_nodup c hc3⟩
        · rw [hc4]
          exact ⟨hXshape, hXclean, hXnodup⟩
      · rw [hc2]
        exact ⟨hYshape, hYclean, hYnodup⟩
    · have g1 := genLive_set h.buckets j (destChain [] st.x) hjlt
      rw [hxchain, liveSlots_newBucket] at g1
      simp only [List.length_nil] at g1
      have g2 := genLive_set (h.buckets.set j (destChain [] st.x))
        (j + h.noldbuckets) (destChain [] st.y)
        (by rw [List.length_set]; exact hjlt2)
      rw [getD_set_ne h.buckets j (j + h.noldbuckets) _ [] (by omega),
        hunev.2 hssf, liveSlots_newBucket] at g2
      simp only [List.length_nil] at g2
      omega
    · intro i hilen hij hiev
      have hile : i < h.noldbuckets := by rw [← hlen_old]; exact hilen
      constructor
      · rw [getD_set_ne (h.buckets.set j (destChain [] st.x))
          (j + h.noldbuckets) i _ [] (by omega)]
        rw [getD_set_ne h.buckets j i _ [] (fun hji => hij hji.symm)]
      · rw [getD_set_ne (h.buckets.set j (destChain [] st.x))
          (j + h.noldbuckets) (i + h.noldbuckets) _ [] (by omega)]
        rw [getD_set_ne h.buckets j (i + h.noldbuckets) _ [] (by omega)]

theorem evacuate_WF (t : MapType α β) (hctx : EqCtx t) (h : Hmap α β)
    (j : Nat) (h' : Hmap α β) (hwf : WF t h) (hj : j < h.noldbuckets)
    (heq : evacuate t h j = .ok h') : WF t h' := by
  unfold evacuate at heq
  split at heq
  case h_1 hob => cases heq; exact hwf
  case h_2 old hob =>
    have hgrow : h.growing = true := by rw [Hmap.growing, hob]; rfl
    have hlen_old : old.length = h.noldbuckets := hwf.old_len old hob
    have hjlen : j < old.length := by rw [hlen_old]; exact hj
    have hnev : h.nevacuate < h.noldbuckets := hwf.old_nev hgrow
    have hbne : h.buckets ≠ [] := by
      intro hb
      have hx := (hwf.bnil hb).2.2
      rw [hob] at hx
      cases hx
    have hblen : h.buckets.length = 2 ^ h.B := hwf.blen hbne
    dsimp only at heq
    split at heq
    case isFalse hcond =>
      cases heq
      have hjev : evacuatedChain (old.getD j []) = true := not_not.mp hcond
      obtain ⟨haB, hah0, habk, harest⟩ := evacAdvance_fields h old j h.noldbuckets
      have hcnt : (evacAdvance h old j h.noldbuckets).count = h.count :=
        evacAdvance_count h old j h.noldbuckets
      have hflagsw : (evacAdvance h old j h.noldbuckets).flags &&& hashWriting = 0 := by
        rcases harest with ⟨_, hf⟩ | ⟨_, hf⟩
        · rw [hf]; exact hwf.flags_w
        · rw [hf, andNot_land_keep _ _ _ (by decide)]; exact hwf.flags_w
      rcases evacAdvance_cursor_spec h old j h.noldbuckets hj hnev
          (hwf.old_below_nev old hob) hjev with ⟨hnone, hallev⟩ | ⟨ho, hf, hnv, hbel⟩
      · -- growth completed: the old array is dropped
        have hgl0 : genLive old = 0 := by
          refine genLive_zero_of_all_evac t old (hwf.old_state old hob) ?_
          intro i hi
          refine hallev i ?_
          rw [← hlen_old]
          exact hi
        refine ⟨hflagsw, ?_, ?_, ?_, ?_, ?_, ?_, ?_, ?_, ?_, ?_, ?_, ?_, ?_, ?_⟩
        · intro _
          rw [habk, haB]
          exact hblen
        · intro habs
          rw [habk] at habs
          exact absurd habs hbne
        · intro _ hg
          rw [Hmap.growing, hnone] at hg
          simp only [Option.isSome_none] at hg
          cases hg
        · rw [habk]; exact hwf.cur_shape
        · rw [habk]; exact hwf.cur_clean
        · rw [habk]; exact hwf.cur_nodup
        · rw [hcnt, habk, hnone]
          have hce := hwf.count_eq
          rw [hob] at hce
          show h.count = genLive h.buckets + genLive []
          rw [show genLive ([] : List (Chain α β)) = 0 from rfl]
          rw [show (Option.getD (some old) ([] : List (Chain α β))) = old from rfl] at hce
          omega
        · intro old0 hsome
          rw [hnone] at hsome
          cases hsome
        · intro hg
          rw [Hmap.growing, hnone] at hg
          cases hg
        · intro old0 hsome
          rw [hnone] at hsome
          cases hsome
        · intro old0 hsome
          rw [hnone] at hsome
          cases hsome
        · intro old0 hsome
          rw [hnone] at hsome
          cases hsome
        · intro old0 hsome
          rw [hnone] at hsome
          cases hsome
        · intro _
          rcases harest with ⟨hoo, _⟩ | ⟨_, hff⟩
          · rw [hnone] at hoo
            rw [hob] at hoo
            cases hoo
          · rw [hff]
            exact andNot_land_self _ _
      · -- still growing: cursor advanced
        have hnb' : (evacAdvance h old j h.noldbuckets).noldbuckets = h.noldbuckets :=
          noldbuckets_congr _ _ haB hf
        refine ⟨hflagsw, ?_, ?_, ?_, ?_, ?_, ?_, ?_, ?_, ?_, ?_, ?_, ?_, ?_, ?_⟩
        · intro _
          rw [habk, haB]
          exact hblen
        · intro habs
          rw [habk] at habs
          exact absurd habs hbne
        · intro hss hg
          rw [haB]
          have hssx : (evacAdvance h old j h.noldbuckets).isSameSizeGrow =
              h.isSameSizeGrow := by
            unfold Hmap.isSameSizeGrow
            rw [hf]
          rw [hssx] at hss
          exact hwf.b0g hss hgrow
        · rw [habk]; exact hwf.cur_shape
        · rw [habk]; exact hwf.cur_clean
        · rw [habk]; exact hwf.cur_nodup
        · rw [hcnt, habk, ho]
          exact hwf.count_eq
        · intro old0 hsome
          rw [ho, hob] at hsome
          cases hsome
          rw [hnb']
          exact hlen_old
        · intro _
          rw [hnb']
          exact hnv
        · intro old0 hsome
          rw [ho, hob] at hsome
          cases hsome
          exact hwf.old_shape old hob
        · intro old0 hsome
          rw [ho, hob] at hsome
          cases hsome
          exact hwf.old_state old hob
        · intro old0 hsome
          rw [ho, hob] at hsome
          cases hsome
          intro i hi
          exact hbel i hi
        · intro old0 hsome
          rw [ho, hob] at hsome
          cases hsome
          intro i hilen hiev
          have hres := hwf.old_unevac old hob i hilen hiev
          rw [habk, hnb']
          have hss' : (evacAdvance h old j h.noldbuckets).isSameSizeGrow =
              h.isSameSizeGrow := by
            unfold Hmap.isSameSizeGrow
            rw [hf]
          rw [hss']
          exact hres
        · intro hx
          rw [ho, hob] at hx
          cases hx
    case isTrue hcond =>
      split at heq
      · cases heq
      · cases heq
        rename_i marked st hch
        exact evacuate_main_WF t hctx h j old marked st hwf hob hj
          (Bool.not_eq_true _ |>.mp hcond) hch

/-- What one `evacuate` call does to the old array while it survives: the
target bucket is evacuated afterwards, and every other old chain is
untouched. -/
theorem evacuate_old_spec (t : MapType α β) (h : Hmap α β) (j : Nat)
    (h1 : Hmap α β) (hwf : WF t h) (hj : j < h.noldbuckets)
    (heq : evacuate t h j = .ok h1) :
    ∀ old1, h1.oldbuckets = some old1 →
      ∃ old, h.oldbuckets = some old ∧
        evacuatedChain (old1.getD j []) = true ∧
        ∀ i, i ≠ j → old1.getD i [] = old.getD i [] := by
  unfold evacuate at heq
  split at heq
  case h_1 hob =>
    cases heq
    intro old1 hsome
    rw [hob] at hsome
    cases hsome
  case h_2 old hob =>
    have hlen_old : old.length = h.noldbuckets := hwf.old_len old hob
    have hjlen : j < old.length := by rw [hlen_old]; exact hj
    have hshape_c : ChainShape (old.getD j []) :=
      hwf.old_shape old hob _ (getD_mem old j [] hjlen)
    dsimp only at heq
    split at heq
    case isFalse hcond =>
      cases heq
      intro old1 hsome
      obtain ⟨_, _, _, hrest⟩ := evacAdvance_fields h old j h.noldbuckets
      rcases hrest with ⟨ho, _⟩ | ⟨ho, _⟩
      · rw [ho, hob] at hsome
        cases hsome
        exact ⟨old, hob, not_not.mp hcond, fun i _ => rfl⟩
      · rw [ho] at hsome
        cases hsome
    case isTrue hcond =>
      split at heq
      · cases heq
      · cases heq
        rename_i marked st hch
        intro old1 hsome
        have hmarkedEv := marked_evacuated t h.noldbuckets (old.getD j []) _
          marked st hch hshape_c
        obtain ⟨_, _, _, hrest⟩ := evacAdvance_fields
          { st.h with
            buckets :=
              if ¬ h.isSameSizeGrow then
                ((st.h.buckets.set j
                    (destChain ((h.buckets.getD j []).drop 1) st.x)).set
                  (j + h.noldbuckets)
                  (destChain ((h.buckets.getD (j + h.noldbuckets) []).drop 1) st.y))
              else st.h.buckets.set j
                (destChain ((h.buckets.getD j []).drop 1) st.x)
            oldbuckets := some (old.set j
              (if h.flags &&& oldIterFlag = 0 then
                [(marked.headD []).map
                  (fun s => { s with key := (default : α), val := (default : β) })]
              else marked)) }
          (old.set j
            (if h.flags &&& oldIterFlag = 0 then
              [(marked.headD []).map
                (fun s => { s with key := (default : α), val := (default : β) })]
            else marked)) j h.noldbuckets
        rcases hrest with ⟨ho, _⟩ | ⟨ho, _⟩
        · rw [ho] at hsome
          cases hsome
          refine ⟨old, hob, ?_, ?_⟩
          · rw [getD_set_self old j _ [] hjlen]
            split
            · exact hmarkedEv.2
            · exact hmarkedEv.1
          · intro i hij
            exact getD_set_ne old j i _ [] (fun hji => hij hji.symm)
        · rw [ho] at hsome
          cases hsome

/-- `growWork` preserves well-formedness and the header geometry; while the
old array survives, the flags are unchanged and the old bucket backing the
touched bucket is evacuated. -/
theorem growWork_WF (t : MapType α β) (hctx : EqCtx t) (h : Hmap α β)
    (bucket : Nat) (h1 : Hmap α β) (hwf : WF t h)
    (heq : growWork t h bucket = .ok h1) :
    WF t h1 ∧ h1.B = h.B ∧ h1.hash0 = h.hash0 ∧
    h1.buckets.length = h.buckets.length ∧
    (∀ old1, h1.oldbuckets = some old1 →
      h1.flags = h.flags ∧
      evacuatedChain (old1.getD (bucket &&& h.oldbucketmask) []) = true) := by
  have hnbpos : 1 ≤ h.noldbuckets := by
    unfold Hmap.noldbuckets
    exact Nat.one_le_two_pow
  have hj0 : bucket &&& h.oldbucketmask < h.noldbuckets := by
    have hle : bucket &&& (h.noldbuckets - 1) ≤ h.noldbuckets - 1 := Nat.and_le_right
    have hgoal : bucket &&& h.oldbucketmask = bucket &&& (h.noldbuckets - 1) := rfl
    rw [hgoal]
    omega
  unfold growWork at heq
  simp only [bind, Except.bind] at heq
  split at heq
  case h_1 e hEvA =>
    cases heq
  case h_2 hA hEvA =>
    have hwfA : WF t hA := evacuate_WF t hctx h _ hA hwf hj0 hEvA
    obtain ⟨hAB, hAh0, hAlen, _, hAfl⟩ := evacuate_fields t h _ hA hEvA
    by_cases hga : hA.growing = true
    · rw [if_pos hga] at heq
      have hj2 : hA.nevacuate < hA.noldbuckets := hwfA.old_nev hga
      have hwf1 : WF t h1 := evacuate_WF t hctx hA _ h1 hwfA hj2 heq
      obtain ⟨h1B, h1h0, h1len, _, h1fl⟩ := evacuate_fields t hA _ h1 heq
      refine ⟨hwf1, h1B.trans hAB, h1h0.trans hAh0, h1len.trans hAlen, ?_⟩
      intro old1 hsome
      obtain ⟨oldA, hobA, hev2, hpr2⟩ :=
        evacuate_old_spec t hA _ h1 hwfA hj2 heq old1 hsome
      obtain ⟨old0, hob0, hev1, hpr1⟩ :=
        evacuate_old_spec t h _ hA hwf hj0 hEvA oldA hobA
      have hf2 : h1.flags = hA.flags := by
        rcases h1fl with hn | hf
        · rw [hn] at hsome
          cases hsome
        · exact hf
      have hf1 : hA.flags = h.flags := by
        rcases hAfl with hn | hf
        · rw [hn] at hobA
          cases hobA
        · exact hf
      refine ⟨hf2.trans hf1, ?_⟩
      by_cases hjj : bucket &&& h.oldbucketmask = hA.nevacuate
      · rw [hjj]
        exact hev2
      · rw [hpr2 _ hjj]
        exact hev1
    · rw [if_neg hga] at heq
      cases heq
      refine ⟨hwfA, hAB, hAh0, hAlen, ?_⟩
      intro old1 hsome
      rw [Hmap.growing, hsome] at hga
      exact absurd rfl hga

theorem lor_land_keep (a b c : Nat) (hbc : b &&& c = 0) :
    (a ||| b) &&& c = a &&& c := by
  apply Nat.eq_of_testBit_eq
  intro i
  have hb := congrArg (fun n => n.testBit i) hbc
  simp only [Nat.testBit_land, Nat.zero_testBit] at hb
  simp only [Nat.testBit_land, Nat.testBit_lor]
  cases hc : c.testBit i
  · simp
  · rw [hc] at hb
    simp only [Bool.and_true] at hb
    rw [hb]
    simp

theorem lor_land_absorb (a b : Nat) : (a ||| b) &&& b = b := by
  apply Nat.eq_of_testBit_eq
  intro i
  simp only [Nat.testBit_land, Nat.testBit_lor]
  cases hb : b.testBit i <;> simp

theorem getD_replicate {γ : Type} (n i : Nat) (x d : γ) (hi : i < n) :
    (List.replicate n x).getD i d = x := by
  rw [List.getD_eq_getElem?_getD, List.getElem?_replicate]
  simp [hi]

theorem genLive_replicate (n : Nat) :
    genLive (List.replicate n ([newBucket] : Chain α β)) = 0 := by
  unfold genLive
  rw [List.map_replicate, liveSlots_newBucket]
  simp

theorem newBucket_shape : ChainShape ([newBucket] : Chain α β) := by
  refine ⟨by simp, ?_⟩
  intro b hb
  rw [List.mem_singleton.mp hb]
  simp [newBucket]

theorem newBucket_clean : cleanChain ([newBucket] : Chain α β) := by
  intro s hs
  simp only [chainSlots, List.flatten_cons, List.flatten_nil, List.append_nil,
    newBucket] at hs
  rw [List.eq_of_mem_replicate hs]
  exact Or.inl rfl

theorem newBucket_nodup (t : MapType α β) :
    chainNoDup t ([newBucket] : Chain α β) := by
  unfold chainNoDup
  rw [liveSlots_newBucket]
  exact List.Pairwise.nil

/-- The flag rewrite at the end of `hashGrow` (demote `iterator` to
`oldIterator`) touches only the two iterator bits. -/
theorem hashGrow_flag_bits (f0 : Nat) :
    ((if f0 &&& iterFlag ≠ 0 then
        andNot f0 (iterFlag ||| oldIterFlag) ||| oldIterFlag
      else andNot f0 (iterFlag ||| oldIterFlag)) &&& hashWriting =
      f0 &&& hashWriting) ∧
    ((if f0 &&& iterFlag ≠ 0 then
        andNot f0 (iterFlag ||| oldIterFlag) ||| oldIterFlag
      else andNot f0 (iterFlag ||| oldIterFlag)) &&& sameSizeGrowFlag =
      f0 &&& sameSizeGrowFlag) := by
  constructor <;> split
  · rw [lor_land_keep _ _ _ (by decide), andNot_land_keep _ _ _ (by decide)]
  · rw [andNot_land_keep _ _ _ (by decide)]
  · rw [lor_land_keep _ _ _ (by decide), andNot_land_keep _ _ _ (by decide)]
  · rw [andNot_land_keep _ _ _ (by decide)]

/-- Well-formedness of the state `hashGrow` assembles, for either size
decision: old array is the previous bucket array, fresh all-new current
array, cursor and overflow counter reset. -/
theorem WF_grow_state (t : MapType α β) (h : Hmap α β) (F B' : Nat)
    (hF4 : F &&& hashWriting = 0)
    (hcase : F &&& sameSizeGrowFlag = 0 ∧ B' = h.B + 1 ∨
      F &&& sameSizeGrowFlag ≠ 0 ∧ B' = h.B)
    (hblen : h.buckets.length = 2 ^ h.B)
    (hcount : h.count = genLive h.buckets)
    (hshape : ∀ c ∈ h.buckets, ChainShape c)
    (hclean : ∀ c ∈ h.buckets, cleanChain c)
    (hnodup : ∀ c ∈ h.buckets, chainNoDup t c) :
    WF t { count := h.count, flags := F, B := B', noverflow := 0,
           hash0 := h.hash0,
           buckets := List.replicate (2 ^ B') ([newBucket] : Chain α β),
           oldbuckets := some h.buckets, nevacuate := 0, rc := h.rc } := by
  have h2B : (0:Nat) < 2 ^ h.B := Nat.pos_pow_of_pos _ (by decide)
  have h2B' : (0:Nat) < 2 ^ B' := Nat.pos_pow_of_pos _ (by decide)
  have hle : 2 ^ h.B ≤ 2 ^ B' := by
    rcases hcase with ⟨_, hB⟩ | ⟨_, hB⟩
    · rw [hB]
      exact Nat.pow_le_pow_right (by decide) (by omega)
    · rw [hB]
  have hnb : (Hmap.noldbuckets
      { count := h.count, flags := F, B := B', noverflow := 0,
        hash0 := h.hash0,
        buckets := List.replicate (2 ^ B') ([newBucket] : Chain α β),
        oldbuckets := some h.buckets, nevacuate := 0, rc := h.rc } :
      Nat) = 2 ^ h.B := by
    unfold Hmap.noldbuckets
    show (2 : Nat) ^ (if (decide (F &&& sameSizeGrowFlag ≠ 0) : Bool) then B'
      else B' - 1) = 2 ^ h.B
    rcases hcase with ⟨h8, hB⟩ | ⟨h8, hB⟩
    · have hd : decide (F &&& sameSizeGrowFlag ≠ 0) = false := by simp [h8]
      rw [hd, if_neg (by decide), hB, Nat.add_sub_cancel]
    · have hd : decide (F &&& sameSizeGrowFlag ≠ 0) = true := by simp [h8]
      rw [hd, if_pos rfl, hB]
  refine ⟨hF4, ?_, ?_, ?_, ?_, ?_, ?_, ?_, ?_, ?_, ?_, ?_, ?_, ?_, ?_⟩
  · intro _
    show (List.replicate (2 ^ B') ([newBucket] : Chain α β)).length = 2 ^ B'
    simp
  · intro habs
    have habs' : List.replicate (2 ^ B') ([newBucket] : Chain α β) = [] := habs
    have hl := congrArg List.length habs'
    simp only [List.length_replicate, List.length_nil] at hl
    omega
  · intro hssf _
    show 1 ≤ B'
    rcases hcase with ⟨h8, hB⟩ | ⟨h8, hB⟩
    · rw [hB]
      omega
    · have hssf' : decide (F &&& sameSizeGrowFlag ≠ 0) = false := hssf
      simp only [decide_eq_false_iff_not, not_not] at hssf'
      exact absurd hssf' h8
  · intro c hc
    have hc' : c ∈ List.replicate (2 ^ B') ([newBucket] : Chain α β) := hc
    rw [List.eq_of_mem_replicate hc']
    exact newBucket_shape
  · intro c hc
    have hc' : c ∈ List.replicate (2 ^ B') ([newBucket] : Chain α β) := hc
    rw [List.eq_of_mem_replicate hc']
    exact newBucket_clean
  · intro c hc
    have hc' : c ∈ List.replicate (2 ^ B') ([newBucket] : Chain α β) := hc
    rw [List.eq_of_mem_replicate hc']
    exact newBucket_nodup t
  · show h.count = genLive (List.replicate (2 ^ B') ([newBucket] : Chain α β)) +
      genLive (Option.getD (some h.buckets) [])
    rw [genLive_replicate,
      show (Option.getD (some h.buckets) ([] : List (Chain α β))) = h.buckets from rfl]
    omega
  · intro old0 hsome
    have hsome' : some h.buckets = some old0 := hsome
    cases hsome'
    rw [hnb]
    exact hblen
  · intro _
    rw [hnb]
    show 0 < 2 ^ h.B
    exact h2B
  · intro old0 hsome
    have hsome' : some h.buckets = some old0 := hsome
    cases hsome'
    exact hshape
  · intro old0 hsome
    have hsome' : some h.buckets = some old0 := hsome
    cases hsome'
    exact fun c hc => Or.inr ⟨hclean c hc, hnodup c hc⟩
  · intro old0 hsome i hi
    have hi' : i < 0 := hi
    exact absurd hi' (Nat.not_lt_zero i)
  · intro old0 hsome j hjl hjev
    have hsome' : some h.buckets = some old0 := hsome
    cases hsome'
    have hjB : j < 2 ^ h.B := by
      rw [← hblen]
      exact hjl
    constructor
    · exact getD_replicate (2 ^ B') j [newBucket] [] (by omega)
    · intro hssf
      rw [hnb]
      have hB1 : B' = h.B + 1 := by
        rcases hcase with ⟨h8, hB⟩ | ⟨h8, hB⟩
        · exact hB
        · have hssf' : decide (F &&& sameSizeGrowFlag ≠ 0) = false := hssf
          simp only [decide_eq_false_iff_not, not_not] at hssf'
          exact absurd hssf' h8
      have hpow : 2 ^ B' = 2 ^ h.B + 2 ^ h.B := by
        rw [hB1, Nat.pow_succ]
        omega
      exact getD_replicate (2 ^ B') (j + 2 ^ h.B) [newBucket] [] (by omega)
  · intro hx
    have hx' : some h.buckets = (none : Option (List (Chain α β))) := hx
    cases hx'

/-- `hashGrow` called from a non-growing well-formed state produces a
well-formed mid-growth state. -/
theorem hashGrow_WF (t : MapType α β) (h : Hmap α β) (hwf : WF t h)
    (hob : h.oldbuckets = none) (hbne : h.buckets ≠ []) :
    WF t (hashGrow t h) := by
  have hblen := hwf.blen hbne
  have hfl8 : h.flags &&& sameSizeGrowFlag = 0 := hwf.nog_ss hob
  have hfl4 : h.flags &&& hashWriting = 0 := hwf.flags_w
  have hce := hwf.count_eq
  rw [hob, show (Option.getD (none : Option (List (Chain α β))) []) = [] from rfl,
    show genLive ([] : List (Chain α β)) = 0 from rfl] at hce
  have hcount : h.count = genLive h.buckets := by omega
  by_cases hov : overLoadFactor h.count h.B = true
  · have hgeq : hashGrow t h =
        { count := h.count
          flags := if h.flags &&& iterFlag ≠ 0 then
              andNot h.flags (iterFlag ||| oldIterFlag) ||| oldIterFlag
            else andNot h.flags (iterFlag ||| oldIterFlag)
          B := h.B + 1
          noverflow := 0
          hash0 := h.hash0
          buckets := List.replicate (2 ^ (h.B + 1)) ([newBucket] : Chain α β)
          oldbuckets := some h.buckets
          nevacuate := 0
          rc := h.rc } := by
      unfold hashGrow
      rw [hov]
      rfl
    rw [hgeq]
    refine WF_grow_state t h _ (h.B + 1) ?_ ?_ hblen hcount hwf.cur_shape
      hwf.cur_clean hwf.cur_nodup
    · exact (hashGrow_flag_bits h.flags).1.trans hfl4
    · exact Or.inl ⟨(hashGrow_flag_bits h.flags).2.trans hfl8, rfl⟩
  · have hovf : overLoadFactor h.count h.B = false := Bool.not_eq_true _ |>.mp hov
    have hgeq : hashGrow t h =
        { count := h.count
          flags := if (h.flags ||| sameSizeGrowFlag) &&& iterFlag ≠ 0 then
              andNot (h.flags ||| sameSizeGrowFlag) (iterFlag ||| oldIterFlag) |||
                oldIterFlag
            else andNot (h.flags ||| sameSizeGrowFlag) (iterFlag ||| oldIterFlag)
          B := h.B
          noverflow := 0
          hash0 := h.hash0
          buckets := List.replicate (2 ^ h.B) ([newBucket] : Chain α β)
          oldbuckets := some h.buckets
          nevacuate := 0
          rc := h.rc } := by
      unfold hashGrow
      rw [hovf]
      rfl
    rw [hgeq]
    refine WF_grow_state t h _ h.B ?_ ?_ hblen hcount hwf.cur_shape
      hwf.cur_clean hwf.cur_nodup
    · exact (hashGrow_flag_bits (h.flags ||| sameSizeGrowFlag)).1.trans
        ((lor_land_keep _ _ _ (by decide)).trans hfl4)
    · refine Or.inr ⟨?_, rfl⟩
      rw [(hashGrow_flag_bits (h.flags ||| sameSizeGrowFlag)).2, lor_land_absorb]
      decide

/-- Well-formedness of a fresh map state (the record `makemap` returns). -/
theorem WF_fresh (t : MapType α β) (B0 h0 : Nat) :
    WF t { count := 0, flags := 0, B := B0, noverflow := 0, hash0 := h0,
           buckets := if B0 = 0 then [] else
             List.replicate (2 ^ B0) ([newBucket] : Chain α β),
           oldbuckets := none, nevacuate := 0, rc := 0 } := by
  refine ⟨show (0:Nat) &&& hashWriting = 0 by decide,
    ?_, ?_, ?_, ?_, ?_, ?_, ?_, ?_, ?_, ?_, ?_, ?_, ?_, ?_⟩
  · intro hne
    have hne' : (if B0 = 0 then ([] : List (Chain α β)) else
        List.replicate (2 ^ B0) ([newBucket] : Chain α β)) ≠ [] := hne
    show (if B0 = 0 then ([] : List (Chain α β)) else
      List.replicate (2 ^ B0) ([newBucket] : Chain α β)).length = 2 ^ B0
    by_cases hB : B0 = 0
    · rw [if_pos hB] at hne'
      exact absurd rfl hne'
    · rw [if_neg hB]
      simp
  · intro hemp
    have hemp' : (if B0 = 0 then ([] : List (Chain α β)) else
        List.replicate (2 ^ B0) ([newBucket] : Chain α β)) = [] := hemp
    by_cases hB : B0 = 0
    · exact ⟨hB, rfl, rfl⟩
    · rw [if_neg hB] at hemp'
      have hl := congrArg List.length hemp'
      simp only [List.length_replicate, List.length_nil] at hl
      have h2 : (0:Nat) < 2 ^ B0 := Nat.pos_pow_of_pos _ (by decide)
      omega
  · intro _ hg
    have hg' : (none : Option (List (Chain α β))).isSome = true := hg
    simp at hg'
  · intro c hc
    have hc' : c ∈ (if B0 = 0 then ([] : List (Chain α β)) else
        List.replicate (2 ^ B0) ([newBucket] : Chain α β)) := hc
    by_cases hB : B0 = 0
    · rw [if_pos hB] at hc'
      cases hc'
    · rw [if_neg hB] at hc'
      rw [List.eq_of_mem_replicate hc']
      exact newBucket_shape
  · intro c hc
    have hc' : c ∈ (if B0 = 0 then ([] : List (Chain α β)) else
        List.replicate (2 ^ B0) ([newBucket] : Chain α β)) := hc
    by_cases hB : B0 = 0
    · rw [if_pos hB] at hc'
      cases hc'
    · rw [if_neg hB] at hc'
      rw [List.eq_of_mem_replicate hc']
      exact newBucket_clean
  · intro c hc
    have hc' : c ∈ (if B0 = 0 then ([] : List (Chain α β)) else
        List.replicate (2 ^ B0) ([newBucket] : Chain α β)) := hc
    by_cases hB : B0 = 0
    · rw [if_pos hB] at hc'
      cases hc'
    · rw [if_neg hB] at hc'
      rw [List.eq_of_mem_replicate hc']
      exact newBucket_nodup t
  · show (0:Nat) = genLive (if B0 = 0 then ([] : List (Chain α β)) else
      List.replicate (2 ^ B0) ([newBucket] : Chain α β)) +
      genLive (Option.getD none [])
    rw [show (Option.getD (none : Option (List (Chain α β))) []) = [] from rfl,
      show genLive ([] : List (Chain α β)) = 0 from rfl]
    by_cases hB : B0 = 0
    · rw [if_pos hB]
      rfl
    · rw [if_neg hB, genLive_replicate]
  · intro old0 hsome
    have hs' : (none : Option (List (Chain α β))) = some old0 := hsome
    cases hs'
  · intro hg
    have hg' : (none : Option (List (Chain α β))).isSome = true := hg
    simp at hg'
  · intro old0 hsome
    have hs' : (none : Option (List (Chain α β))) = some old0 := hsome
    cases hs'
  · intro old0 hsome
    have hs' : (none : Option (List (Chain α β))) = some old0 := hsome
    cases hs'
  · intro old0 hsome
    have hs' : (none : Option (List (Chain α β))) = some old0 := hsome
    cases hs'
  · intro old0 hsome
    have hs' : (none : Option (List (Chain α β))) = some old0 := hsome
    cases hs'
  · intro _
    show (0:Nat) &&& sameSizeGrowFlag = 0
    decide

/-- `makemap` returns a well-formed state. -/
theorem makemap_WF (t : MapType α β) (hint : Int) (h0 : Nat) (h : Hmap α β)
    (heq : makemap t hint h0 = .ok h) : WF t h := by
  unfold makemap at heq
  split at heq
  · cases heq
  · cases heq
    exact WF_fresh t _ _

/-- `mapassign`'s lazy allocation of the first bucket preserves
well-formedness. -/
theorem WF_lazy_alloc (t : MapType α β) (h : Hmap α β) (hwf : WF t h)
    (hb : h.buckets = []) : WF t { h with buckets := [[newBucket]] } := by
  obtain ⟨hB0, hc0, hon⟩ := hwf.bnil hb
  have hgl : genLive ([[newBucket]] : List (Chain α β)) = 0 := by
    simp [genLive, liveSlots_newBucket]
  refine ⟨hwf.flags_w, ?_, ?_, ?_, ?_, ?_, ?_, ?_, ?_, ?_, ?_, ?_, ?_, ?_, ?_⟩
  · intro _
    show ([[newBucket]] : List (Chain α β)).length = 2 ^ h.B
    rw [hB0]
    rfl
  · intro habs
    have habs' : ([[newBucket]] : List (Chain α β)) = [] := habs
    cases habs'
  · intro _ hg
    have hg' : h.oldbuckets.isSome = true := hg
    rw [hon] at hg'
    simp at hg'
  · intro c hc
    have hc' : c ∈ ([[newBucket]] : List (Chain α β)) := hc
    rw [List.mem_singleton.mp hc']
    exact newBucket_shape
  · intro c hc
    have hc' : c ∈ ([[newBucket]] : List (Chain α β)) := hc
    rw [List.mem_singleton.mp hc']
    exact newBucket_clean
  · intro c hc
    have hc' : c ∈ ([[newBucket]] : List (Chain α β)) := hc
    rw [List.mem_singleton.mp hc']
    exact newBucket_nodup t
  · show h.count = genLive ([[newBucket]] : List (Chain α β)) +
      genLive (h.oldbuckets.getD [])
    rw [hgl, hon, hc0]
    rfl
  · intro old0 hsome
    have hs' : h.oldbuckets = some old0 := hsome
    rw [hon] at hs'
    cases hs'
  · intro hg
    have hg' : h.oldbuckets.isSome = true := hg
    rw [hon] at hg'
    simp at hg'
  · intro old0 hsome
    have hs' : h.oldbuckets = some old0 := hsome
    rw [hon] at hs'
    cases hs'
  · intro old0 hsome
    have hs' : h.oldbuckets = some old0 := hsome
    rw [hon] at hs'
    cases hs'
  · intro old0 hsome
    have hs' : h.oldbuckets = some old0 := hsome
    rw [hon] at hs'
    cases hs'
  · intro old0 hsome
    have hs' : h.oldbuckets = some old0 := hsome
    rw [hon] at hs'
    cases hs'
  · intro _
    exact hwf.nog_ss hon

theorem genLive_pos (g : List (Chain α β)) (c : Chain α β) (hc : c ∈ g)
    (s : Slot α β) (hs : s ∈ chainSlots c) (hl : minTopHash ≤ s.top) :
    0 < genLive g := by
  have h1 : 0 < (liveSlots c).length := by
    have hmem : s ∈ liveSlots c := List.mem_filter.2 ⟨hs, by simpa using hl⟩
    exact List.length_pos.2 (List.ne_nil_of_mem hmem)
  have h2 : (liveSlots c).length ∈ g.map (fun c => (liveSlots c).length) :=
    List.mem_map_of_mem _ hc
  have h3 : (liveSlots c).length ≤ genLive g :=
    List.single_le_sum (by intro x hx; omega) _ h2
  omega

/-- With no growth in progress a read addresses the current array directly. -/
theorem readChain_none (h : Hmap α β) (hash : Nat) (hob : h.oldbuckets = none) :
    readChain h hash = h.buckets.getD (hash &&& (2 ^ h.B - 1)) [] := by
  unfold readChain
  rw [hob]

/-- Once the old bucket a hash addresses is evacuated, a read addresses the
current array. -/
theorem readChain_evac (h : Hmap α β) (hash : Nat) (old : List (Chain α β))
    (hob : h.oldbuckets = some old)
    (hev : evacuatedChain (old.getD
      (hash &&& (if ¬ h.isSameSizeGrow then (2 ^ h.B - 1) >>> 1
        else 2 ^ h.B - 1)) []) = true) :
    readChain h hash = h.buckets.getD (hash &&& (2 ^ h.B - 1)) [] := by
  unfold readChain
  rw [hob]
  dsimp only
  rw [hev]
  simp

theorem mask_shift (B : Nat) (hB : 1 ≤ B) :
    ((2:Nat) ^ B - 1) >>> 1 = 2 ^ (B - 1) - 1 := by
  rw [Nat.shiftRight_eq_div_pow]
  have h2 : (2:Nat) ^ B = 2 ^ (B - 1) * 2 := by
    rw [← Nat.pow_succ]
    congr 1
    omega
  have hp : (0:Nat) < 2 ^ (B - 1) := Nat.pos_pow_of_pos _ (by decide)
  omega

theorem land_mask_mask (a B b' : Nat) (hle : b' ≤ B) :
    (a &&& (2 ^ B - 1)) &&& (2 ^ b' - 1) = a &&& (2 ^ b' - 1) := by
  rw [Nat.and_pow_two_sub_one_eq_mod, Nat.and_pow_two_sub_one_eq_mod,
    Nat.and_pow_two_sub_one_eq_mod, Nat.mod_mod_of_dvd]
  exact pow_dvd_pow 2 hle

/-- What `mapassignScan` guarantees on a normal (non-restart) completion: the
header geometry and growth state are untouched, `count` is positive, and the
addressed chain answers the probe with the just-stored value. -/
theorem mapassignScan_ok (t : MapType α β) (hctx : EqCtx t) (k : α) (v : β)
    (hash : Nat) (allowGrow : Bool) (bucket : Nat) (h h' : Hmap α β)
    (hwf : WF t h) (hkk : t.equal k k = true)
    (hbkt : bucket < h.buckets.length)
    (heq : mapassignScan t k v hash allowGrow bucket h = .inl (.ok h')) :
    h'.B = h.B ∧ h'.hash0 = h.hash0 ∧ h'.flags = h.flags ∧
    h'.oldbuckets = h.oldbuckets ∧ h'.buckets.length = h.buckets.length ∧
    h'.count ≠ 0 ∧
    chainAccess t (tophashOf hash) k (h'.buckets.getD bucket []) = some v := by
  have htop4 : minTopHash ≤ tophashOf hash := tophashOf_ge hash
  unfold mapassignScan at heq
  dsimp only at heq
  split at heq
  case h_1 c' hup =>
    cases heq
    refine ⟨rfl, rfl, rfl, rfl, by rw [List.length_set], ?_, ?_⟩
    · obtain ⟨cp, p, s0, q, cq, hc, hc', hms, hcp, hp⟩ :=
        chainUpdate_eq_some_decomp t (tophashOf hash) k _ _ c' hup
      have hs0 : s0 ∈ chainSlots (h.buckets.getD bucket []) := by
        rw [hc, chainSlots_decomp_eq]
        exact List.mem_append_left _ (List.mem_append_right _
          (List.mem_append_right _ (List.mem_cons_self s0 q)))
      have hpos := genLive_pos h.buckets _ (getD_mem h.buckets bucket [] hbkt)
        s0 hs0 (by rw [hms.1]; exact htop4)
      have hce := hwf.count_eq
      show h.count ≠ 0
      omega
    · rw [getD_set_self h.buckets bucket c' [] hbkt]
      refine chainAccess_after_update t (tophashOf hash) k _ v _ c' hup ?_
      intro s hms
      refine ⟨⟨hms.1, ?_⟩, rfl⟩
      show t.equal k (if t.needkeyupdate then k else s.key) = true
      split
      · exact hkk
      · exact hms.2
  case h_2 hnoup =>
    split at heq
    · cases heq
    · split at heq
      case h_1 c2 hins =>
        cases heq
        refine ⟨rfl, rfl, rfl, rfl, by rw [List.length_set],
          by show h.count + 1 ≠ 0; omega, ?_⟩
        rw [getD_set_self h.buckets bucket c2 [] hbkt]
        exact chainAccess_after_insert t (tophashOf hash) k v _ c2 hkk
          ((chainUpdate_eq_none_iff t (tophashOf hash) k _ _).1 hnoup) hins
      case h_2 hnoins =>
        cases heq
        have hno : (incrnoverflow t h).buckets = h.buckets ∧
            (incrnoverflow t h).count = h.count ∧
            (incrnoverflow t h).B = h.B ∧
            (incrnoverflow t h).hash0 = h.hash0 ∧
            (incrnoverflow t h).flags = h.flags ∧
            (incrnoverflow t h).oldbuckets = h.oldbuckets := by
          unfold incrnoverflow
          dsimp only
          split
          · exact ⟨rfl, rfl, rfl, rfl, rfl, rfl⟩
          · split
            · exact ⟨rfl, rfl, rfl, rfl, rfl, rfl⟩
            · exact ⟨rfl, rfl, rfl, rfl, rfl, rfl⟩
        obtain ⟨hbk, hcnt, hB, hh0, hfl, hoo⟩ := hno
        refine ⟨hB, hh0, hfl, hoo, by rw [List.length_set, hbk],
          by show (incrnoverflow t h).count + 1 ≠ 0; omega, ?_⟩
        rw [hbk, getD_set_self h.buckets bucket _ [] hbkt]
        exact chainAccess_append_new t (tophashOf hash) k v _ _ hkk
          ((chainUpdate_eq_none_iff t (tophashOf hash) k _ _).1 hnoup)

theorem oldbuckets_none_of_not_growing (h : Hmap α β) (hg : h.growing = false) :
    h.oldbuckets = none := by
  cases hoo : h.oldbuckets with
  | none => rfl
  | some o =>
    rw [Hmap.growing, hoo] at hg
    simp at hg

/-- The restart branch of `mapassignScan` fires only when growth is allowed
and not already in progress, and returns the grown state. -/
theorem mapassignScan_inr (t : MapType α β) (k : α) (v : β)
    (hash : Nat) (allowGrow : Bool) (bucket : Nat) (h h2 : Hmap α β)
    (heq : mapassignScan t k v hash allowGrow bucket h = .inr h2) :
    h2 = hashGrow t h ∧ h.growing = false ∧ allowGrow = true := by
  unfold mapassignScan at heq
  dsimp only at heq
  split at heq
  · cases heq
  · split at heq
    case isTrue hcondi =>
      cases heq
      simp only [Bool.and_eq_true, decide_eq_true_eq] at hcondi
      exact ⟨rfl, Bool.not_eq_true _ |>.mp hcondi.2.1, hcondi.1⟩
    case isFalse hcondi =>
      split at heq <;> cases heq

theorem hashGrow_buckets_ne (t : MapType α β) (h : Hmap α β) :
    (hashGrow t h).buckets ≠ [] := by
  intro habs
  have habs' : List.replicate
      (2 ^ (h.B + if overLoadFactor h.count h.B then 1 else 0))
      ([newBucket] : Chain α β) = [] := habs
  have hl := congrArg List.length habs'
  simp only [List.length_replicate, List.length_nil] at hl
  have h2 : (0:Nat) <
      2 ^ (h.B + if overLoadFactor h.count h.B then 1 else 0) :=
    Nat.pos_pow_of_pos _ (by decide)
  omega

/-- One non-restarting `again:` pass of `mapassign` leaves the probe's read
path answering with the stored value, a positive count, and a clear write
flag. -/
theorem mapassignStep_ok (t : MapType α β) (hctx : EqCtx t) (k : α) (v : β)
    (hash : Nat) (allowGrow : Bool) (h0 h' : Hmap α β)
    (hwf : WF t h0) (hkk : t.equal k k = true) (hb0 : h0.buckets ≠ [])
    (heq : mapassignStep t k v hash allowGrow h0 = .inl (.ok h')) :
    chainAccess t (tophashOf hash) k (readChain h' hash) = some v ∧
    h'.count ≠ 0 ∧ h'.flags &&& hashWriting = 0 ∧ h'.hash0 = h0.hash0 := by
  have hblen0 : h0.buckets.length = 2 ^ h0.B := hwf.blen hb0
  have hbpos : (0:Nat) < 2 ^ h0.B := Nat.pos_pow_of_pos _ (by decide)
  have hble : hash &&& (2 ^ h0.B - 1) ≤ 2 ^ h0.B - 1 := Nat.and_le_right
  unfold mapassignStep at heq
  dsimp only at heq
  split at heq
  case h_1 e hmid =>
    injection heq with h2
    cases h2
  case h_2 h1 hmid =>
    by_cases hg : h0.growing = true
    · rw [if_pos hg] at hmid
      obtain ⟨hwf1, h1B, h1h0, h1len, hold⟩ :=
        growWork_WF t hctx h0 _ h1 hwf hmid
      have hbkt : hash &&& (2 ^ h0.B - 1) < h1.buckets.length := by
        rw [h1len, hblen0]
        omega
      obtain ⟨hB', hh0', hfl', hoo', hlen', hcnt', hacc⟩ :=
        mapassignScan_ok t hctx k v hash allowGrow _ h1 h' hwf1 hkk hbkt heq
      have hBE : h'.B = h0.B := hB'.trans h1B
      refine ⟨?_, hcnt', ?_, hh0'.trans h1h0⟩
      · cases hoo2 : h'.oldbuckets with
        | none =>
          rw [readChain_none h' hash hoo2, hBE]
          exact hacc
        | some old1 =>
          have hsome1 : h1.oldbuckets = some old1 := hoo'.symm.trans hoo2
          obtain ⟨hfl1, hev⟩ := hold old1 hsome1
          have hssE : h'.isSameSizeGrow = h0.isSameSizeGrow := by
            unfold Hmap.isSameSizeGrow
            rw [hfl', hfl1]
          have hmask : hash &&& (if ¬ h'.isSameSizeGrow then
              (2 ^ h'.B - 1) >>> 1 else 2 ^ h'.B - 1) =
              (hash &&& (2 ^ h0.B - 1)) &&& h0.oldbucketmask := by
            rw [hssE, hBE]
            have hom : h0.oldbucketmask =
                2 ^ (if h0.isSameSizeGrow then h0.B else h0.B - 1) - 1 := rfl
            by_cases hss : h0.isSameSizeGrow = true
            · rw [if_neg (by rw [hss]; decide), hom, if_pos hss]
              rw [land_mask_mask hash h0.B h0.B (le_refl _)]
            · have hssf : h0.isSameSizeGrow = false := Bool.not_eq_true _ |>.mp hss
              have hB1 : 1 ≤ h0.B := hwf.b0g hssf hg
              rw [if_pos (by rw [hssf]; decide), hom, if_neg hss,
                mask_shift h0.B hB1,
                land_mask_mask hash h0.B (h0.B - 1) (by omega)]
          rw [readChain_evac h' hash old1 hoo2 (by rw [hmask]; exact hev), hBE]
          exact hacc
      · rw [hfl']
        exact hwf1.flags_w
    · have hgf : h0.growing = false := Bool.not_eq_true _ |>.mp hg
      rw [if_neg hg] at hmid
      cases hmid
      have hbkt : hash &&& (2 ^ h0.B - 1) < h0.buckets.length := by
        rw [hblen0]
        omega
      obtain ⟨hB', hh0', hfl', hoo', hlen', hcnt', hacc⟩ :=
        mapassignScan_ok t hctx k v hash allowGrow _ h0 h' hwf hkk hbkt heq
      refine ⟨?_, hcnt', ?_, hh0'⟩
      · have hoo2 : h'.oldbuckets = none :=
          hoo'.trans (oldbuckets_none_of_not_growing h0 hgf)
        rw [readChain_none h' hash hoo2, hB']
        exact hacc
      · rw [hfl']
        exact hwf.flags_w

/-- The restarting pass of `mapassign`: the growth trigger fired, the pass
hands back the freshly grown (still well-formed) state. -/
theorem mapassignStep_inr (t : MapType α β) (hctx : EqCtx t) (k : α) (v : β)
    (hash : Nat) (allowGrow : Bool) (h0 h2 : Hmap α β)
    (hwf : WF t h0) (hb0 : h0.buckets ≠ [])
    (heq : mapassignStep t k v hash allowGrow h0 = .inr h2) :
    WF t h2 ∧ h2.buckets ≠ [] ∧ h2.hash0 = h0.hash0 ∧ allowGrow = true := by
  unfold mapassignStep at heq
  dsimp only at heq
  split at heq
  case h_1 e hmid => cases heq
  case h_2 h1 hmid =>
    obtain ⟨hgroweq, hg1, hallow⟩ :=
      mapassignScan_inr t k v hash allowGrow _ h1 h2 heq
    have h1facts : WF t h1 ∧ h1.buckets ≠ [] ∧ h1.hash0 = h0.hash0 := by
      by_cases hg : h0.growing = true
      · rw [if_pos hg] at hmid
        obtain ⟨hwf1, h1B, h1h0, h1len, _⟩ :=
          growWork_WF t hctx h0 _ h1 hwf hmid
        refine ⟨hwf1, ?_, h1h0⟩
        intro habs
        rw [habs] at h1len
        have hblen0 : h0.buckets.length = 2 ^ h0.B := hwf.blen hb0
        have hbpos : (0:Nat) < 2 ^ h0.B := Nat.pos_pow_of_pos _ (by decide)
        rw [hblen0] at h1len
        simp at h1len
        omega
      · rw [if_neg hg] at hmid
        cases hmid
        exact ⟨hwf, hb0, rfl⟩
    obtain ⟨hwf1, hbne1, hh01⟩ := h1facts
    rw [hgroweq]
    refine ⟨hashGrow_WF t h1 hwf1 (oldbuckets_none_of_not_growing h1 hg1) hbne1,
      hashGrow_buckets_ne t h1, ?_, hallow⟩
    show h1.hash0 = h0.hash0
    exact hh01

/-- The `again:` loop of `mapassign` from any well-formed state: on success
the probe's read path answers with the stored value. -/
theorem mapassignLoop_ok (t : MapType α β) (hctx : EqCtx t) (k : α) (v : β)
    (hash : Nat) (hkk : t.equal k k = true) :
    ∀ fuel h0 h', WF t h0 → h0.buckets ≠ [] →
      mapassignLoop t k v hash fuel h0 = .ok h' →
      chainAccess t (tophashOf hash) k (readChain h' hash) = some v ∧
      h'.count ≠ 0 ∧ h'.flags &&& hashWriting = 0 ∧ h'.hash0 = h0.hash0 := by
  intro fuel
  induction fuel with
  | zero =>
    intro h0 h' hwf hb0 heq
    unfold mapassignLoop at heq
    split at heq
    case h_1 r hstep =>
      rw [heq] at hstep
      exact mapassignStep_ok t hctx k v hash false h0 h' hwf hkk hb0 hstep
    case h_2 h2 hstep =>
      have hfalse := (mapassignStep_inr t hctx k v hash false h0 h2
        hwf hb0 hstep).2.2.2
      cases hfalse
  | succ n ih =>
    intro h0 h' hwf hb0 heq
    unfold mapassignLoop at heq
    split at heq
    case h_1 r hstep =>
      rw [heq] at hstep
      exact mapassignStep_ok t hctx k v hash true h0 h' hwf hkk hb0 hstep
    case h_2 h2 hstep =>
      obtain ⟨hwf2, hbne2, hh02, _⟩ :=
        mapassignStep_inr t hctx k v hash true h0 h2 hwf hb0 hstep
      obtain ⟨hacc, hcnt, hflw, hh0⟩ := ih h2 h' hwf2 hbne2 heq
      exact ⟨hacc, hcnt, hflw, hh0.trans hh02⟩

/-- After `mapassign(k, v)` from a well-formed state, `mapaccess2(k)` hits
and returns the just-stored value (for a key that compares equal to
itself). -/
theorem mapassign_mapaccess2 (t : MapType α β) (hctx : EqCtx t)
    (h h' : Hmap α β) (k : α) (v : β) (hwf : WF t h)
    (hkk : t.equal k k = true)
    (heq : mapassign t (some h) k v = .ok h') :
    mapaccess2 t (some h') k = .ok (.valRef v, true) := by
  unfold mapassign at heq
  dsimp only at heq
  rw [if_neg (not_not_intro hwf.flags_w)] at heq
  have h1facts : ∀ h1, (if h.buckets.isEmpty then
      { h with buckets := [[newBucket]] } else h) = h1 →
      WF t h1 ∧ h1.buckets ≠ [] ∧ h1.hash0 = h.hash0 := by
    intro h1 h1eq
    by_cases hbe : h.buckets.isEmpty = true
    · rw [if_pos hbe] at h1eq
      cases h1eq
      exact ⟨WF_lazy_alloc t h hwf (List.isEmpty_iff.mp hbe), by simp, rfl⟩
    · rw [if_neg hbe] at h1eq
      cases h1eq
      refine ⟨hwf, ?_, rfl⟩
      intro habs
      exact hbe (List.isEmpty_iff.mpr habs)
  obtain ⟨hwf1, hbne1, hh01⟩ := h1facts _ rfl
  obtain ⟨hacc, hcnt, hflw, hh0⟩ :=
    mapassignLoop_ok t hctx k v (hashOf t k h.hash0) hkk _ _ h' hwf1 hbne1 heq
  have hh0' : h'.hash0 = h.hash0 := hh0.trans hh01
  unfold mapaccess2
  show (if h'.count = 0 then
      (Except.ok (Ref.zeroRef, false) : Except Fatal (Ref β × Bool))
    else if h'.flags &&& hashWriting ≠ 0 then
      Except.error Fatal.concurrentReadWrite
    else
      match chainAccess t (tophashOf (hashOf t k h'.hash0)) k
          (readChain h' (hashOf t k h'.hash0)) with
      | some w => Except.ok (Ref.valRef w, true)
      | none => Except.ok (Ref.zeroRef, false)) =
    Except.ok (Ref.valRef v, true)
  rw [if_neg hcnt, if_neg (not_not_intro hflw), hh0', hacc]

/-- Resolution of the read redirect after the write-path's `growWork`: with
the backing old bucket evacuated (or growth over), a read of `hash` lands on
the current chain the write touched. -/
theorem readChain_resolve (h0 hx : Hmap α β) (hash : Nat)
    (hB : hx.B = h0.B)
    (hcase : hx.oldbuckets = none ∨
      (∃ old1, hx.oldbuckets = some old1 ∧
        hx.isSameSizeGrow = h0.isSameSizeGrow ∧
        (h0.isSameSizeGrow = false → 1 ≤ h0.B) ∧
        evacuatedChain (old1.getD
          ((hash &&& (2 ^ h0.B - 1)) &&& h0.oldbucketmask) []) = true)) :
    readChain hx hash = hx.buckets.getD (hash &&& (2 ^ hx.B - 1)) [] := by
  rcases hcase with hnone | ⟨old1, hsome, hss, hB1, hev⟩
  · exact readChain_none hx hash hnone
  · refine readChain_evac hx hash old1 hsome ?_
    have hmask : hash &&& (if ¬ hx.isSameSizeGrow then
        (2 ^ hx.B - 1) >>> 1 else 2 ^ hx.B - 1) =
        (hash &&& (2 ^ h0.B - 1)) &&& h0.oldbucketmask := by
      rw [hss, hB]
      have hom : h0.oldbucketmask =
          2 ^ (if h0.isSameSizeGrow then h0.B else h0.B - 1) - 1 := rfl
      by_cases hss0 : h0.isSameSizeGrow = true
      · rw [if_neg (by rw [hss0]; decide), hom, if_pos hss0]
        rw [land_mask_mask hash h0.B h0.B (le_refl _)]
      · have hssf : h0.isSameSizeGrow = false := Bool.not_eq_true _ |>.mp hss0
        rw [if_pos (by rw [hssf]; decide), hom, if_neg hss0,
          mask_shift h0.B (hB1 hssf),
          land_mask_mask hash h0.B (h0.B - 1) (by omega)]
    rw [hmask]
    exact hev

/-- A lookup that misses on the read path reports a miss. -/
theorem mapaccess2_miss (t : MapType α β) (hx : Hmap α β) (k : α)
    (hflw : hx.flags &&& hashWriting = 0)
    (hacc : chainAccess t (tophashOf (hashOf t k hx.hash0)) k
      (readChain hx (hashOf t k hx.hash0)) = none) :
    mapaccess2 t (some hx) k = .ok (.zeroRef, false) := by
  unfold mapaccess2
  show (if hx.count = 0 then
      (Except.ok (Ref.zeroRef, false) : Except Fatal (Ref β × Bool))
    else if hx.flags &&& hashWriting ≠ 0 then
      Except.error Fatal.concurrentReadWrite
    else
      match chainAccess t (tophashOf (hashOf t k hx.hash0)) k
          (readChain hx (hashOf t k hx.hash0)) with
      | some w => Except.ok (Ref.valRef w, true)
      | none => Except.ok (Ref.zeroRef, false)) =
    Except.ok (Ref.zeroRef, false)
  by_cases hc : hx.count = 0
  · rw [if_pos hc]
  · rw [if_neg hc, if_neg (not_not_intro hflw), hacc]

/-- The scan of `mapdelete` (after `growWork`): the header is untouched and
afterwards the addressed chain no longer answers the probe. -/
theorem mapdeleteFinish_spec (t : MapType α β) (hctx : EqCtx t)
    (h1 : Hmap α β) (k : α) (hash bucket : Nat)
    (hwf1 : WF t h1) (hbkt : bucket < h1.buckets.length) :
    (mapdeleteFinish t k hash bucket h1).flags = h1.flags ∧
    (mapdeleteFinish t k hash bucket h1).B = h1.B ∧
    (mapdeleteFinish t k hash bucket h1).hash0 = h1.hash0 ∧
    (mapdeleteFinish t k hash bucket h1).oldbuckets = h1.oldbuckets ∧
    chainAccess t (tophashOf hash) k
      ((mapdeleteFinish t k hash bucket h1).buckets.getD bucket []) = none := by
  unfold mapdeleteFinish
  dsimp only
  split
  case h_1 c' hup =>
    refine ⟨rfl, rfl, rfl, rfl, ?_⟩
    show chainAccess t (tophashOf hash) k
      ((h1.buckets.set bucket c').getD bucket []) = none
    rw [getD_set_self h1.buckets bucket c' [] hbkt]
    exact chainAccess_after_delete t hctx (tophashOf hash) k
      (tophashOf_ge hash) _ c'
      (hwf1.cur_nodup _ (getD_mem h1.buckets bucket [] hbkt)) hup
  case h_2 hnoup =>
    refine ⟨rfl, rfl, rfl, rfl, ?_⟩
    rw [chainAccess_eq_none_iff]
    exact (chainUpdate_eq_none_iff t (tophashOf hash) k _ _).1 hnoup

/-- A lookup on a state with `count = 0` reports a miss at once. -/
theorem mapaccess2_count_zero (t : MapType α β) (hx : Hmap α β) (k : α)
    (hc : hx.count = 0) : mapaccess2 t (some hx) k = .ok (.zeroRef, false) := by
  unfold mapaccess2
  show (if hx.count = 0 then
      (Except.ok (Ref.zeroRef, false) : Except Fatal (Ref β × Bool))
    else if hx.flags &&& hashWriting ≠ 0 then
      Except.error Fatal.concurrentReadWrite
    else
      match chainAccess t (tophashOf (hashOf t k hx.hash0)) k
          (readChain hx (hashOf t k hx.hash0)) with
      | some w => Except.ok (Ref.valRef w, true)
      | none => Except.ok (Ref.zeroRef, false)) =
    Except.ok (Ref.zeroRef, false)
  rw [if_pos hc]

/-- After `mapdelete(k)` from a well-formed state, `mapaccess2(k)` misses
(for a key that compares equal to itself). -/
theorem mapdelete_mapaccess2 (t : MapType α β) (hctx : EqCtx t)
    (h h' : Hmap α β) (k : α) (hwf : WF t h)
    (hkk : t.equal k k = true)
    (heq : mapdelete t (some h) k = .ok (some h')) :
    mapaccess2 t (some h') k = .ok (.zeroRef, false) := by
  unfold mapdelete at heq
  dsimp only at heq
  by_cases hc0 : h.count = 0
  · rw [if_pos hc0] at heq
    cases heq
    exact mapaccess2_count_zero t h k hc0
  · rw [if_neg hc0, if_neg (not_not_intro hwf.flags_w)] at heq
    simp only [bind, Except.bind] at heq
    split at heq
    · cases heq
    · rename_i h1 hmid
      cases heq
      have hbne : h.buckets ≠ [] := fun habs => hc0 (hwf.bnil habs).2.1
      have hblen0 : h.buckets.length = 2 ^ h.B := hwf.blen hbne
      have hbpos : (0:Nat) < 2 ^ h.B := Nat.pos_pow_of_pos _ (by decide)
      have hble : hashOf t k h.hash0 &&& (2 ^ h.B - 1) ≤ 2 ^ h.B - 1 :=
        Nat.and_le_right
      have h1facts : WF t h1 ∧ h1.B = h.B ∧ h1.hash0 = h.hash0 ∧
          h1.buckets.length = h.buckets.length ∧
          (h1.oldbuckets = none ∨
            (∃ old1, h1.oldbuckets = some old1 ∧
              h1.isSameSizeGrow = h.isSameSizeGrow ∧
              (h.isSameSizeGrow = false → 1 ≤ h.B) ∧
              evacuatedChain (old1.getD
                ((hashOf t k h.hash0 &&& (2 ^ h.B - 1)) &&&
                  h.oldbucketmask) []) = true)) := by
        by_cases hg : h.growing = true
        · rw [if_pos hg] at hmid
          obtain ⟨hwf1, h1B, h1h0, h1len, hold⟩ :=
            growWork_WF t hctx h _ h1 hwf hmid
          refine ⟨hwf1, h1B, h1h0, h1len, ?_⟩
          cases hoo : h1.oldbuckets with
          | none => exact Or.inl rfl
          | some old1 =>
            obtain ⟨hfl1, hev⟩ := hold old1 hoo
            refine Or.inr ⟨old1, rfl, ?_, fun hssf => hwf.b0g hssf hg, hev⟩
            unfold Hmap.isSameSizeGrow
            rw [hfl1]
        · rw [if_neg hg] at hmid
          cases hmid
          exact ⟨hwf, rfl, rfl, rfl,
            Or.inl (oldbuckets_none_of_not_growing h
              (Bool.not_eq_true _ |>.mp hg))⟩
      obtain ⟨hwf1, h1B, h1h0, h1len, holdcase⟩ := h1facts
      have hbkt : hashOf t k h.hash0 &&& (2 ^ h.B - 1) < h1.buckets.length := by
        rw [h1len, hblen0]
        omega
      obtain ⟨hFfl, hFB, hFh0, hFoo, hFacc⟩ :=
        mapdeleteFinish_spec t hctx h1 k (hashOf t k h.hash0)
          (hashOf t k h.hash0 &&& (2 ^ h.B - 1)) hwf1 hbkt
      refine mapaccess2_miss t _ k (by rw [hFfl]; exact hwf1.flags_w) ?_
      rw [show (mapdeleteFinish t k (hashOf t k h.hash0)
          (hashOf t k h.hash0 &&& (2 ^ h.B - 1)) h1).hash0 = h.hash0 from
        hFh0.trans h1h0]
      rw [readChain_resolve h _ (hashOf t k h.hash0) (hFB.trans h1B) ?_]
      · rw [hFB.trans h1B]
        exact hFacc
      · rcases holdcase with hnone | ⟨old1, hsome1, hss1, hB11, hev1⟩
        · exact Or.inl (hFoo.trans hnone)
        · refine Or.inr ⟨old1, hFoo.trans hsome1, ?_, hB11, hev1⟩
          show Hmap.isSameSizeGrow (mapdeleteFinish t k (hashOf t k h.hash0)
            (hashOf t k h.hash0 &&& (2 ^ h.B - 1)) h1) = h.isSameSizeGrow
          unfold Hmap.isSameSizeGrow
          rw [hFfl]
          exact hss1

/-- The concrete integer-key descriptor satisfies the runtime's equality
contract. -/
theorem tcW_eqCtx : EqCtx tcW := by
  refine ⟨?_, ?_, ?_⟩
  · intro a b hab
    simp only [tcW, decide_eq_true_eq] at hab ⊢
    omega
  · intro a b c hab hbc
    simp only [tcW, decide_eq_true_eq] at hab hbc ⊢
    omega
  · intro a b s hab
    simp only [tcW, decide_eq_true_eq] at hab
    show a = b
    exact hab

/-- C1 (amended): from any well-formed state, for a key that compares equal
to itself (under a descriptor whose equality is a partial equivalence with
hash congruence), a `get` immediately after a successful `put` of that key
returns the just-written value, and a `get` immediately after a `delete` of
that key reports a miss.  The spec's unqualified claim over all keys is
refuted by the non-reflexive-key counterexample. -/
theorem put_get_delete_get (t : MapType α β) (hctx : EqCtx t)
    (h : Hmap α β) (k : α) (v : β) (hwf : WF t h)
    (hkk : t.equal k k = true) :
    (∀ h', mapassign t (some h) k v = .ok h' →
      mapaccess2 t (some h') k = .ok (.valRef v, true)) ∧
    (∀ h', mapdelete t (some h) k = .ok (some h') →
      mapaccess2 t (some h') k = .ok (.zeroRef, false)) :=
  ⟨fun h' heq => mapassign_mapaccess2 t hctx h h' k v hwf hkk heq,
   fun h' heq => mapdelete_mapaccess2 t hctx h h' k hwf hkk heq⟩

/-- C1 counterexample: for a key that does not compare equal to itself
(`7` under the NaN-like descriptor), a `put` succeeds and stores an entry
(`count` becomes 1), yet the immediately following `get` of the same key
misses — the claim as stated over every key is false. -/
theorem put_get_nan_counterexample :
    mapassign tcNaN (some c1base) 7 77 = .ok c1put ∧
    c1put.count = 1 ∧
    mapaccess2 tcNaN (some c1put) 7 = .ok (.zeroRef, false) := by
  refine ⟨?_, ?_, ?_⟩ <;> decide

/-- Witness: the amended C1 statement applied to the concrete fresh
integer-key map with key 5, value 55. -/
theorem put_get_delete_get_witness :
    (∀ h', mapassign tcW (some (putUpTo 0)) 5 55 = .ok h' →
      mapaccess2 tcW (some h') 5 = .ok (.valRef 55, true)) ∧
    (∀ h', mapdelete tcW (some (putUpTo 0)) 5 = .ok (some h') →
      mapaccess2 tcW (some h') 5 = .ok (.zeroRef, false)) :=
  put_get_delete_get tcW tcW_eqCtx (putUpTo 0) 5 55
    (makemap_WF tcW 0 0 (putUpTo 0) rfl) (by decide)

/-! ## C5: fast-path refinement -/

theorem faithful_eqCtx [DecidableEq α] (t : MapType α β) (hf : Faithful t) :
    EqCtx t := by
  refine ⟨?_, ?_, ?_⟩
  · intro a b hab
    rw [hf] at hab ⊢
    rw [of_decide_eq_true hab]
    exact decide_eq_true rfl
  · intro a b c hab hbc
    rw [hf] at hab hbc ⊢
    rw [of_decide_eq_true hab, of_decide_eq_true hbc]
    exact decide_eq_true rfl
  · intro a b s hab
    rw [hf] at hab
    rw [of_decide_eq_true hab]

/-- The fixed-size write scan agrees cell by cell with the generic one: the
raw key comparison is the descriptor's equality, and the update functions
agree on any matched cell. -/
theorem bucketUpdateFast_eq [DecidableEq α] (t : MapType α β) (hf : Faithful t)
    (top : Nat) (k : α) (ffast fgen : Slot α β → Slot α β)
    (hff : ∀ s : Slot α β, s.top = top → s.key = k → ffast s = fgen s) :
    ∀ b : Bucket α β, bucketUpdateFast top k ffast b =
      bucketUpdate t top k fgen b := by
  intro b
  induction b with
  | nil => rfl
  | cons s rest ih =>
    unfold bucketUpdateFast bucketUpdate
    by_cases hm : s.top = top ∧ s.key = k
    · have he : t.equal k s.key = true := by
        rw [hf k s.key]
        exact decide_eq_true hm.2.symm
      rw [if_pos hm, if_pos ⟨hm.1, he⟩, hff s hm.1 hm.2]
    · have hne : ¬ (s.top = top ∧ t.equal k s.key = true) := by
        intro hc
        refine hm ⟨hc.1, ?_⟩
        have h2 := hc.2
        rw [hf] at h2
        exact (of_decide_eq_true h2).symm
      rw [if_neg hm, if_neg hne, ih]

theorem chainUpdateFast_eq [DecidableEq α] (t : MapType α β) (hf : Faithful t)
    (top : Nat) (k : α) (ffast fgen : Slot α β → Slot α β)
    (hff : ∀ s : Slot α β, s.top = top → s.key = k → ffast s = fgen s) :
    ∀ c : Chain α β, chainUpdateFast top k ffast c =
      chainUpdate t top k fgen c := by
  intro c
  induction c with
  | nil => rfl
  | cons b rest ih =>
    unfold chainUpdateFast chainUpdate
    rw [bucketUpdateFast_eq t hf top k ffast fgen hff b, ih]

/-- The value-store update functions of the fast and generic assign scans
agree on a matched cell. -/
theorem assign_update_funs_agree (t : MapType α β) (k : α) (v : β) :
    ∀ s : Slot α β, s.top = tophashOf 0 → s.key = k →
      ({ s with val := v } : Slot α β) =
      { s with key := if t.needkeyupdate then k else s.key, val := v } := by
  intro s _ hk
  have hkey : (if t.needkeyupdate then k else s.key) = s.key := by
    split
    · exact hk.symm
    · rfl
  rw [hkey]

theorem mapassignScanFast_eq [DecidableEq α] (t : MapType α β) (hf : Faithful t)
    (k : α) (v : β) (hash : Nat) (allowGrow : Bool) (bucket : Nat)
    (h : Hmap α β) :
    mapassignScanFast t k v hash allowGrow bucket h =
      mapassignScan t k v hash allowGrow bucket h := by
  have hff : ∀ s : Slot α β, s.top = tophashOf hash → s.key = k →
      ({ s with val := v } : Slot α β) =
      { s with key := if t.needkeyupdate then k else s.key, val := v } := by
    intro s _ hk
    have hkey : (if t.needkeyupdate then k else s.key) = s.key := by
      split
      · exact hk.symm
      · rfl
    rw [hkey]
  unfold mapassignScanFast mapassignScan
  dsimp only
  rw [chainUpdateFast_eq t hf (tophashOf hash) k _ _ hff]

theorem mapassignStepFast_eq [DecidableEq α] (t : MapType α β) (hf : Faithful t)
    (k : α) (v : β) (hash : Nat) (allowGrow : Bool) (h0 : Hmap α β) :
    mapassignStepFast t k v hash allowGrow h0 =
      mapassignStep t k v hash allowGrow h0 := by
  unfold mapassignStepFast mapassignStep
  dsimp only
  split
  · rfl
  · exact mapassignScanFast_eq t hf k v hash allowGrow _ _

theorem mapassignLoopFast_eq [DecidableEq α] (t : MapType α β) (hf : Faithful t)
    (k : α) (v : β) (hash : Nat) :
    ∀ fuel h0, mapassignLoopFast t k v hash fuel h0 =
      mapassignLoop t k v hash fuel h0 := by
  intro fuel
  induction fuel with
  | zero =>
    intro h0
    unfold mapassignLoopFast mapassignLoop
    rw [mapassignStepFast_eq t hf k v hash false h0]
  | succ n ih =>
    intro h0
    unfold mapassignLoopFast mapassignLoop
    rw [mapassignStepFast_eq t hf k v hash true h0]
    split
    · rfl
    · exact ih _

/-- C5, write path, 4-byte keys: `mapassign_fast32` computes exactly
`mapassign` on every input. -/
theorem mapassign_fast32_eq [DecidableEq α] (t : MapType α β) (hf : Faithful t)
    (h? : Option (Hmap α β)) (k : α) (v : β) :
    mapassign_fast32 t h? k v = mapassign t h? k v := by
  unfold mapassign_fast32 mapassign
  cases h? with
  | none => rfl
  | some h =>
    dsimp only
    split
    · rfl
    · exact mapassignLoopFast_eq t hf k v _ _ _

/-- C5, write path, 8-byte keys. -/
theorem mapassign_fast64_eq [DecidableEq α] (t : MapType α β) (hf : Faithful t)
    (h? : Option (Hmap α β)) (k : α) (v : β) :
    mapassign_fast64 t h? k v = mapassign t h? k v := by
  unfold mapassign_fast64 mapassign
  cases h? with
  | none => rfl
  | some h =>
    dsimp only
    split
    · rfl
    · exact mapassignLoopFast_eq t hf k v _ _ _

/-- C5, delete path, 4-byte keys. -/
theorem mapdelete_fast32_eq [DecidableEq α] (t : MapType α β) (hf : Faithful t)
    (h? : Option (Hmap α β)) (k : α) :
    mapdelete_fast32 t h? k = mapdelete t h? k := by
  unfold mapdelete_fast32 mapdelete mapdeleteFinish
  cases h? with
  | none => rfl
  | some h =>
    dsimp only
    by_cases hc : h.count = 0
    · rw [if_pos hc, if_pos hc]
    · rw [if_neg hc, if_neg hc]
      by_cases hw : h.flags &&& hashWriting ≠ 0
      · rw [if_pos hw, if_pos hw]
      · rw [if_neg hw, if_neg hw]
        cases hE : (if h.growing = true then
            growWork t h (hashOf t k h.hash0 &&& (2 ^ h.B - 1))
          else Except.ok h) with
        | error e => rfl
        | ok h1 =>
          simp only [Except.bind]
          cases hX : chainUpdate t (tophashOf (hashOf t k h.hash0)) k
              (fun _ => emptySlot)
              (h1.buckets.getD (hashOf t k h.hash0 &&& (2 ^ h.B - 1)) []) with
          | some c2 =>
            rw [chainUpdateFast_eq t hf
              (tophashOf (hashOf t k h.hash0)) k (fun _ => emptySlot)
              (fun _ => emptySlot) (fun _ _ _ => rfl), hX]
          | none =>
            rw [chainUpdateFast_eq t hf
              (tophashOf (hashOf t k h.hash0)) k (fun _ => emptySlot)
              (fun _ => emptySlot) (fun _ _ _ => rfl), hX]

/-- C5, delete path, 8-byte keys. -/
theorem mapdelete_fast64_eq [DecidableEq α] (t : MapType α β) (hf : Faithful t)
    (h? : Option (Hmap α β)) (k : α) :
    mapdelete_fast64 t h? k = mapdelete t h? k := by
  unfold mapdelete_fast64 mapdelete mapdeleteFinish
  cases h? with
  | none => rfl
  | some h =>
    dsimp only
    by_cases hc : h.count = 0
    · rw [if_pos hc, if_pos hc]
    · rw [if_neg hc, if_neg hc]
      by_cases hw : h.flags &&& hashWriting ≠ 0
      · rw [if_pos hw, if_pos hw]
      · rw [if_neg hw, if_neg hw]
        cases hE : (if h.growing = true then
            growWork t h (hashOf t k h.hash0 &&& (2 ^ h.B - 1))
          else Except.ok h) with
        | error e => rfl
        | ok h1 =>
          simp only [Except.bind]
          cases hX : chainUpdate t (tophashOf (hashOf t k h.hash0)) k
              (fun _ => emptySlot)
              (h1.buckets.getD (hashOf t k h.hash0 &&& (2 ^ h.B - 1)) []) with
          | some c2 =>
            rw [chainUpdateFast_eq t hf
              (tophashOf (hashOf t k h.hash0)) k (fun _ => emptySlot)
              (fun _ => emptySlot) (fun _ _ _ => rfl), hX]
          | none =>
            rw [chainUpdateFast_eq t hf
              (tophashOf (hashOf t k h.hash0)) k (fun _ => emptySlot)
              (fun _ => emptySlot) (fun _ _ _ => rfl), hX]

/-- The fixed-size lookup scan agrees cell by cell with the generic one on a
clean, tag-consistent bucket: on a live cell the raw key equality forces the
tag equality and conversely. -/
theorem bucketAccessFast_eq [DecidableEq α] (t : MapType α β) (hf : Faithful t)
    (k : α) (hash0 : Nat) :
    ∀ b : Bucket α β,
      (∀ s ∈ b, (s.top = emptyCell ∨ minTopHash ≤ s.top)) →
      (∀ s ∈ b, minTopHash ≤ s.top →
        s.top = tophashOf (hashOf t s.key hash0)) →
      bucketAccessFast k b =
        bucketAccess t (tophashOf (hashOf t k hash0)) k b := by
  intro b
  induction b with
  | nil =>
    intro _ _
    rfl
  | cons s rest ih =>
    intro hclean htags
    unfold bucketAccessFast bucketAccess
    have hiff : (s.key = k ∧ s.top ≠ emptyCell) ↔
        (s.top = tophashOf (hashOf t k hash0) ∧ t.equal k s.key = true) := by
      constructor
      · intro ⟨hk, hne⟩
        have hlive : minTopHash ≤ s.top := by
          rcases hclean s (List.mem_cons_self s rest) with h0 | h4
          · exact absurd h0 hne
          · exact h4
        have htag := htags s (List.mem_cons_self s rest) hlive
        rw [hk] at htag
        refine ⟨htag, ?_⟩
        rw [hf]
        exact decide_eq_true hk.symm
      · intro ⟨htop, heq⟩
        rw [hf] at heq
        have hk := (of_decide_eq_true heq).symm
        refine ⟨hk, ?_⟩
        intro h0
        rw [htop] at h0
        have h4 := tophashOf_ge (hashOf t k hash0)
        rw [h0] at h4
        exact absurd h4 (by decide)
    by_cases hfast : s.key = k ∧ s.top ≠ emptyCell
    · rw [if_pos hfast, if_pos (hiff.mp hfast)]
    · rw [if_neg hfast, if_neg (fun hg => hfast (hiff.mpr hg))]
      exact ih (fun x hx => hclean x (List.mem_cons_of_mem s hx))
        (fun x hx => htags x (List.mem_cons_of_mem s hx))

theorem chainAccessFast_eq [DecidableEq α] (t : MapType α β) (hf : Faithful t)
    (k : α) (hash0 : Nat) :
    ∀ c : Chain α β, cleanChain c →
      (∀ s ∈ chainSlots c, minTopHash ≤ s.top →
        s.top = tophashOf (hashOf t s.key hash0)) →
      chainAccessFast k c =
        chainAccess t (tophashOf (hashOf t k hash0)) k c := by
  intro c
  induction c with
  | nil =>
    intro _ _
    rfl
  | cons b rest ih =>
    intro hclean htags
    have hmemb : ∀ s ∈ b, s ∈ chainSlots (b :: rest) := by
      intro s hs
      show s ∈ (b :: rest).flatten
      rw [List.flatten_cons]
      exact List.mem_append_left _ hs
    have hmemr : ∀ s ∈ chainSlots rest, s ∈ chainSlots (b :: rest) := by
      intro s hs
      show s ∈ (b :: rest).flatten
      rw [List.flatten_cons]
      exact List.mem_append_right _ hs
    unfold chainAccessFast chainAccess
    rw [bucketAccessFast_eq t hf k hash0 b
      (fun s hs => hclean s (hmemb s hs))
      (fun s hs => htags s (hmemb s hs))]
    split
    · rfl
    · exact ih (fun s hs => hclean s (hmemr s hs))
        (fun s hs => htags s (hmemr s hs))

/-- The chain a read addresses in a tag-consistent state is clean and
tag-consistent (for a faithful descriptor). -/
theorem readChain_cleanTags [DecidableEq α] (t : MapType α β) (hf : Faithful t)
    (h : Hmap α β) (hwft : WFT t h) (hash : Nat) :
    cleanChain (readChain h hash) ∧
    (∀ s ∈ chainSlots (readChain h hash), minTopHash ≤ s.top →
      s.top = tophashOf (hashOf t s.key h.hash0)) := by
  have hcur : ∀ i, cleanChain (h.buckets.getD i []) ∧
      (∀ s ∈ chainSlots (h.buckets.getD i []), minTopHash ≤ s.top →
        s.top = tophashOf (hashOf t s.key h.hash0)) := by
    intro i
    by_cases hi : i < h.buckets.length
    · have hm := getD_mem h.buckets i [] hi
      exact ⟨hwft.cur_clean _ hm,
        fun s hs hl => hwft.cur_tags _ hm s hs hl (by rw [hf]; exact decide_eq_true rfl)⟩
    · rw [List.getD_eq_default h.buckets [] (by omega)]
      refine ⟨?_, ?_⟩
      · intro s hs
        cases hs
      · intro s hs
        cases hs
  unfold readChain
  cases hoo : h.oldbuckets with
  | none => exact hcur _
  | some old =>
    dsimp only
    by_cases hunev : evacuatedChain (old.getD (hash &&&
        (if ¬ h.isSameSizeGrow then (2 ^ h.B - 1) >>> 1
          else 2 ^ h.B - 1)) []) = true
    · rw [if_neg (not_not_intro hunev)]
      exact hcur _
    · rw [if_pos hunev]
      by_cases hi : (hash &&& (if ¬ h.isSameSizeGrow then
          (2 ^ h.B - 1) >>> 1 else 2 ^ h.B - 1)) < old.length
      · have hm := getD_mem old _ [] hi
        have hshape := hwft.old_shape old hoo _ hm
        rcases hwft.old_state old hoo _ hm with hmk | ⟨hcl, _⟩
        · exact absurd (markedChain_evacuated _ hshape hmk) hunev
        · exact ⟨hcl, fun s hs hl => hwft.old_tags old hoo _ hm s hs hl
            (by rw [hf]; exact decide_eq_true rfl)⟩
      · rw [List.getD_eq_default old [] (by omega)]
        refine ⟨?_, ?_⟩
        · intro s hs
          cases hs
        · intro s hs
          cases hs

/-- A one-bucket table (`B = 0`) is never mid-growth in a well-formed
state, so its read path is bucket 0 of the current array — the bucket the
fast paths scan without hashing. -/
theorem readChain_B0 (t : MapType α β) (h : Hmap α β) (hwft : WFT t h)
    (hB0 : h.B = 0) (hash : Nat) :
    readChain h hash = h.buckets.getD 0 [] := by
  have hng : h.growing = false := by
    cases hg : h.growing with
    | false => rfl
    | true =>
      have h1 := hwft.grow_B1 hg
      omega
  rw [readChain_none h hash (oldbuckets_none_of_not_growing h hng), hB0]
  rw [show (2:Nat) ^ 0 - 1 = 0 from rfl, Nat.and_zero]

/-- The chain the fixed-size fast lookups scan answers exactly like the
generic read path. -/
theorem fastAccessChain_eq [DecidableEq α] (t : MapType α β) (hf : Faithful t)
    (h : Hmap α β) (hwft : WFT t h) (k : α) :
    chainAccessFast k (if h.B = 0 then h.buckets.getD 0 []
      else readChain h (hashOf t k h.hash0)) =
    chainAccess t (tophashOf (hashOf t k h.hash0)) k
      (readChain h (hashOf t k h.hash0)) := by
  obtain ⟨hcl, htg⟩ := readChain_cleanTags t hf h hwft (hashOf t k h.hash0)
  by_cases hB0 : h.B = 0
  · rw [if_pos hB0]
    rw [readChain_B0 t h hwft hB0 (hashOf t k h.hash0)] at hcl htg ⊢
    exact chainAccessFast_eq t hf k h.hash0 _ hcl htg
  · rw [if_neg hB0]
    exact chainAccessFast_eq t hf k h.hash0 _ hcl htg

/-- C5, lookup path, 4-byte keys, two-result form. -/
theorem mapaccess2_fast32_eq [DecidableEq α] (t : MapType α β)
    (hf : Faithful t) (h : Hmap α β) (hwft : WFT t h) (k : α) :
    mapaccess2_fast32 t (some h) k = mapaccess2 t (some h) k := by
  unfold mapaccess2_fast32 mapaccess2
  dsimp only
  by_cases hc : h.count = 0
  · rw [if_pos hc, if_pos hc]
  · rw [if_neg hc, if_neg hc]
    by_cases hw : h.flags &&& hashWriting ≠ 0
    · rw [if_pos hw, if_pos hw]
    · rw [if_neg hw, if_neg hw, fastAccessChain_eq t hf h hwft k]

/-- C5, lookup path, 4-byte keys, one-result form. -/
theorem mapaccess1_fast32_eq [DecidableEq α] (t : MapType α β)
    (hf : Faithful t) (h : Hmap α β) (hwft : WFT t h) (k : α) :
    mapaccess1_fast32 t (some h) k = mapaccess1 t (some h) k := by
  unfold mapaccess1_fast32 mapaccess1
  dsimp only
  by_cases hc : h.count = 0
  · rw [if_pos hc, if_pos hc]
  · rw [if_neg hc, if_neg hc]
    by_cases hw : h.flags &&& hashWriting ≠ 0
    · rw [if_pos hw, if_pos hw]
    · rw [if_neg hw, if_neg hw, fastAccessChain_eq t hf h hwft k]

/-- C5, lookup path, 8-byte keys, two-result form. -/
theorem mapaccess2_fast64_eq [DecidableEq α] (t : MapType α β)
    (hf : Faithful t) (h : Hmap α β) (hwft : WFT t h) (k : α) :
    mapaccess2_fast64 t (some h) k = mapaccess2 t (some h) k := by
  unfold mapaccess2_fast64 mapaccess2
  dsimp only
  by_cases hc : h.count = 0
  · rw [if_pos hc, if_pos hc]
  · rw [if_neg hc, if_neg hc]
    by_cases hw : h.flags &&& hashWriting ≠ 0
    · rw [if_pos hw, if_pos hw]
    · rw [if_neg hw, if_neg hw, fastAccessChain_eq t hf h hwft k]

/-- C5, lookup path, 8-byte keys, one-result form. -/
theorem mapaccess1_fast64_eq [DecidableEq α] (t : MapType α β)
    (hf : Faithful t) (h : Hmap α β) (hwft : WFT t h) (k : α) :
    mapaccess1_fast64 t (some h) k = mapaccess1 t (some h) k := by
  unfold mapaccess1_fast64 mapaccess1
  dsimp only
  by_cases hc : h.count = 0
  · rw [if_pos hc, if_pos hc]
  · rw [if_neg hc, if_neg hc]
    by_cases hw : h.flags &&& hashWriting ≠ 0
    · rw [if_pos hw, if_pos hw]
    · rw [if_neg hw, if_neg hw, fastAccessChain_eq t hf h hwft k]

/-- A fresh map is tag-consistent (no live cells at all). -/
theorem WFT_fresh (t : MapType α β) (B0 h0 : Nat) :
    WFT t { count := 0, flags := 0, B := B0, noverflow := 0, hash0 := h0,
            buckets := if B0 = 0 then [] else
              List.replicate (2 ^ B0) ([newBucket] : Chain α β),
            oldbuckets := none, nevacuate := 0, rc := 0 } := by
  refine ⟨WF_fresh t B0 h0, ?_, ?_, ?_, ?_, ?_⟩
  · intro c hc s hs hl _
    have hc' : c ∈ (if B0 = 0 then ([] : List (Chain α β)) else
        List.replicate (2 ^ B0) ([newBucket] : Chain α β)) := hc
    by_cases hB : B0 = 0
    · rw [if_pos hB] at hc'
      cases hc'
    · rw [if_neg hB] at hc'
      rw [List.eq_of_mem_replicate hc'] at hs
      simp only [chainSlots, List.flatten_cons, List.flatten_nil,
        List.append_nil, newBucket] at hs
      rw [List.eq_of_mem_replicate hs,
        show (emptySlot : Slot α β).top = 0 from rfl] at hl
      exact absurd hl (by decide)
  · intro old hsome
    have hs' : (none : Option (List (Chain α β))) = some old := hsome
    cases hs'
  · intro _
    rfl
  · intro hB c hc
    have hc' : c ∈ (if B0 = 0 then ([] : List (Chain α β)) else
        List.replicate (2 ^ B0) ([newBucket] : Chain α β)) := hc
    have hB0 : B0 = 0 := hB
    rw [if_pos hB0] at hc'
    cases hc'
  · intro hg
    have hg' : (none : Option (List (Chain α β))).isSome = true := hg
    simp at hg'

theorem WFT_makemap (t : MapType α β) (hint : Int) (h0 : Nat) (h : Hmap α β)
    (heq : makemap t hint h0 = .ok h) : WFT t h := by
  unfold makemap at heq
  split at heq
  · cases heq
  · cases heq
    exact WFT_fresh t _ _

theorem WFT_lazy_alloc (t : MapType α β) (h : Hmap α β) (hwft : WFT t h)
    (hb : h.buckets = []) : WFT t { h with buckets := [[newBucket]] } := by
  obtain ⟨hB0, hc0, hon⟩ := hwft.bnil hb
  refine ⟨WF_lazy_alloc t h hwft.toWF hb, ?_, ?_, ?_, ?_, ?_⟩
  · intro c hc s hs hl _
    have hc' : c ∈ ([[newBucket]] : List (Chain α β)) := hc
    rw [List.mem_singleton.mp hc'] at hs
    simp only [chainSlots, List.flatten_cons, List.flatten_nil,
      List.append_nil, newBucket] at hs
    rw [List.eq_of_mem_replicate hs,
      show (emptySlot : Slot α β).top = 0 from rfl] at hl
    exact absurd hl (by decide)
  · intro old hsome
    have hs' : h.oldbuckets = some old := hsome
    rw [hon] at hs'
    cases hs'
  · intro _
    exact hwft.b0nov hB0
  · intro _ c hc
    have hc' : c ∈ ([[newBucket]] : List (Chain α β)) := hc
    rw [List.mem_singleton.mp hc']
    rfl
  · intro hg
    have hg' : h.oldbuckets.isSome = true := hg
    rw [hon] at hg'
    simp at hg'

/-- `hashGrow` from a non-growing tag-consistent state keeps tag
consistency: the old generation inherits the previous chains unchanged, the
new generation is all fresh. -/
theorem hashGrow_WFT (t : MapType α β) (h : Hmap α β) (hwft : WFT t h)
    (hob : h.oldbuckets = none) (hbne : h.buckets ≠ [])
    (htrig : overLoadFactor h.count h.B = true ∨
      tooManyOverflowBuckets h.noverflow h.B = true) :
    WFT t (hashGrow t h) ∧ 1 ≤ (hashGrow t h).B := by
  have hB1 : 1 ≤ h.B + (if overLoadFactor h.count h.B then 1 else 0) := by
    by_cases hov : overLoadFactor h.count h.B = true
    · rw [hov]
      simp
    · by_cases hB0 : h.B = 0
      · rcases htrig with ho | htm
        · exact absurd ho hov
        · rw [hB0] at htm
          unfold tooManyOverflowBuckets at htm
          rw [if_pos (by decide)] at htm
          have hnov := hwft.b0nov hB0
          rw [hnov] at htm
          exact absurd (of_decide_eq_true htm) (by decide)
      · omega
  have hBval : (hashGrow t h).B =
      h.B + (if overLoadFactor h.count h.B then 1 else 0) := rfl
  refine ⟨⟨hashGrow_WF t h hwft.toWF hob hbne, ?_, ?_, ?_, ?_, ?_⟩, ?_⟩
  · -- cur_tags: fresh buckets, no live cells
    intro c hc s hs hl _
    have hc' : c ∈ List.replicate
        (2 ^ (h.B + if overLoadFactor h.count h.B then 1 else 0))
        ([newBucket] : Chain α β) := hc
    rw [List.eq_of_mem_replicate hc'] at hs
    simp only [chainSlots, List.flatten_cons, List.flatten_nil,
      List.append_nil, newBucket] at hs
    rw [List.eq_of_mem_replicate hs,
      show (emptySlot : Slot α β).top = 0 from rfl] at hl
    exact absurd hl (by decide)
  · -- old_tags: the previous current chains, hash0 unchanged
    intro old hsome c hc s hs hl hr
    have hs' : some h.buckets = some old := hsome
    cases hs'
    exact hwft.cur_tags c hc s hs hl hr
  · intro hB
    rw [hBval] at hB
    omega
  · intro hB
    rw [hBval] at hB
    omega
  · intro _
    rw [hBval]
    exact hB1
  · rw [hBval]
    exact hB1

theorem chainSlots_mid (cp : Chain α β) (p : List (Slot α β)) (s : Slot α β)
    (q : List (Slot α β)) (cq : Chain α β) :
    chainSlots (cp ++ (p ++ s :: q) :: cq) =
    (chainSlots cp ++ p) ++ s :: (q ++ chainSlots cq) := by
  rw [chainSlots_decomp_eq]
  simp [List.append_assoc]

theorem live_len_mid (A B : List (Slot α β)) (s : Slot α β) :
    ((A ++ s :: B).filter (fun x => decide (minTopHash ≤ x.top))).length =
    (A.filter (fun x => decide (minTopHash ≤ x.top))).length +
    (if minTopHash ≤ s.top then 1 else 0) +
    (B.filter (fun x => decide (minTopHash ≤ x.top))).length := by
  rw [List.filter_append, List.length_append, List.filter_cons]
  by_cases hl : minTopHash ≤ s.top
  · rw [if_pos (by simpa using hl), if_pos hl, List.length_cons]
    omega
  · rw [if_neg (by simpa using hl), if_neg hl]
    omega

theorem pairwise_replace {R : Slot α β → Slot α β → Prop}
    (A B : List (Slot α β)) (s0 s1 : Slot α β)
    (hp : (A ++ s0 :: B).Pairwise R)
    (h1 : ∀ x, R x s0 → R x s1) (h2 : ∀ x, R s0 x → R s1 x) :
    (A ++ s1 :: B).Pairwise R := by
  rw [List.pairwise_append] at hp ⊢
  obtain ⟨hA, hB0, hAB⟩ := hp
  rw [List.pairwise_cons] at hB0 ⊢
  refine ⟨hA, ⟨fun b hb => h2 b (hB0.1 b hb), hB0.2⟩, ?_⟩
  intro a ha b hb
  rcases List.mem_cons.1 hb with rfl | hb2
  · exact h1 a (hAB a ha s0 (List.mem_cons_self s0 B))
  · exact hAB a ha b (List.mem_cons_of_mem s0 hb2)

theorem pairwise_remove {R : Slot α β → Slot α β → Prop}
    (A B : List (Slot α β)) (s0 : Slot α β)
    (hp : (A ++ s0 :: B).Pairwise R) : (A ++ B).Pairwise R := by
  refine List.Pairwise.sublist ?_ hp
  exact List.Sublist.append_left (List.sublist_cons_self s0 B) A

theorem pairwise_insert {R : Slot α β → Slot α β → Prop}
    (A B : List (Slot α β)) (s1 : Slot α β)
    (hp : (A ++ B).Pairwise R)
    (h1 : ∀ x ∈ A, R x s1) (h2 : ∀ x ∈ B, R s1 x) :
    (A ++ s1 :: B).Pairwise R := by
  rw [List.pairwise_append] at hp ⊢
  obtain ⟨hA, hB, hAB⟩ := hp
  rw [List.pairwise_cons]
  refine ⟨hA, ⟨h2, hB⟩, ?_⟩
  intro a ha b hb
  rcases List.mem_cons.1 hb with rfl | hb2
  · exact h1 a ha
  · exact hAB a ha b hb2

theorem replace_shape (cp : Chain α β) (p : List (Slot α β)) (s0 s1 : Slot α β)
    (q : List (Slot α β)) (cq : Chain α β)
    (hs : ChainShape (cp ++ (p ++ s0 :: q) :: cq)) :
    ChainShape (cp ++ (p ++ s1 :: q) :: cq) := by
  obtain ⟨hne, hlen⟩ := hs
  refine ⟨by simp, ?_⟩
  intro b hb
  rcases List.mem_append.1 hb with hb1 | hb2
  · exact hlen b (List.mem_append_left _ hb1)
  · rcases List.mem_cons.1 hb2 with rfl | hb3
    · have := hlen (p ++ s0 :: q)
        (List.mem_append_right _ (List.mem_cons_self _ _))
      simp only [List.length_append, List.length_cons] at this ⊢
      omega
    · exact hlen b (List.mem_append_right _ (List.mem_cons_of_mem _ hb3))

theorem replace_slots_mem (cp : Chain α β) (p : List (Slot α β))
    (s0 s1 : Slot α β) (q : List (Slot α β)) (cq : Chain α β)
    (x : Slot α β) (hx : x ∈ chainSlots (cp ++ (p ++ s1 :: q) :: cq)) :
    x = s1 ∨ x ∈ chainSlots (cp ++ (p ++ s0 :: q) :: cq) := by
  rw [chainSlots_mid] at hx
  rw [chainSlots_mid]
  rcases List.mem_append.1 hx with hx1 | hx2
  · exact Or.inr (List.mem_append_left _ hx1)
  · rcases List.mem_cons.1 hx2 with rfl | hx3
    · exact Or.inl rfl
    · exact Or.inr (List.mem_append_right _ (List.mem_cons_of_mem _ hx3))

theorem bucketInsertEmpty_decomp' (s' : Slot α β) :
    ∀ (b b' : Bucket α β), bucketInsertEmpty s' b = some b' →
    ∃ p e q, b = p ++ e :: q ∧ b' = p ++ s' :: q ∧ e.top = emptyCell ∧
      ∀ x ∈ p, x.top ≠ emptyCell := by
  intro b
  induction b with
  | nil => intro b' h; cases h
  | cons x rest ih =>
    intro b' hins
    unfold bucketInsertEmpty at hins
    by_cases hx : x.top = emptyCell
    · rw [if_pos hx] at hins
      cases hins
      exact ⟨[], x, rest, rfl, rfl, hx, by intro y hy; cases hy⟩
    · rw [if_neg hx] at hins
      cases hb2 : bucketInsertEmpty s' rest with
      | none => rw [hb2] at hins; cases hins
      | some rb =>
        rw [hb2] at hins
        cases hins
        obtain ⟨p, e, q, h1, h2, he, hp⟩ := ih rb hb2
        refine ⟨x :: p, e, q, by rw [List.cons_append, ← h1],
          by rw [List.cons_append, ← h2], he, ?_⟩
        intro y hy
        rcases List.mem_cons.1 hy with rfl | hy2
        · exact hx
        · exact hp y hy2

theorem chainInsertEmpty_decomp' (s' : Slot α β) :
    ∀ (c c' : Chain α β), chainInsertEmpty s' c = some c' →
    ∃ cp p e q cq, c = cp ++ (p ++ e :: q) :: cq ∧
      c' = cp ++ (p ++ s' :: q) :: cq ∧ e.top = emptyCell := by
  intro c
  induction c with
  | nil => intro c' h; cases h
  | cons b rest ih =>
    intro c' hins
    unfold chainInsertEmpty at hins
    cases hb : bucketInsertEmpty s' b with
    | some b2 =>
      rw [hb] at hins
      cases hins
      obtain ⟨p, e, q, h1, h2, he, _⟩ := bucketInsertEmpty_decomp' s' b b2 hb
      exact ⟨[], p, e, q, rest, by rw [List.nil_append, ← h1],
        by rw [List.nil_append, ← h2], he⟩
    | none =>
      rw [hb] at hins
      cases hr : chainInsertEmpty s' rest with
      | none => rw [hr] at hins; cases hins
      | some rc =>
        rw [hr] at hins
        cases hins
        obtain ⟨cp, p, e, q, cq, h1, h2, he⟩ := ih rc hr
        exact ⟨b :: cp, p, e, q, cq, by rw [List.cons_append, ← h1],
          by rw [List.cons_append, ← h2], he⟩

theorem bucketInsertEmpty_eq_none_iff (s' : Slot α β) (b : Bucket α β) :
    bucketInsertEmpty s' b = none ↔ ∀ x ∈ b, x.top ≠ emptyCell := by
  induction b with
  | nil => simp [bucketInsertEmpty]
  | cons x rest ih =>
    unfold bucketInsertEmpty
    by_cases hx : x.top = emptyCell
    · rw [if_pos hx]
      constructor
      · intro hc; cases hc
      · intro hall
        exact absurd hx (hall x (List.mem_cons_self x rest))
    · rw [if_neg hx]
      constructor
      · intro hmap
        cases hb2 : bucketInsertEmpty s' rest with
        | some rb =>
          rw [hb2] at hmap
          cases hmap
        | none =>
          intro y hy
          rcases List.mem_cons.1 hy with rfl | hy2
          · exact hx
          · exact (ih.1 hb2) y hy2
      · intro hall
        rw [ih.2 (fun y hy => hall y (List.mem_cons_of_mem x hy))]
        rfl

theorem chainInsertEmpty_eq_none_iff (s' : Slot α β) (c : Chain α β) :
    chainInsertEmpty s' c = none ↔ ∀ x ∈ chainSlots c, x.top ≠ emptyCell := by
  induction c with
  | nil => simp [chainInsertEmpty, chainSlots]
  | cons b rest ih =>
    unfold chainInsertEmpty
    constructor
    · intro hc
      cases hb : bucketInsertEmpty s' b with
      | some b2 =>
        rw [hb] at hc
        cases hc
      | none =>
        rw [hb] at hc
        intro x hx
        rw [show chainSlots (b :: rest) = b ++ chainSlots rest from
          List.flatten_cons] at hx
        rcases List.mem_append.1 hx with hx1 | hx2
        · exact (bucketInsertEmpty_eq_none_iff s' b).1 hb x hx1
        · cases hr : chainInsertEmpty s' rest with
          | some rc =>
            rw [hr] at hc
            cases hc
          | none => exact (ih.1 hr) x hx2
    · intro hall
      have hb : bucketInsertEmpty s' b = none := by
        rw [bucketInsertEmpty_eq_none_iff]
        intro x hx
        refine hall x ?_
        rw [show chainSlots (b :: rest) = b ++ chainSlots rest from
          List.flatten_cons]
        exact List.mem_append_left _ hx
      rw [hb, ih.2 (fun x hx => hall x (by
        rw [show chainSlots (b :: rest) = b ++ chainSlots rest from
          List.flatten_cons]
        exact List.mem_append_right _ hx))]
      rfl

theorem genLive_ge (g : List (Chain α β)) (c : Chain α β) (hc : c ∈ g) :
    (liveSlots c).length ≤ genLive g :=
  List.single_le_sum (by intro x hx; omega) _
    (List.mem_map_of_mem (fun c => (liveSlots c).length) hc)

theorem filter_mid_live (A B : List (Slot α β)) (s : Slot α β)
    (hl : minTopHash ≤ s.top) :
    (A ++ s :: B).filter (fun x => decide (minTopHash ≤ x.top)) =
    A.filter (fun x => decide (minTopHash ≤ x.top)) ++
      s :: B.filter (fun x => decide (minTopHash ≤ x.top)) := by
  rw [List.filter_append, List.filter_cons, if_pos (by simpa using hl)]

theorem filter_mid_dead (A B : List (Slot α β)) (s : Slot α β)
    (hl : ¬ minTopHash ≤ s.top) :
    (A ++ s :: B).filter (fun x => decide (minTopHash ≤ x.top)) =
    A.filter (fun x => decide (minTopHash ≤ x.top)) ++
      B.filter (fun x => decide (minTopHash ≤ x.top)) := by
  rw [List.filter_append, List.filter_cons, if_neg (by simpa using hl)]

theorem replace_len (cp : Chain α β) (p : List (Slot α β)) (s0 s1 : Slot α β)
    (q : List (Slot α β)) (cq : Chain α β) :
    (cp ++ (p ++ s1 :: q) :: cq).length = (cp ++ (p ++ s0 :: q) :: cq).length := by
  simp

/-- The in-place update of `mapassign`'s hit case preserves every per-chain
invariant and the live count. -/
theorem update_chain_WFT (t : MapType α β) (hctx : EqCtx t) (k : α) (v : β)
    (hash0 : Nat) (c c' : Chain α β)
    (hup : chainUpdate t (tophashOf (hashOf t k hash0)) k
      (fun s => { s with key := if t.needkeyupdate then k else s.key, val := v })
      c = some c')
    (hshape : ChainShape c) (hclean : cleanChain c) (hnodup : chainNoDup t c)
    (htags : ∀ s ∈ chainSlots c, minTopHash ≤ s.top →
      t.equal s.key s.key = true → s.top = tophashOf (hashOf t s.key hash0)) :
    ChainShape c' ∧ cleanChain c' ∧ chainNoDup t c' ∧
    (∀ s ∈ chainSlots c', minTopHash ≤ s.top →
      t.equal s.key s.key = true → s.top = tophashOf (hashOf t s.key hash0)) ∧
    (liveSlots c').length = (liveSlots c).length ∧ c'.length = c.length := by
  obtain ⟨cp, p, s0, q, cq, hc, hc', hms, _, _⟩ :=
    chainUpdate_eq_some_decomp t _ k _ c c' hup
  have htop4 : minTopHash ≤ tophashOf (hashOf t k hash0) :=
    tophashOf_ge (hashOf t k hash0)
  have hs0live : minTopHash ≤ s0.top := by
    rw [hms.1]
    exact htop4
  have hs0refl : t.equal s0.key s0.key = true :=
    eqCtx_cross t hctx k s0.key s0.key hms.2 hms.2
  have hs0tag : s0.top = tophashOf (hashOf t s0.key hash0) := by
    refine htags s0 ?_ hs0live hs0refl
    rw [hc, chainSlots_mid]
    exact List.mem_append_right _ (List.mem_cons_self _ _)
  set s1 : Slot α β :=
    { s0 with key := if t.needkeyupdate then k else s0.key, val := v } with hs1
  have hs1top : s1.top = s0.top := rfl
  have hs1keyeq : t.equal s0.key s1.key = true := by
    rw [hs1]
    show t.equal s0.key (if t.needkeyupdate then k else s0.key) = true
    split
    · exact hctx.symm k s0.key hms.2
    · exact hs0refl
  have hhash01 : hashOf t s1.key hash0 = hashOf t s0.key hash0 := by
    unfold hashOf
    rw [hctx.hash_congr s1.key s0.key hash0
      (hctx.symm s0.key s1.key hs1keyeq)]
  have hAeq : chainSlots c = (chainSlots cp ++ p) ++ s0 :: (q ++ chainSlots cq) := by
    rw [hc, chainSlots_mid]
  have hAeq' : chainSlots c' = (chainSlots cp ++ p) ++ s1 :: (q ++ chainSlots cq) := by
    rw [hc', chainSlots_mid]
  refine ⟨?_, ?_, ?_, ?_, ?_, ?_⟩
  · rw [hc] at hshape
    rw [hc']
    exact replace_shape cp p s0 s1 q cq hshape
  · intro s hs
    rw [hc'] at hs
    rcases replace_slots_mem cp p s0 s1 q cq s hs with rfl | hs2
    · rw [hs1top]
      exact Or.inr hs0live
    · rw [← hc] at hs2
      exact hclean s hs2
  · show (liveSlots c').Pairwise _
    have hl' : liveSlots c' = ((chainSlots cp ++ p).filter
        (fun x => decide (minTopHash ≤ x.top))) ++ s1 ::
        ((q ++ chainSlots cq).filter (fun x => decide (minTopHash ≤ x.top))) := by
      show (chainSlots c').filter _ = _
      rw [hAeq', filter_mid_live _ _ _ (hs1top ▸ hs0live)]
    have hl : liveSlots c = ((chainSlots cp ++ p).filter
        (fun x => decide (minTopHash ≤ x.top))) ++ s0 ::
        ((q ++ chainSlots cq).filter (fun x => decide (minTopHash ≤ x.top))) := by
      show (chainSlots c).filter _ = _
      rw [hAeq, filter_mid_live _ _ _ hs0live]
    rw [hl']
    have hnd := hnodup
    unfold chainNoDup at hnd
    rw [hl] at hnd
    refine pairwise_replace _ _ s0 s1 hnd ?_ ?_
    · intro x hx hcon
      refine hx ⟨hcon.1.trans hs1top, ?_⟩
      exact hctx.trans x.key s1.key s0.key hcon.2
        (hctx.symm s0.key s1.key hs1keyeq)
    · intro x hx hcon
      refine hx ⟨hs1top.symm.trans hcon.1, ?_⟩
      exact hctx.trans s0.key s1.key x.key hs1keyeq hcon.2
  · intro s hs hl hr
    rw [hc'] at hs
    rcases replace_slots_mem cp p s0 s1 q cq s hs with rfl | hs2
    · rw [hs1top, hhash01]
      exact hs0tag
    · rw [← hc] at hs2
      exact htags s hs2 hl hr
  · show ((chainSlots c').filter _).length = ((chainSlots c).filter _).length
    rw [hAeq, hAeq', live_len_mid, live_len_mid, hs1top]
  · rw [hc, hc']
    exact replace_len cp p s0 s1 q cq

theorem chainSlots_append_one (c : Chain α β) (b : Bucket α β) :
    chainSlots (c ++ [b]) = chainSlots c ++ b := by
  unfold chainSlots
  rw [List.flatten_append]
  simp

/-- The insert-at-first-empty of `mapassign`'s miss case preserves every
per-chain invariant, adding one live cell. -/
theorem insert_chain_WFT (t : MapType α β) (hctx : EqCtx t) (k : α) (v : β)
    (hash0 : Nat) (c c' : Chain α β) (hkk : t.equal k k = true)
    (hnoup : ∀ s ∈ chainSlots c, ¬ slotMatch t (tophashOf (hashOf t k hash0)) k s)
    (hins : chainInsertEmpty
      (⟨tophashOf (hashOf t k hash0), k, v⟩ : Slot α β) c = some c')
    (hshape : ChainShape c) (hclean : cleanChain c) (hnodup : chainNoDup t c)
    (htags : ∀ s ∈ chainSlots c, minTopHash ≤ s.top →
      t.equal s.key s.key = true → s.top = tophashOf (hashOf t s.key hash0)) :
    ChainShape c' ∧ cleanChain c' ∧ chainNoDup t c' ∧
    (∀ s ∈ chainSlots c', minTopHash ≤ s.top →
      t.equal s.key s.key = true → s.top = tophashOf (hashOf t s.key hash0)) ∧
    (liveSlots c').length = (liveSlots c).length + 1 ∧ c'.length = c.length := by
  obtain ⟨cp, p, e, q, cq, hc, hc', he⟩ := chainInsertEmpty_decomp' _ c c' hins
  have htop4 : minTopHash ≤ tophashOf (hashOf t k hash0) :=
    tophashOf_ge (hashOf t k hash0)
  have hedead : ¬ minTopHash ≤ e.top := by
    rw [he]
    decide
  set s1 : Slot α β := ⟨tophashOf (hashOf t k hash0), k, v⟩ with hs1
  have hAeq : chainSlots c = (chainSlots cp ++ p) ++ e :: (q ++ chainSlots cq) := by
    rw [hc, chainSlots_mid]
  have hAeq' : chainSlots c' = (chainSlots cp ++ p) ++ s1 :: (q ++ chainSlots cq) := by
    rw [hc', chainSlots_mid]
  have hmemA : ∀ x, x ∈ (chainSlots cp ++ p) → x ∈ chainSlots c := by
    intro x hx
    rw [hAeq]
    exact List.mem_append_left _ hx
  have hmemB : ∀ x, x ∈ (q ++ chainSlots cq) → x ∈ chainSlots c := by
    intro x hx
    rw [hAeq]
    exact List.mem_append_right _ (List.mem_cons_of_mem _ hx)
  refine ⟨?_, ?_, ?_, ?_, ?_, ?_⟩
  · rw [hc] at hshape
    rw [hc']
    exact replace_shape cp p e s1 q cq hshape
  · intro s hs
    rw [hc'] at hs
    rcases replace_slots_mem cp p e s1 q cq s hs with rfl | hs2
    · exact Or.inr htop4
    · rw [← hc] at hs2
      exact hclean s hs2
  · show (liveSlots c').Pairwise _
    have hl' : liveSlots c' = ((chainSlots cp ++ p).filter
        (fun x => decide (minTopHash ≤ x.top))) ++ s1 ::
        ((q ++ chainSlots cq).filter (fun x => decide (minTopHash ≤ x.top))) := by
      show (chainSlots c').filter _ = _
      rw [hAeq', filter_mid_live _ _ _ htop4]
    have hl : liveSlots c = ((chainSlots cp ++ p).filter
        (fun x => decide (minTopHash ≤ x.top))) ++
        ((q ++ chainSlots cq).filter (fun x => decide (minTopHash ≤ x.top))) := by
      show (chainSlots c).filter _ = _
      rw [hAeq, filter_mid_dead _ _ _ hedead]
    rw [hl']
    have hnd := hnodup
    unfold chainNoDup at hnd
    rw [hl] at hnd
    refine pairwise_insert _ _ s1 hnd ?_ ?_
    · intro x hx hcon
      have hxc := hmemA x (List.mem_of_mem_filter hx)
      refine hnoup x hxc ⟨hcon.1, ?_⟩
      exact hctx.symm x.key k hcon.2
    · intro x hx hcon
      have hxc := hmemB x (List.mem_of_mem_filter hx)
      exact hnoup x hxc ⟨hcon.1.symm, hcon.2⟩
  · intro s hs hl hr
    rw [hc'] at hs
    rcases replace_slots_mem cp p e s1 q cq s hs with rfl | hs2
    · rfl
    · rw [← hc] at hs2
      exact htags s hs2 hl hr
  · show ((chainSlots c').filter _).length = ((chainSlots c).filter _).length + 1
    rw [hAeq, hAeq', live_len_mid, live_len_mid, he]
    rw [if_pos htop4, if_neg (by decide)]
    omega
  · rw [hc, hc']
    exact replace_len cp p e s1 q cq

/-- The overflow-bucket append of `mapassign`'s full-chain case preserves
every per-chain invariant, adding one live cell. -/
theorem append_chain_WFT (t : MapType α β) (hctx : EqCtx t) (k : α) (v : β)
    (hash0 : Nat) (c : Chain α β) (hkk : t.equal k k = true)
    (hnoup : ∀ s ∈ chainSlots c, ¬ slotMatch t (tophashOf (hashOf t k hash0)) k s)
    (hshape : ChainShape c) (hclean : cleanChain c) (hnodup : chainNoDup t c)
    (htags : ∀ s ∈ chainSlots c, minTopHash ≤ s.top →
      t.equal s.key s.key = true → s.top = tophashOf (hashOf t s.key hash0)) :
    ChainShape (c ++ [(⟨tophashOf (hashOf t k hash0), k, v⟩ : Slot α β) ::
      List.replicate (bucketCnt - 1) emptySlot]) ∧
    cleanChain (c ++ [(⟨tophashOf (hashOf t k hash0), k, v⟩ : Slot α β) ::
      List.replicate (bucketCnt - 1) emptySlot]) ∧
    chainNoDup t (c ++ [(⟨tophashOf (hashOf t k hash0), k, v⟩ : Slot α β) ::
      List.replicate (bucketCnt - 1) emptySlot]) ∧
    (∀ s ∈ chainSlots (c ++ [(⟨tophashOf (hashOf t k hash0), k, v⟩ : Slot α β) ::
        List.replicate (bucketCnt - 1) emptySlot]),
      minTopHash ≤ s.top → t.equal s.key s.key = true →
      s.top = tophashOf (hashOf t s.key hash0)) ∧
    (liveSlots (c ++ [(⟨tophashOf (hashOf t k hash0), k, v⟩ : Slot α β) ::
      List.replicate (bucketCnt - 1) emptySlot])).length =
      (liveSlots c).length + 1 := by
  have htop4 : minTopHash ≤ tophashOf (hashOf t k hash0) :=
    tophashOf_ge (hashOf t k hash0)
  set s1 : Slot α β := ⟨tophashOf (hashOf t k hash0), k, v⟩ with hs1
  have hcs : chainSlots (c ++ [s1 :: List.replicate (bucketCnt - 1) emptySlot]) =
      chainSlots c ++ s1 :: List.replicate (bucketCnt - 1) emptySlot :=
    chainSlots_append_one c _
  have hpadf : (List.replicate (bucketCnt - 1) (emptySlot : Slot α β)).filter
      (fun x => decide (minTopHash ≤ x.top)) = [] := by
    rw [List.filter_eq_nil_iff]
    intro x hx
    rw [List.eq_of_mem_replicate hx]
    show ¬ decide (minTopHash ≤ ((emptySlot : Slot α β)).top) = true
    rw [show ((emptySlot : Slot α β)).top = 0 from rfl]
    decide
  refine ⟨?_, ?_, ?_, ?_, ?_⟩
  · refine ⟨by simp, ?_⟩
    intro b hb
    rcases List.mem_append.1 hb with hb1 | hb2
    · exact hshape.2 b hb1
    · rw [List.mem_singleton.mp hb2]
      simp only [List.length_cons, List.length_replicate]
      decide
  · intro s hs
    rw [hcs] at hs
    rcases List.mem_append.1 hs with hs1' | hs2
    · exact hclean s hs1'
    · rcases List.mem_cons.1 hs2 with rfl | hs3
      · exact Or.inr htop4
      · rw [List.eq_of_mem_replicate hs3]
        exact Or.inl rfl
  · show (liveSlots _).Pairwise _
    have hl' : liveSlots (c ++ [s1 :: List.replicate (bucketCnt - 1) emptySlot]) =
        liveSlots c ++ s1 :: [] := by
      show (chainSlots _).filter _ = _
      rw [hcs, List.filter_append, List.filter_cons,
        if_pos (by simpa using htop4), hpadf]
      rfl
    rw [hl']
    refine pairwise_insert _ _ s1 (by rw [List.append_nil]; exact hnodup) ?_ ?_
    · intro x hx hcon
      have hxc := List.mem_of_mem_filter hx
      refine hnoup x hxc ⟨hcon.1, ?_⟩
      exact hctx.symm x.key k hcon.2
    · intro x hx
      cases hx
  · intro s hs hl hr
    rw [hcs] at hs
    rcases List.mem_append.1 hs with hs1' | hs2
    · exact htags s hs1' hl hr
    · rcases List.mem_cons.1 hs2 with rfl | hs3
      · rfl
      · rw [List.eq_of_mem_replicate hs3,
          show (emptySlot : Slot α β).top = 0 from rfl] at hl
        exact absurd hl (by decide)
  · show ((chainSlots _).filter _).length = _
    rw [hcs, List.filter_append, List.filter_cons,
      if_pos (by simpa using htop4), hpadf, List.length_append]
    rfl

/-- Transport of the strengthened invariant along equality of every header
field except the overflow counter and the random cursor. -/
theorem WFT_of_fields (t : MapType α β) (h h2 : Hmap α β) (hwft : WFT t h)
    (hc : h2.count = h.count) (hf : h2.flags = h.flags) (hB : h2.B = h.B)
    (hh0 : h2.hash0 = h.hash0) (hbk : h2.buckets = h.buckets)
    (hob : h2.oldbuckets = h.oldbuckets) (hnev : h2.nevacuate = h.nevacuate)
    (hb0n : h2.B = 0 → h2.noverflow = 0) : WFT t h2 := by
  have hnb : h2.noldbuckets = h.noldbuckets := noldbuckets_congr h2 h hB hf
  have hgr : h2.growing = h.growing := by
    rw [Hmap.growing, Hmap.growing, hob]
  have hss : h2.isSameSizeGrow = h.isSameSizeGrow := by
    unfold Hmap.isSameSizeGrow
    rw [hf]
  refine ⟨⟨?_, ?_, ?_, ?_, ?_, ?_, ?_, ?_, ?_, ?_, ?_, ?_, ?_, ?_, ?_⟩,
    ?_, ?_, ?_, ?_, ?_⟩
  · rw [hf]
    exact hwft.flags_w
  · rw [hbk, hB]
    exact hwft.blen
  · rw [hbk, hB, hc, hob]
    exact hwft.bnil
  · rw [hss, hgr, hB]
    exact hwft.b0g
  · rw [hbk]
    exact hwft.cur_shape
  · rw [hbk]
    exact hwft.cur_clean
  · rw [hbk]
    exact hwft.cur_nodup
  · rw [hc, hbk, hob]
    exact hwft.count_eq
  · rw [hob, hnb]
    exact hwft.old_len
  · rw [hgr, hnev, hnb]
    exact hwft.old_nev
  · rw [hob]
    exact hwft.old_shape
  · rw [hob]
    exact hwft.old_state
  · rw [hob, hnev]
    exact hwft.old_below_nev
  · rw [hob, hbk, hnb, hss]
    exact hwft.old_unevac
  · rw [hob, hf]
    exact hwft.nog_ss
  · rw [hbk, hh0]
    exact hwft.cur_tags
  · rw [hob, hh0]
    exact hwft.old_tags
  · exact hb0n
  · rw [hB, hbk]
    exact hwft.b0chain
  · rw [hgr, hB]
    exact hwft.grow_B1

theorem WFT_incrnoverflow (t : MapType α β) (h : Hmap α β) (hwft : WFT t h)
    (hBne : h.B ≠ 0) : WFT t (incrnoverflow t h) := by
  obtain ⟨hB, hbk, hob, hc, hf, hh0, hnev⟩ := incrnoverflow_fields t h
  refine WFT_of_fields t h _ hwft hc hf hB hh0 hbk hob hnev ?_
  intro hB0
  rw [hB] at hB0
  exact absurd hB0 hBne

/-- Replacing one current chain (and adding the new live cells to `count`)
preserves the strengthened invariant, provided the new chain satisfies the
per-chain invariants and — during a grow — the backing old bucket of the
written chain has already been evacuated. -/
theorem set_chain_WFT (t : MapType α β) (h : Hmap α β) (hwft : WFT t h)
    (bucket : Nat) (c' : Chain α β) (d : Nat)
    (hbkt : bucket < h.buckets.length)
    (hS : ChainShape c') (hC : cleanChain c') (hN : chainNoDup t c')
    (hT : ∀ s ∈ chainSlots c', minTopHash ≤ s.top →
      t.equal s.key s.key = true → s.top = tophashOf (hashOf t s.key h.hash0))
    (hLL : (liveSlots c').length =
      (liveSlots (h.buckets.getD bucket [])).length + d)
    (hLen01 : h.B = 0 → c'.length = 1)
    (hwrok : ∀ old, h.oldbuckets = some old →
      evacuatedChain (old.getD (bucket &&& h.oldbucketmask) []) = true) :
    WFT t { h with buckets := h.buckets.set bucket c',
                   count := h.count + d } := by
  have hbne : h.buckets ≠ [] := by
    intro habs
    rw [habs] at hbkt
    cases hbkt
  have hgset := genLive_set h.buckets bucket c' hbkt
  have hmask : ∀ j, j < h.noldbuckets → j &&& h.oldbucketmask = j := by
    intro j hj
    have hm : h.oldbucketmask =
        2 ^ (if h.isSameSizeGrow then h.B else h.B - 1) - 1 := rfl
    have hnb : h.noldbuckets =
        2 ^ (if h.isSameSizeGrow then h.B else h.B - 1) := rfl
    rw [hm, Nat.and_pow_two_sub_one_eq_mod]
    rw [hnb] at hj
    exact Nat.mod_eq_of_lt hj
  have hmask2 : ∀ j, j < h.noldbuckets →
      (j + h.noldbuckets) &&& h.oldbucketmask = j := by
    intro j hj
    have hm : h.oldbucketmask =
        2 ^ (if h.isSameSizeGrow then h.B else h.B - 1) - 1 := rfl
    have hnb : h.noldbuckets =
        2 ^ (if h.isSameSizeGrow then h.B else h.B - 1) := rfl
    rw [hm, Nat.and_pow_two_sub_one_eq_mod, hnb, Nat.add_mod_right]
    rw [hnb] at hj
    exact Nat.mod_eq_of_lt hj
  refine ⟨⟨hwft.flags_w, ?_, ?_, hwft.b0g, ?_, ?_, ?_, ?_, hwft.old_len,
    hwft.old_nev, hwft.old_shape, hwft.old_state, hwft.old_below_nev, ?_,
    hwft.nog_ss⟩, ?_, hwft.old_tags, hwft.b0nov, ?_, hwft.grow_B1⟩
  · intro _
    show (h.buckets.set bucket c').length = 2 ^ h.B
    rw [List.length_set]
    exact hwft.blen hbne
  · intro habs
    have habs' : h.buckets.set bucket c' = [] := habs
    have hl := congrArg List.length habs'
    rw [List.length_set, List.length_nil] at hl
    omega
  · intro c hc
    rcases List.mem_or_eq_of_mem_set hc with hc1 | hc2
    · exact hwft.cur_shape c hc1
    · rw [hc2]
      exact hS
  · intro c hc
    rcases List.mem_or_eq_of_mem_set hc with hc1 | hc2
    · exact hwft.cur_clean c hc1
    · rw [hc2]
      exact hC
  · intro c hc
    rcases List.mem_or_eq_of_mem_set hc with hc1 | hc2
    · exact hwft.cur_nodup c hc1
    · rw [hc2]
      exact hN
  · show h.count + d = genLive (h.buckets.set bucket c') +
      genLive (h.oldbuckets.getD [])
    have hce := hwft.count_eq
    omega
  · intro old hsome j hjl hjev
    have hsome' : h.oldbuckets = some old := hsome
    have hpre := hwft.old_unevac old hsome' j hjl hjev
    have hjnb : j < h.noldbuckets := by
      rw [← hwft.old_len old hsome']
      exact hjl
    constructor
    · by_cases hbj : bucket = j
      · exfalso
        have hev := hwrok old hsome'
        rw [hbj, hmask j hjnb] at hev
        rw [hev] at hjev
        cases hjev
      · show (h.buckets.set bucket c').getD j [] = [newBucket]
        rw [getD_set_ne h.buckets bucket j c' [] hbj]
        exact hpre.1
    · intro hssf
      have hssf' : h.isSameSizeGrow = false := hssf
      by_cases hbj : bucket = j + h.noldbuckets
      · exfalso
        have hev := hwrok old hsome'
        rw [hbj, hmask2 j hjnb] at hev
        rw [hev] at hjev
        cases hjev
      · show (h.buckets.set bucket c').getD (j + h.noldbuckets) [] = [newBucket]
        rw [getD_set_ne h.buckets bucket (j + h.noldbuckets) c' [] hbj]
        exact hpre.2 hssf'
  · intro c hc s hs hl hr
    rcases List.mem_or_eq_of_mem_set hc with hc1 | hc2
    · exact hwft.cur_tags c hc1 s hs hl hr
    · rw [hc2] at hs
      exact hT s hs hl hr
  · intro hB0 c hc
    rcases List.mem_or_eq_of_mem_set hc with hc1 | hc2
    · exact hwft.b0chain hB0 c hc1
    · rw [hc2]
      exact hLen01 hB0

end GoMap
